import Mathlib

/-!
The simulation engine of brain_pdp: partition, routing and node update.

A shallow embedding of the simulation engine of `brain_pdp` (`main.c`,
`event_handler.c`, `neuron.c`, `input_loader.c`, `brain.h`).

Conventions of the embedding.

* A C `int` is an `Int`; arithmetic is exact (signed overflow is undefined in
  C, so the embedding describes the executions without it).  C integer
  division and remainder are `Int.tdiv` and `Int.tmod`.
* A C `float` is a `Rat`; arithmetic is exact.
* A C array is a map from `Int` indices to values; a pointer that the code
  tests against `NULL` is an `Option` of such a map.
* The process globals (`brain_nodes`, `edges`, the two id tables, `rank`,
  `size`, ...) are the fields of `State`.  Messages handed to `MPI_Send` are
  appended to `State.sent`; lines printed to stdout or stderr are appended to
  `State.log`.
* `rand()` is a stream of draws held in the state together with a cursor.
* A `while` loop whose exit depends on data takes a fuel argument: the result
  is `none` when the loop is still running after that many iterations.
-/

namespace BrainPdp

/-! ## Constants of `brain.h` and `neuron.c` -/

def NUM_SIGNAL_TYPES : Int := 10

def SIGNAL_INBOX_SIZE : Int := 16384

def MAX_NODE_ID : Int := 2048

def MAX_RANDOM_NERVE_SIGNALS_TO_FIRE : Int := 20

def MAX_SIGNAL_VALUE : Int := 1000

def SIGNAL_THRESHOLD : Rat := 1 / 1000

/-! ## Data model of `brain.h` -/

inductive NeuronType where
  | SENSORY
  | MOTOR
  | UNIPOLAR
  | PSEUDOUNIPOLAR
  | BIPOLAR
  | MULTIPOLAR
  deriving DecidableEq, Repr

inductive NodeType where
  | NEURON
  | NERVE
  deriving DecidableEq, Repr

inductive EdgeDirection where
  | BIDIRECTIONAL
  | UNIDIRECTIONAL
  deriving DecidableEq, Repr

structure SignalStruct where
  type : Int
  value : Rat
  deriving DecidableEq, Repr

/-- An edge; the C fields `from` and `to` are `from_` and `to_`. -/
structure EdgeStruct where
  from_ : Int
  to_ : Int
  direction : EdgeDirection
  messageTypeWeightings : Int → Rat
  max_value : Rat

structure NeuronNerveStruct where
  id : Int
  num_edges : Int
  num_outstanding_signals : Int
  total_signals_recieved : Int
  num_nerve_outputs : Option (Int → Int)
  num_nerve_inputs : Option (Int → Int)
  signals_this_ns : Int
  signals_last_ns : Int
  x : Rat
  y : Rat
  z : Rat
  node_type : NodeType
  neuron_type : NeuronType
  edges : Option (Int → Int)
  signalInbox : Int → SignalStruct
  is_active : Int

inductive EventType where
  | EVENT_TYPE_SIGNAL
  | EVENT_TYPE_REPORT
  | EVENT_TYPE_TERMINATE
  deriving DecidableEq, Repr

/-- An event; the file name buffer of a report event is not modelled. -/
structure Event where
  type : EventType
  target : Int
  signal : SignalStruct
  deriving DecidableEq, Repr

/-- The wire record of `event_handler.c`. -/
structure PackedSignal where
  type : Int
  target : Int
  value : Rat
  deriving DecidableEq, Repr

/-- The diagnostic lines the modelled functions print, with their arguments. -/
inductive LogLine where
  | ownerUnknown (rank id : Int)
  | invalidLocalId (rank id : Int)
  | invalidLocalIndex (rank id idx : Int)
  | invalidReceivedId (rank id : Int)
  | invalidReceivedIndex (rank id idx : Int)
  | signalDropped (rank nodeId : Int)
  deriving DecidableEq, Repr

/-- The globals of one worker process. -/
structure State where
  brain_nodes : Int → NeuronNerveStruct
  edges : Int → EdgeStruct
  num_edges : Int
  num_brain_nodes : Int
  id_to_index_map : Option (Int → Int)
  id_to_index : Option (Int → Int)
  rank : Int
  size : Int
  rand_ints : Nat → Nat
  rand_floats : Nat → Rat
  rand_pos : Nat
  sent : List (Int × PackedSignal)
  log : List LogLine
  exited : Bool

/-! ## Random draws -/

/-- Modelled from the spec: the body of `getRandomInteger` is not among the
sources; the spec describes its result as a draw from `[min, max)` (a signal
type in `[0, 10)`, one of the `num_edges` incident edges).  The draw consumes
one element of the stream. -/
def getRandomInteger (s : State) (min max : Int) : Int × State :=
  (min + ((s.rand_ints s.rand_pos : Nat) : Int) % (max - min),
    { s with rand_pos := s.rand_pos + 1 })

/-- Modelled from the spec: the body of `generateDecimalRandomNumber` is not
among the sources; the spec describes its result as a magnitude in
`[0, max_val)`.  The draw is the fractional part of the next stream element,
scaled by `max_val`. -/
def generateDecimalRandomNumber (s : State) (max_val : Int) : Rat × State :=
  let q := s.rand_floats s.rand_pos
  ((max_val : Rat) * (q - ((Rat.floor q : Int) : Rat)),
    { s with rand_pos := s.rand_pos + 1 })

/-! ## Partition (`main.c`, lines 110-114) -/

def neurons_per_rank (num_brain_nodes size : Int) : Int :=
  Int.tdiv num_brain_nodes size

def remainder (num_brain_nodes size : Int) : Int :=
  Int.tmod num_brain_nodes size

def start_idx (num_brain_nodes size rank : Int) : Int :=
  rank * neurons_per_rank num_brain_nodes size +
    (if rank < remainder num_brain_nodes size then rank
     else remainder num_brain_nodes size)

def local_count (num_brain_nodes size rank : Int) : Int :=
  neurons_per_rank num_brain_nodes size +
    (if rank < remainder num_brain_nodes size then 1 else 0)

def end_idx (num_brain_nodes size rank : Int) : Int :=
  start_idx num_brain_nodes size rank + local_count num_brain_nodes size rank

/-! ## Owner lookup (`event_handler.c`, lines 34-53) -/

/-- The loop `for (r = ...; r < size; r++)` of `getOwnerRankById`, entered
with `r` and with `todo` iterations left (`size - r` of them). -/
def ownerLoop (global_idx base extra : Int) : Nat → Int → Int
  | 0, _ => -1
  | todo + 1, r =>
    let start := r * base + (if r < extra then r else extra)
    let count := base + (if r < extra then 1 else 0)
    if global_idx ≥ start ∧ global_idx < start + count then r
    else ownerLoop global_idx base extra todo (r + 1)

def getOwnerRankById (s : State) (id : Int) : Int :=
  match s.id_to_index with
  | none => -1
  | some tbl =>
    if id < 0 ∨ id ≥ MAX_NODE_ID then -1
    else
      let global_idx := tbl id
      if global_idx = -1 then -1
      else
        let base := Int.tdiv s.num_brain_nodes s.size
        let extra := Int.tmod s.num_brain_nodes s.size
        ownerLoop global_idx base extra s.size.toNat 0

/-! ## Event dispatch and routing (`event_handler.c`) -/

/-- The central dispatcher.  A report event writes the report file, which is
outside the state; a terminate event ends the process.  The callers never pass
a `NULL` event, and the three values of `EventType` leave the `default` branch
of the `switch` without a case. -/
def handle_event (s : State) (event : Event) : State :=
  match event.type with
  | EventType.EVENT_TYPE_SIGNAL =>
    if event.target < 0 ∨ event.target ≥ s.num_brain_nodes then s
    else
      let node := s.brain_nodes event.target
      if node.num_outstanding_signals < SIGNAL_INBOX_SIZE then
        let inbox :=
          Function.update node.signalInbox node.num_outstanding_signals event.signal
        let node1 := { node with
          signalInbox := inbox
          num_outstanding_signals := node.num_outstanding_signals + 1 }
        { s with brain_nodes := Function.update s.brain_nodes event.target node1 }
      else
        { s with log := s.log ++ [LogLine.signalDropped s.rank node.id] }
  | EventType.EVENT_TYPE_REPORT => s
  | EventType.EVENT_TYPE_TERMINATE => { s with exited := true }

def sendSignalToRank (s : State) (tgt_id : Int) (signal : SignalStruct)
    (sender_rank _world_size : Int) : State :=
  let owner := getOwnerRankById s tgt_id
  if owner = -1 then
    { s with log := s.log ++ [LogLine.ownerUnknown sender_rank tgt_id] }
  else if owner = sender_rank then
    match s.id_to_index_map with
    | none => { s with log := s.log ++ [LogLine.invalidLocalId sender_rank tgt_id] }
    | some map =>
      if tgt_id < 0 ∨ tgt_id ≥ MAX_NODE_ID ∨ map tgt_id = -1 then
        { s with log := s.log ++ [LogLine.invalidLocalId sender_rank tgt_id] }
      else
        let tgt_idx := map tgt_id
        if tgt_idx < 0 ∨ tgt_idx ≥ s.num_brain_nodes then
          { s with log := s.log ++ [LogLine.invalidLocalIndex sender_rank tgt_id tgt_idx] }
        else
          handle_event s (Event.mk EventType.EVENT_TYPE_SIGNAL tgt_idx signal)
  else
    { s with sent := s.sent ++ [(owner, PackedSignal.mk signal.type tgt_id signal.value)] }

/-- The receive loop, run on the messages `msgs` that the successive probes
find pending, in arrival order. -/
def receiveIncomingSignals (s : State) (msgs : List PackedSignal) (current_rank : Int) :
    State :=
  match msgs with
  | [] => s
  | recv_signal :: rest =>
    let tgt_id := recv_signal.target
    match s.id_to_index_map with
    | none =>
      receiveIncomingSignals
        { s with log := s.log ++ [LogLine.invalidReceivedId current_rank tgt_id] }
        rest current_rank
    | some map =>
      if tgt_id < 0 ∨ tgt_id ≥ MAX_NODE_ID ∨ map tgt_id = -1 then
        receiveIncomingSignals
          { s with log := s.log ++ [LogLine.invalidReceivedId current_rank tgt_id] }
          rest current_rank
      else
        let tgt_idx := map tgt_id
        if tgt_idx < 0 ∨ tgt_idx ≥ s.num_brain_nodes then
          receiveIncomingSignals
            { s with log := s.log ++
                [LogLine.invalidReceivedIndex current_rank tgt_id tgt_idx] }
            rest current_rank
        else
          receiveIncomingSignals
            (handle_event s (Event.mk EventType.EVENT_TYPE_SIGNAL tgt_idx
              (SignalStruct.mk recv_signal.type recv_signal.value)))
            rest current_rank

/-! ## Node update (`neuron.c`, `input_loader.c`) -/

def neuronTypeToIndex (type : NeuronType) : Int :=
  match type with
  | NeuronType.SENSORY => 0
  | NeuronType.MOTOR => 1
  | NeuronType.UNIPOLAR => 2
  | NeuronType.PSEUDOUNIPOLAR => 3
  | NeuronType.BIPOLAR => 4
  | NeuronType.MULTIPOLAR => 5

/-- The table `{0.8, 1.2, 1.1, 2.6, 0.3, 1.8}` as a map from its index. -/
def NEURON_TYPE_SIGNAL_WEIGHTS (i : Int) : Rat :=
  if i = 0 then 8 / 10
  else if i = 1 then 12 / 10
  else if i = 2 then 11 / 10
  else if i = 3 then 26 / 10
  else if i = 4 then 3 / 10
  else if i = 5 then 18 / 10
  else 0

/-- The statement `if (counters) counters[i]++` on a counter array that may be
`NULL`. -/
def bumpCounter (counters : Option (Int → Int)) (i : Int) : Option (Int → Int) :=
  match counters with
  | none => none
  | some c => some (Function.update c i (c i + 1))

/-- Overwrite `brain_nodes[node_idx]`. -/
def setNode (s : State) (node_idx : Int) (node : NeuronNerveStruct) : State :=
  { s with brain_nodes := Function.update s.brain_nodes node_idx node }

/-- The loop `while (signal >= SIGNAL_THRESHOLD)` of `fireSignal`; `none` when
it is still running after `fuel` iterations.  The node's edge list is read
again on every iteration; a `NULL` list (excluded by the guard of `fireSignal`)
leaves the loop. -/
def fireSignalLoop : Nat → State → Int → Rat → Int → Option State
  | fuel, s, node_idx, signal, signal_type =>
    if signal ≥ SIGNAL_THRESHOLD then
      match fuel with
      | 0 => none
      | fuel + 1 =>
        let pick := getRandomInteger s 0 (s.brain_nodes node_idx).num_edges
        let s1 := pick.2
        match (s1.brain_nodes node_idx).edges with
        | none => some s1
        | some node_edges =>
          let edge_idx := node_edges pick.1
          if edge_idx < 0 ∨ edge_idx ≥ s1.num_edges then some s1
          else
            let edge := s1.edges edge_idx
            let tgt_id :=
              if edge.from_ = (s1.brain_nodes node_idx).id then edge.to_ else edge.from_
            let chunk := if signal > edge.max_value then edge.max_value else signal
            let type_weight := edge.messageTypeWeightings signal_type
            let node := s1.brain_nodes node_idx
            let s2 :=
              if node.node_type = NodeType.NERVE then
                setNode s1 node_idx
                  { node with num_nerve_outputs := bumpCounter node.num_nerve_outputs signal_type }
              else s1
            let s3 := sendSignalToRank s2 tgt_id (SignalStruct.mk signal_type (chunk * type_weight))
              s2.rank s2.size
            fireSignalLoop fuel s3 node_idx (signal - chunk) signal_type
    else some s

def fireSignal (fuel : Nat) (s : State) (node_idx : Int) (signal : Rat) (signal_type : Int) :
    Option State :=
  if (s.brain_nodes node_idx).edges.isNone ∨ (s.brain_nodes node_idx).num_edges ≤ 0 then some s
  else if signal_type < 0 ∨ signal_type ≥ NUM_SIGNAL_TYPES then some s
  else fireSignalLoop fuel s node_idx signal signal_type

def handleSignal (fuel : Nat) (s : State) (node_idx : Int) (signal : Rat) (signal_type : Int) :
    Option State :=
  let node := s.brain_nodes node_idx
  if node.node_type = NodeType.NERVE then
    let s1 := setNode s node_idx
      { node with num_nerve_outputs := bumpCounter node.num_nerve_outputs signal_type }
    fireSignal fuel s1 node_idx signal signal_type
  else
    let weight := NEURON_TYPE_SIGNAL_WEIGHTS (neuronTypeToIndex node.neuron_type)
    let signal1 := signal * weight
    let recent := node.signals_last_ns + node.signals_this_ns
    if recent > 500 then
      let halve := getRandomInteger s 0 2
      let signal2 := if halve.1 = 1 then signal1 / 2 else signal1
      let drop := getRandomInteger halve.2 0 3
      if drop.1 = 1 then some drop.2
      else fireSignal fuel drop.2 node_idx signal2 signal_type
    else fireSignal fuel s node_idx signal1 signal_type

/-- The random firing loop of `updateNodes`, with `todo` iterations left. -/
def exciteLoop (fuel : Nat) : Nat → State → Int → Option State
  | 0, s, _ => some s
  | todo + 1, s, node_idx =>
    let value := generateDecimalRandomNumber s MAX_SIGNAL_VALUE
    let type := getRandomInteger value.2 0 NUM_SIGNAL_TYPES
    let s1 := type.2
    let node := s1.brain_nodes node_idx
    let s2 := setNode s1 node_idx
      { node with num_nerve_inputs := bumpCounter node.num_nerve_inputs type.1 }
    match fireSignal fuel s2 node_idx value.1 type.1 with
    | none => none
    | some s3 => exciteLoop fuel todo s3 node_idx

/-- The inbox loop `for (i = ...; i < num_outstanding_signals; i++)` of
`updateNodes`, entered with `i`; the bound is read again before every
iteration.  The result holds the state at loop exit and the signals passed to
`handleSignal`, in order; `none` when the loop is still running after `n`
iterations or a `fireSignal` loop ran out of `fuel`. -/
def drainLoop (fuel : Nat) : Nat → State → Int → Int → Option (State × List SignalStruct)
  | n, s, node_idx, i =>
    if i < (s.brain_nodes node_idx).num_outstanding_signals then
      match n with
      | 0 => none
      | n + 1 =>
        let node := s.brain_nodes node_idx
        let sig := node.signalInbox i
        let s1 :=
          if node.node_type = NodeType.NERVE then
            setNode s node_idx
              { node with num_nerve_inputs := bumpCounter node.num_nerve_inputs sig.type }
          else s
        match handleSignal fuel s1 node_idx sig.value sig.type with
        | none => none
        | some s2 =>
          let node2 := s2.brain_nodes node_idx
          let s3 := setNode s2 node_idx
            { node2 with signals_this_ns := node2.signals_this_ns + 1 }
          match drainLoop fuel n s3 node_idx (i + 1) with
          | none => none
          | some (s4, handled) => some (s4, sig :: handled)
    else some (s, [])

/-- The excitation step of `updateNodes` (nerves with at least one edge). -/
def exciteStep (fuel : Nat) (s : State) (node_idx : Int) : Option State :=
  if (s.brain_nodes node_idx).num_edges > 0 ∧
      (s.brain_nodes node_idx).node_type = NodeType.NERVE then
    let count := getRandomInteger s 0 MAX_RANDOM_NERVE_SIGNALS_TO_FIRE
    exciteLoop fuel count.1.toNat count.2 node_idx
  else some s

def updateNodes (fuel : Nat) (s : State) (node_idx : Int) : Option State :=
  match exciteStep fuel s node_idx with
  | none => none
  | some s1 =>
    match drainLoop fuel fuel s1 node_idx 0 with
    | none => none
    | some (s2, _) =>
      let node := s2.brain_nodes node_idx
      some (setNode s2 node_idx
        { node with
          total_signals_recieved := node.total_signals_recieved + node.num_outstanding_signals
          num_outstanding_signals := 0 })

/-! ## Sequences of operations and state predicates -/

/-- The events `handle_event` receives when the signals `sigs` are dispatched
one after the other at the node with index `target`. -/
def dispatchAll (s : State) (target : Int) : List SignalStruct → State
  | [] => s
  | sig :: rest =>
    dispatchAll (handle_event s (Event.mk EventType.EVENT_TYPE_SIGNAL target sig)) target rest

/-- One call of an operation that touches the inboxes. -/
inductive Step where
  | dispatch (event : Event)
  | route (tgt_id : Int) (signal : SignalStruct) (sender_rank world_size : Int)
  | receive (msgs : List PackedSignal) (current_rank : Int)
  | fire (fuel : Nat) (node_idx : Int) (signal : Rat) (signal_type : Int)
  | update (fuel : Nat) (node_idx : Int)

def runStep (s : State) : Step → Option State
  | Step.dispatch event => some (handle_event s event)
  | Step.route tgt_id signal sender_rank world_size =>
    some (sendSignalToRank s tgt_id signal sender_rank world_size)
  | Step.receive msgs current_rank => some (receiveIncomingSignals s msgs current_rank)
  | Step.fire fuel node_idx signal signal_type => fireSignal fuel s node_idx signal signal_type
  | Step.update fuel node_idx => updateNodes fuel s node_idx

def runSteps (s : State) : List Step → Option State
  | [] => some s
  | step :: rest =>
    match runStep s step with
    | none => none
    | some s1 => runSteps s1 rest

/-- Every node's outstanding count lies in `[0, SIGNAL_INBOX_SIZE]`. -/
def inboxBounded (s : State) : Prop :=
  ∀ j : Int, 0 ≤ (s.brain_nodes j).num_outstanding_signals ∧
    (s.brain_nodes j).num_outstanding_signals ≤ SIGNAL_INBOX_SIZE

/-- The inboxes of `t` come from those of `s` by appending only: no count
shrinks or passes the capacity, and queued entries stay in place. -/
def Queued (s t : State) : Prop :=
  ∀ j : Int,
    (s.brain_nodes j).num_outstanding_signals ≤ (t.brain_nodes j).num_outstanding_signals ∧
    (t.brain_nodes j).num_outstanding_signals ≤
      max (s.brain_nodes j).num_outstanding_signals SIGNAL_INBOX_SIZE ∧
    (∀ k : Int, k < (s.brain_nodes j).num_outstanding_signals →
      (t.brain_nodes j).signalInbox k = (s.brain_nodes j).signalInbox k)

/-- The received-totals and the per-tick counters of `t` are those of `s`. -/
def TalliesKept (s t : State) : Prop :=
  ∀ j : Int,
    (t.brain_nodes j).total_signals_recieved = (s.brain_nodes j).total_signals_recieved ∧
    (t.brain_nodes j).signals_this_ns = (s.brain_nodes j).signals_this_ns

/-- The state `t` comes from `s` by appending to inboxes only, with the
received-totals and per-tick counters untouched. -/
def Appended (s t : State) : Prop :=
  Queued s t ∧ TalliesKept s t

/-! ## Example states -/

def idle_node : NeuronNerveStruct :=
  { id := 0, num_edges := 0, num_outstanding_signals := 0, total_signals_recieved := 0,
    num_nerve_outputs := some (fun _ => 0), num_nerve_inputs := some (fun _ => 0),
    signals_this_ns := 0, signals_last_ns := 0, x := 0, y := 0, z := 0,
    node_type := NodeType.NEURON, neuron_type := NeuronType.SENSORY,
    edges := none, signalInbox := fun _ => SignalStruct.mk 0 0, is_active := 0 }

/-- An edge from node 5 to itself. -/
def loop_edge : EdgeStruct :=
  { from_ := 5, to_ := 5, direction := EdgeDirection.BIDIRECTIONAL,
    messageTypeWeightings := fun _ => 1 / 1000, max_value := 100 }

/-- A sensory neuron with id 5, one incident edge and one queued signal. -/
def loop_node : NeuronNerveStruct :=
  { idle_node with
    id := 5, num_edges := 1, num_outstanding_signals := 1,
    edges := some (fun _ => 0),
    signalInbox := fun i => if i = 0 then SignalStruct.mk 0 1 else SignalStruct.mk 0 0 }

/-- A single worker holding the single node `loop_node` and the edge
`loop_edge`. -/
def loop_state : State :=
  { brain_nodes := fun i => if i = 0 then loop_node else idle_node,
    edges := fun _ => loop_edge, num_edges := 1, num_brain_nodes := 1,
    id_to_index_map := some (fun i => if i = 5 then 0 else -1),
    id_to_index := some (fun i => if i = 5 then 0 else -1),
    rank := 0, size := 1, rand_ints := fun _ => 0, rand_floats := fun _ => 0, rand_pos := 0,
    sent := [], log := [], exited := false }

def pair_edge : EdgeStruct :=
  { from_ := 3, to_ := 7, direction := EdgeDirection.BIDIRECTIONAL,
    messageTypeWeightings := fun _ => 1, max_value := 100 }

/-- Worker 0 of two workers on a graph of two neurons: id 3 at index 0 (owned
by worker 0) and id 7 at index 1 (owned by worker 1), joined by one edge. -/
def pair_state : State :=
  { brain_nodes := fun i =>
      if i = 0 then { idle_node with id := 3, num_edges := 1, edges := some (fun _ => 0) }
      else if i = 1 then { idle_node with id := 7 }
      else idle_node,
    edges := fun _ => pair_edge, num_edges := 1, num_brain_nodes := 2,
    id_to_index_map := some (fun i => if i = 3 then 0 else -1),
    id_to_index := some (fun i => if i = 3 then 0 else if i = 7 then 1 else -1),
    rank := 0, size := 2, rand_ints := fun _ => 0, rand_floats := fun _ => 0, rand_pos := 0,
    sent := [], log := [], exited := false }

/-! ## More state predicates and example states -/

/-- The state `t` differs from `s` at most in the node `node_idx`, and there
not in the edge count, the outstanding count or the received-total; nothing
was handed to the transport. -/
def TouchesOnly (node_idx : Int) (s t : State) : Prop :=
  t.sent = s.sent ∧
  (∀ j : Int, j ≠ node_idx → t.brain_nodes j = s.brain_nodes j) ∧
  (t.brain_nodes node_idx).num_edges = (s.brain_nodes node_idx).num_edges ∧
  (t.brain_nodes node_idx).num_outstanding_signals =
    (s.brain_nodes node_idx).num_outstanding_signals ∧
  (t.brain_nodes node_idx).total_signals_recieved =
    (s.brain_nodes node_idx).total_signals_recieved

/-- A nerve with id 4, no edge and two queued signals. -/
def lone_node : NeuronNerveStruct :=
  { idle_node with
    id := 4, node_type := NodeType.NERVE, num_outstanding_signals := 2,
    signalInbox := fun i => if i = 0 then SignalStruct.mk 1 7 else SignalStruct.mk 2 9 }

/-- A single worker holding `lone_node` at index 0 and an idle neuron at
index 1. -/
def lone_state : State :=
  { brain_nodes := fun i => if i = 0 then lone_node else idle_node,
    edges := fun _ => loop_edge, num_edges := 0, num_brain_nodes := 2,
    id_to_index_map := some (fun i => if i = 4 then 0 else if i = 0 then 1 else -1),
    id_to_index := some (fun i => if i = 4 then 0 else if i = 0 then 1 else -1),
    rank := 0, size := 1, rand_ints := fun _ => 0, rand_floats := fun _ => 0, rand_pos := 0,
    sent := [], log := [], exited := false }

/-! ## The fan-out loop, iteration by iteration -/

/-- What one iteration of the loop of `fireSignal` dispatches: the chosen edge,
the target identifier, the chunk before weighting and the weighted value that
is routed. -/
structure FireRecord where
  edge_idx : Int
  tgt_id : Int
  chunk : Rat
  value : Rat
  deriving DecidableEq, Repr

/-- The body of the loop `while (signal >= SIGNAL_THRESHOLD)` of `fireSignal`,
run once on `signal`: the state after it, and the dispatched record, or `none`
when the body left the function (a `NULL` edge list or a stale edge index). -/
def fireBody (s : State) (node_idx : Int) (signal : Rat) (signal_type : Int) :
    State × Option FireRecord :=
  let pick := getRandomInteger s 0 (s.brain_nodes node_idx).num_edges
  let s1 := pick.2
  match (s1.brain_nodes node_idx).edges with
  | none => (s1, none)
  | some node_edges =>
    let edge_idx := node_edges pick.1
    if edge_idx < 0 ∨ edge_idx ≥ s1.num_edges then (s1, none)
    else
      let edge := s1.edges edge_idx
      let tgt_id :=
        if edge.from_ = (s1.brain_nodes node_idx).id then edge.to_ else edge.from_
      let chunk := if signal > edge.max_value then edge.max_value else signal
      let type_weight := edge.messageTypeWeightings signal_type
      let node := s1.brain_nodes node_idx
      let s2 :=
        if node.node_type = NodeType.NERVE then
          setNode s1 node_idx
            { node with num_nerve_outputs := bumpCounter node.num_nerve_outputs signal_type }
        else s1
      let s3 := sendSignalToRank s2 tgt_id (SignalStruct.mk signal_type (chunk * type_weight))
        s2.rank s2.size
      (s3, some (FireRecord.mk edge_idx tgt_id chunk (chunk * type_weight)))

/-- The loop of `fireSignal` as iterations of `fireBody`, with what it
dispatched: the state at exit, the records of the iterations in order, and the
magnitude left at exit; `none` when the loop is still running after `fuel`
iterations.  Its state is that of `fireSignalLoop` (`fireTrace_state`). -/
def fireTrace : Nat → State → Int → Rat → Int → Option (State × List FireRecord × Rat)
  | fuel, s, node_idx, signal, signal_type =>
    if signal ≥ SIGNAL_THRESHOLD then
      match fuel with
      | 0 => none
      | fuel + 1 =>
        match fireBody s node_idx signal signal_type with
        | (s1, none) => some (s1, [], signal)
        | (s3, some fired) =>
          match fireTrace fuel s3 node_idx (signal - fired.chunk) signal_type with
          | none => none
          | some (t, trace, rest) => some (t, fired :: trace, rest)
    else some (s, [], signal)

/-- The parts of the state that the fan-out loop reads but never writes are
the same in `s` and `t`. -/
def SameWiring (s t : State) : Prop :=
  t.edges = s.edges ∧ t.num_edges = s.num_edges ∧ t.rand_ints = s.rand_ints ∧
  ∀ j : Int, (t.brain_nodes j).edges = (s.brain_nodes j).edges ∧
    (t.brain_nodes j).num_edges = (s.brain_nodes j).num_edges ∧
    (t.brain_nodes j).id = (s.brain_nodes j).id ∧
    (t.brain_nodes j).node_type = (s.brain_nodes j).node_type

/-- The state `s` with the direction field of every edge `e` set to `d e`. -/
def setDirections (s : State) (d : Int → EdgeDirection) : State :=
  { s with edges := fun e => { s.edges e with direction := d e } }

/-- The position in the edge list of `node_idx` that the draw at stream
position `p` selects. -/
def pickAt (s : State) (node_idx : Int) (p : Nat) : Int :=
  (getRandomInteger { s with rand_pos := p } 0 (s.brain_nodes node_idx).num_edges).1

/-- Worker 0 of `pair_state` with the capacity of the edge set to zero. -/
def stuck_state : State :=
  { pair_state with edges := fun _ => { pair_edge with max_value := 0 } }

/-- A single worker whose node 0 (id 3) has two incident edges, edge 0 with
capacity 100 and edge 1 with capacity 0, and whose draws always select the
second entry of the edge list. -/
def two_edge_state : State :=
  { pair_state with
    brain_nodes := fun i =>
      if i = 0 then { idle_node with id := 3, num_edges := 2, edges := some (fun k => k) }
      else if i = 1 then { idle_node with id := 7 }
      else idle_node,
    edges := fun e => if e = 0 then pair_edge else { pair_edge with max_value := 0 },
    num_edges := 2, size := 1, rand_ints := fun _ => 1,
    id_to_index_map := some (fun i => if i = 3 then 0 else if i = 7 then 1 else -1) }

/-! ## Aggregation (`main.c`, lines 184-212) -/

/-- The send buffer of a worker: `local_counts[i]` is the received-total of
`brain_nodes[start_idx + i]`. -/
def local_counts (s : State) (start_idx : Int) (i : Int) : Int :=
  (s.brain_nodes (start_idx + i)).total_signals_recieved

/-- The loop of rank 0 that fills `recvcounts` and `displs`, entered with `r`
and the running `offset`, with `todo` iterations left. -/
def gatherLayout (num_brain_nodes size remainder : Int) :
    Nat → Int → Int → (Int → Int) → (Int → Int) → (Int → Int) × (Int → Int)
  | 0, _, _, recvcounts, displs => (recvcounts, displs)
  | todo + 1, r, offset, recvcounts, displs =>
    let count := Int.tdiv num_brain_nodes size + (if r < remainder then 1 else 0)
    gatherLayout num_brain_nodes size remainder todo (r + 1) (offset + count)
      (Function.update recvcounts r count) (Function.update displs r offset)

/-- Storing `todo` elements of `src`, from its position `k` on, into `recvbuf`
at displacement `displ`. -/
def copyBlock (src : Int → Int) (displ : Int) : Nat → Int → (Int → Int) → (Int → Int)
  | 0, _, recvbuf => recvbuf
  | todo + 1, k, recvbuf =>
    copyBlock src displ todo (k + 1) (Function.update recvbuf (displ + k) (src k))

/-- The library call `MPI_Gatherv` at the root, as the MPI standard describes
it: for each rank `r` in turn, the `recvcounts[r]` elements sent by rank `r`
are stored in the receive buffer from position `displs[r]` on. -/
def MPI_Gatherv (sendbufs : Int → Int → Int) (recvcounts displs : Int → Int) :
    Nat → Int → (Int → Int) → (Int → Int)
  | 0, _, recvbuf => recvbuf
  | todo + 1, r, recvbuf =>
    MPI_Gatherv sendbufs recvcounts displs todo (r + 1)
      (copyBlock (sendbufs r) (displs r) (recvcounts r).toNat 0 recvbuf)

/-- The array `global_counts` on rank 0 after the gather, for the workers
`workers r`, `r` in `[0, size)`, each sending `local_counts` from its own
`start_idx`. -/
def global_counts (workers : Int → State) (num_brain_nodes size : Int) : Int → Int :=
  let layout := gatherLayout num_brain_nodes size (remainder num_brain_nodes size)
    size.toNat 0 0 (fun _ => 0) (fun _ => 0)
  MPI_Gatherv
    (fun r => local_counts (workers r) (start_idx num_brain_nodes size r))
    layout.1 layout.2 size.toNat 0 (fun _ => 0)

/-! ## Reading the graph file (`input_loader.c`, lines 28-176) -/

/-- The reading mode of `loadBrainGraph` (`brain.h`, line 25). -/
inductive ReadMode where
  | NONE
  | NEURON_NERVE
  | EDGE
  deriving DecidableEq, Repr

/-- One line of the graph file, as the `if`/`else if` chain of `loadBrainGraph`
(lines 56-168) tells the lines apart:

* `node_open`: a line starting with `<neuron>` or `<nerve>`;
* `node_close`: a line starting with `</neuron>` or `</nerve>`;
* `edge_open`, `edge_close`: a line starting with `<edge>`, with `</edge>`;
* `id_line value`: a line starting with `<id>`, `value` being what `atoi`
  reads after the tag;
* `other`: every other line that the loader survives (a comment, a coordinate,
  a known `<type>`, a property of an edge).  Such a line changes neither the
  mode, nor the node index, nor a node id, nor the id table. -/
inductive GraphLine where
  | node_open (node_type : NodeType)
  | node_close
  | edge_open
  | edge_close
  | id_line (value : Int)
  | other
  deriving DecidableEq, Repr

/-- The part of the loader's variables that decides the node ids, the id
table and the two counts: the locals `currentMode`, `currentNeuronIdx` and
`currentEdgeIdx`, the field `id` of each element of `brain_nodes`, and the
global `id_to_index_map`. -/
structure LoaderState where
  currentMode : ReadMode
  currentNeuronIdx : Int
  currentEdgeIdx : Int
  node_ids : Int → Int
  id_to_index_map : Int → Int

/-- One turn of the `while (fgets(...))` loop of `loadBrainGraph`.  The result
is `none` when the loader ends the process with `exit(EXIT_FAILURE)`.

* A node tag sets the mode and clears the current node with `memset`, so its
  id is 0 (lines 56-79).
* A closing node tag resets the mode and moves to the next node index (lines
  82-84).
* `<edge>` sets the mode (lines 87-88); `</edge>` resets it and moves to the
  next edge index in mode `EDGE` only, and otherwise matches no later branch
  (lines 106-108).
* `<id>` is taken in mode `NEURON_NERVE` only: it stores the id in the current
  node, exits for `id >= MAX_NODE_ID`, and then stores the current node index
  in the table at `id` (lines 111-120).  In another mode the line matches no
  later branch. -/
def loadLine (l : LoaderState) : GraphLine → Option LoaderState
  | GraphLine.node_open _ =>
    some { l with
      currentMode := ReadMode.NEURON_NERVE,
      node_ids := Function.update l.node_ids l.currentNeuronIdx 0 }
  | GraphLine.node_close =>
    some { l with currentMode := ReadMode.NONE, currentNeuronIdx := l.currentNeuronIdx + 1 }
  | GraphLine.edge_open => some { l with currentMode := ReadMode.EDGE }
  | GraphLine.edge_close =>
    if l.currentMode = ReadMode.EDGE then
      some { l with currentMode := ReadMode.NONE, currentEdgeIdx := l.currentEdgeIdx + 1 }
    else some l
  | GraphLine.id_line id =>
    if l.currentMode = ReadMode.NEURON_NERVE then
      if id ≥ MAX_NODE_ID then none
      else
        some { l with
          node_ids := Function.update l.node_ids l.currentNeuronIdx id,
          id_to_index_map := Function.update l.id_to_index_map id l.currentNeuronIdx }
    else some l
  | GraphLine.other => some l

/-- The `while (fgets(...))` loop of `loadBrainGraph` over the lines of the
file. -/
def loadLines : List GraphLine → LoaderState → Option LoaderState
  | [], l => some l
  | line :: rest, l =>
    match loadLine l line with
    | none => none
    | some l2 => loadLines rest l2

/-- The loader's variables before the first line: mode `NONE` (line 28), a
zeroed node array (`calloc`, line 33), a table of `-1` (lines 41-43) and the
indices 0 (lines 45-46). -/
def loader_start : LoaderState :=
  { currentMode := ReadMode.NONE, currentNeuronIdx := 0, currentEdgeIdx := 0,
    node_ids := fun _ => 0, id_to_index_map := fun _ => -1 }

/-- The loader on rank 0, as far as node ids and the id table go: the lines of
the file in order, from `loader_start`.  The counts `num_brain_nodes` and
`num_edges` are the final `currentNeuronIdx` and `currentEdgeIdx` (lines
176-177). -/
def loadBrainGraph (lines : List GraphLine) : Option LoaderState :=
  loadLines lines loader_start

/-- A predicate on graph files, followed along the loader's mode: `written`
tells whether the node being read has had its `<id>` line taken.  The file
passes when no `<id>` line is taken for a node that had one, every closing
node tag follows a taken `<id>` line, no node tag follows a taken `<id>` line
before the closing tag, and the file does not end inside such a node. -/
def oneIdPerNodeFrom : List GraphLine → ReadMode → Bool → Bool
  | [], _, written => !written
  | GraphLine.node_open _ :: rest, _, written =>
    !written && oneIdPerNodeFrom rest ReadMode.NEURON_NERVE false
  | GraphLine.node_close :: rest, _, written =>
    written && oneIdPerNodeFrom rest ReadMode.NONE false
  | GraphLine.edge_open :: rest, _, written => oneIdPerNodeFrom rest ReadMode.EDGE written
  | GraphLine.edge_close :: rest, mode, written =>
    oneIdPerNodeFrom rest (if mode = ReadMode.EDGE then ReadMode.NONE else mode) written
  | GraphLine.id_line _ :: rest, mode, written =>
    if mode = ReadMode.NEURON_NERVE then !written && oneIdPerNodeFrom rest mode true
    else oneIdPerNodeFrom rest mode written
  | GraphLine.other :: rest, mode, written => oneIdPerNodeFrom rest mode written

/-- Every node of the file gets exactly one `<id>` line that the loader
takes. -/
def oneIdPerNode (lines : List GraphLine) : Bool :=
  oneIdPerNodeFrom lines ReadMode.NONE false

/-! ## Building the id tables (`main.c`, lines 52-98 and 110-126) -/

/-- A loop that stores `table[brain_nodes[i].id] = i` for `todo` consecutive
indices from `i` on: the loop `for (i = start_idx; i < end_idx; i++)` of `main`
(lines 125-126). -/
def tableLoop (brain_nodes : Int → NeuronNerveStruct) : Nat → Int → (Int → Int) → (Int → Int)
  | 0, _, table => table
  | todo + 1, i, table =>
    tableLoop brain_nodes todo (i + 1) (Function.update table (brain_nodes i).id i)

/-- The table set-up of `main` on one worker, run on the state after the
broadcasts (where `id_to_index_map` holds the table of rank 0): `id_to_index`
becomes a copy of the broadcast table, `id_to_index_map` is reset to `-1` and
then filled for the nodes of the worker's own range.  A failed allocation
aborts the process before this point. -/
def startup (s : State) : State :=
  match s.id_to_index_map with
  | none => s
  | some loaded =>
    let start := start_idx s.num_brain_nodes s.size s.rank
    let count := local_count s.num_brain_nodes s.size s.rank
    let end_i := start + count
    { s with
      id_to_index := some loaded,
      id_to_index_map := some (tableLoop s.brain_nodes (end_i - start).toNat start (fun _ => -1)) }

/-- A worker `rank` of `size` right after the broadcasts of `main` (lines
52-98) of what the loader left on rank 0: the table, the two counts and the id
of every node.  The nodes are otherwise at rest. -/
def loaded_state (l : LoaderState) (rank size : Int) : State :=
  { brain_nodes := fun i => { idle_node with id := l.node_ids i },
    edges := fun _ => pair_edge, num_edges := l.currentEdgeIdx,
    num_brain_nodes := l.currentNeuronIdx,
    id_to_index_map := some l.id_to_index_map, id_to_index := none,
    rank := rank, size := size, rand_ints := fun _ => 0, rand_floats := fun _ => 0,
    rand_pos := 0, sent := [], log := [], exited := false }

/-- A graph file of two neurons with ids 3 and 7 and one edge. -/
def pair_file : List GraphLine :=
  [GraphLine.node_open NodeType.NEURON, GraphLine.id_line 3, GraphLine.other,
    GraphLine.other, GraphLine.node_close,
    GraphLine.node_open NodeType.NEURON, GraphLine.other, GraphLine.id_line 7,
    GraphLine.node_close,
    GraphLine.edge_open, GraphLine.other, GraphLine.other, GraphLine.edge_close]

/-- A graph file of two neurons, the second without an `<id>` line, and one
edge. -/
def headless_file : List GraphLine :=
  [GraphLine.node_open NodeType.NEURON, GraphLine.id_line 5, GraphLine.node_close,
    GraphLine.node_open NodeType.NEURON, GraphLine.other, GraphLine.node_close,
    GraphLine.edge_open, GraphLine.other, GraphLine.other, GraphLine.edge_close]

/-- A graph file of one neuron with two `<id>` lines, and one edge. -/
def twice_file : List GraphLine :=
  [GraphLine.node_open NodeType.NEURON, GraphLine.id_line 5, GraphLine.id_line 6,
    GraphLine.node_close,
    GraphLine.edge_open, GraphLine.other, GraphLine.other, GraphLine.edge_close]

/-- What the loader leaves for `pair_file`. -/
def pair_loaded : LoaderState := (loadBrainGraph pair_file).getD loader_start

/-- What the loader leaves for `headless_file`. -/
def headless_loaded : LoaderState := (loadBrainGraph headless_file).getD loader_start

/-- What the loader leaves for `twice_file`. -/
def twice_loaded : LoaderState := (loadBrainGraph twice_file).getD loader_start

/-! ## Signal types in the inboxes -/

theorem start_idx_eq (N W r : Int) (hN : 0 ≤ N) (hW : 1 ≤ W) :
    start_idx N W r = r * (N / W) + min r (N % W) := by
  unfold start_idx neurons_per_rank remainder
  rw [Int.tdiv_eq_ediv hN (by omega), Int.tmod_eq_emod hN (by omega)]
  by_cases h : r < N % W
  · rw [if_pos h, min_eq_left (le_of_lt h)]
  · rw [if_neg h, min_eq_right (not_lt.mp h)]

theorem local_count_eq (N W r : Int) (hN : 0 ≤ N) (hW : 1 ≤ W) :
    local_count N W r = N / W + (if r < N % W then 1 else 0) := by
  unfold local_count neurons_per_rank remainder
  rw [Int.tdiv_eq_ediv hN (by omega), Int.tmod_eq_emod hN (by omega)]

theorem local_count_nonneg (N W r : Int) (hN : 0 ≤ N) (hW : 1 ≤ W) :
    0 ≤ local_count N W r := by
  rw [local_count_eq N W r hN hW]
  have hb : 0 ≤ N / W := Int.ediv_nonneg hN (by omega)
  split_ifs <;> omega

theorem start_idx_zero (N W : Int) (hN : 0 ≤ N) (hW : 1 ≤ W) : start_idx N W 0 = 0 := by
  rw [start_idx_eq N W 0 hN hW]
  have he : 0 ≤ N % W := Int.emod_nonneg N (by omega)
  simp [he]

theorem start_idx_succ (N W r : Int) (hN : 0 ≤ N) (hW : 1 ≤ W) :
    start_idx N W (r + 1) = start_idx N W r + local_count N W r := by
  rw [start_idx_eq N W _ hN hW, start_idx_eq N W _ hN hW, local_count_eq N W r hN hW]
  have hmul : (r + 1) * (N / W) = r * (N / W) + N / W := by ring
  rw [hmul]
  by_cases h : r < N % W
  · rw [if_pos h, min_eq_left (by omega : r + 1 ≤ N % W), min_eq_left (le_of_lt h)]
    omega
  · rw [if_neg h, min_eq_right (by omega : N % W ≤ r + 1), min_eq_right (not_lt.mp h)]
    omega

theorem start_idx_size (N W : Int) (hN : 0 ≤ N) (hW : 1 ≤ W) : start_idx N W W = N := by
  rw [start_idx_eq N W W hN hW]
  have he : N % W < W := Int.emod_lt_of_pos N (by omega)
  rw [min_eq_right (le_of_lt he)]
  have := Int.emod_add_ediv N W
  have hc : W * (N / W) = W * (N / W) := rfl
  linarith [mul_comm W (N / W)]

theorem start_idx_mono_nat (N W r : Int) (hN : 0 ≤ N) (hW : 1 ≤ W) (k : Nat) :
    start_idx N W r ≤ start_idx N W (r + k) := by
  induction k with
  | zero => simp
  | succ k ih =>
    have h1 := start_idx_succ N W (r + k) hN hW
    have h2 := local_count_nonneg N W (r + k) hN hW
    have h3 : r + ((k + 1 : Nat) : Int) = r + k + 1 := by push_cast; ring
    rw [h3, h1]
    omega

theorem start_idx_mono (N W r r2 : Int) (hN : 0 ≤ N) (hW : 1 ≤ W) (h : r ≤ r2) :
    start_idx N W r ≤ start_idx N W r2 := by
  have h1 := start_idx_mono_nat N W r hN hW (r2 - r).toNat
  have h2 : r + ((r2 - r).toNat : Int) = r2 := by omega
  rwa [h2] at h1

theorem end_idx_le_start (N W r r2 : Int) (hN : 0 ≤ N) (hW : 1 ≤ W) (h : r < r2) :
    start_idx N W r + local_count N W r ≤ start_idx N W r2 := by
  rw [← start_idx_succ N W r hN hW]
  exact start_idx_mono N W (r + 1) r2 hN hW (by omega)

theorem range_exists_nat (N W g : Int) (hN : 0 ≤ N) (hW : 1 ≤ W) (hg : 0 ≤ g) (k : Nat) :
    g < start_idx N W k →
      ∃ r : Int, 0 ≤ r ∧ r < k ∧ start_idx N W r ≤ g ∧
        g < start_idx N W r + local_count N W r := by
  induction k with
  | zero =>
    intro h
    have h0 := start_idx_zero N W hN hW
    simp only [Nat.cast_zero] at h
    omega
  | succ k ih =>
    intro h
    by_cases hk : g < start_idx N W k
    · obtain ⟨r, h1, h2, h3, h4⟩ := ih hk
      exact ⟨r, h1, by push_cast; omega, h3, h4⟩
    · refine ⟨k, by omega, by push_cast; omega, by omega, ?_⟩
      have h1 := start_idx_succ N W k hN hW
      have h3 : (((k + 1 : Nat)) : Int) = (k : Int) + 1 := by push_cast; ring
      rw [h3, h1] at h
      exact h

theorem sum_local_count_nat (N W : Int) (hN : 0 ≤ N) (hW : 1 ≤ W) (k : Nat) :
    (∑ r in Finset.range k, local_count N W (r : Int)) = start_idx N W k := by
  induction k with
  | zero => simp [start_idx_zero N W hN hW]
  | succ k ih =>
    rw [Finset.sum_range_succ, ih]
    have h1 := start_idx_succ N W k hN hW
    have h3 : (((k + 1 : Nat)) : Int) = (k : Int) + 1 := by push_cast; ring
    rw [h3, h1]

theorem ranges_disjoint (N W r r2 g : Int) (hN : 0 ≤ N) (hW : 1 ≤ W) (hne : r ≠ r2)
    (h1 : start_idx N W r ≤ g ∧ g < start_idx N W r + local_count N W r)
    (h2 : start_idx N W r2 ≤ g ∧ g < start_idx N W r2 + local_count N W r2) : False := by
  rcases lt_or_gt_of_ne hne with h | h
  · have := end_idx_le_start N W r r2 hN hW h
    omega
  · have := end_idx_le_start N W r2 r hN hW h
    omega

theorem ranges_cover (N W g : Int) (hN : 0 ≤ N) (hW : 1 ≤ W) :
    (∃ r : Int, 0 ≤ r ∧ r < W ∧ start_idx N W r ≤ g ∧
        g < start_idx N W r + local_count N W r) ↔ (0 ≤ g ∧ g < N) := by
  constructor
  · rintro ⟨r, h0, hr, h1, h2⟩
    have hz := start_idx_zero N W hN hW
    have hm := start_idx_mono N W 0 r hN hW h0
    have he := end_idx_le_start N W r W hN hW hr
    have hs := start_idx_size N W hN hW
    omega
  · rintro ⟨h0, h1⟩
    have hs := start_idx_size N W hN hW
    have hc : ((W.toNat : Nat) : Int) = W := by omega
    have := range_exists_nat N W g hN hW h0 W.toNat (by rw [hc, hs]; exact h1)
    obtain ⟨r, h2, h3, h4, h5⟩ := this
    exact ⟨r, h2, by omega, h4, h5⟩

/-- C1: for `N ≥ 0` nodes and `W ≥ 1` workers the ranges
`[start_r, start_r + count_r)`, with `start_r = r*base + min(r, extra)` and
`count_r = base + (1 if r < extra else 0)`, are pairwise disjoint for `r` in
`[0, W)`, their union is exactly `[0, N)`, and the counts sum to `N`. -/
theorem partition_ranges_tile (N W : Int) (hN : 0 ≤ N) (hW : 1 ≤ W) :
    (∀ r : Int, start_idx N W r = r * (N / W) + min r (N % W) ∧
      local_count N W r = N / W + (if r < N % W then 1 else 0)) ∧
    (∀ r r2 : Int, 0 ≤ r → r < W → 0 ≤ r2 → r2 < W → r ≠ r2 →
      ∀ g : Int, ¬ ((start_idx N W r ≤ g ∧ g < start_idx N W r + local_count N W r) ∧
        (start_idx N W r2 ≤ g ∧ g < start_idx N W r2 + local_count N W r2))) ∧
    (∀ g : Int, (∃ r : Int, 0 ≤ r ∧ r < W ∧ start_idx N W r ≤ g ∧
        g < start_idx N W r + local_count N W r) ↔ (0 ≤ g ∧ g < N)) ∧
    (∑ r in Finset.range W.toNat, local_count N W (r : Int)) = N := by
  refine ⟨fun r => ⟨start_idx_eq N W r hN hW, local_count_eq N W r hN hW⟩, ?_, ?_, ?_⟩
  · intro r r2 _ _ _ _ hne g hg
    exact ranges_disjoint N W r r2 g hN hW hne hg.1 hg.2
  · intro g
    exact ranges_cover N W g hN hW
  · have hc : ((W.toNat : Nat) : Int) = W := by omega
    rw [sum_local_count_nat N W hN hW, hc, start_idx_size N W hN hW]

/-- C1 at `N = 10`, `W = 3`. -/
theorem partition_ranges_tile_witness :
    (0 : Int) ≤ 10 ∧ (1 : Int) ≤ 3 ∧
      (∑ r in Finset.range (3 : Int).toNat, local_count 10 3 (r : Int)) = 10 :=
  ⟨by decide, by decide, (partition_ranges_tile 10 3 (by decide) (by decide)).2.2.2⟩

/-! ## Owner lookup -/

/-- The loop returns the first worker at or after `r` whose range holds
`global_idx`, and `-1` when there is none among the next `todo`. -/
theorem ownerLoop_spec (g b e : Int) (todo : Nat) (r : Int) (hr : 0 ≤ r) :
    (ownerLoop g b e todo r = -1 ∧
      ∀ r2 : Int, r ≤ r2 → r2 < r + todo →
        ¬ (g ≥ r2 * b + (if r2 < e then r2 else e) ∧
          g < r2 * b + (if r2 < e then r2 else e) + (b + (if r2 < e then 1 else 0)))) ∨
    (r ≤ ownerLoop g b e todo r ∧ ownerLoop g b e todo r < r + todo ∧
      (g ≥ ownerLoop g b e todo r * b +
          (if ownerLoop g b e todo r < e then ownerLoop g b e todo r else e) ∧
        g < ownerLoop g b e todo r * b +
          (if ownerLoop g b e todo r < e then ownerLoop g b e todo r else e) +
          (b + (if ownerLoop g b e todo r < e then 1 else 0)))) := by
  induction todo generalizing r with
  | zero =>
    left
    refine ⟨rfl, ?_⟩
    intro r2 h1 h2
    simp only [Nat.cast_zero] at h2
    omega
  | succ todo ih =>
    by_cases hin : g ≥ r * b + (if r < e then r else e) ∧
        g < r * b + (if r < e then r else e) + (b + (if r < e then 1 else 0))
    · right
      have hres : ownerLoop g b e (todo + 1) r = r := by
        simp only [ownerLoop]
        rw [if_pos hin]
      rw [hres]
      exact ⟨le_refl r, by push_cast; omega, hin⟩
    · have hres : ownerLoop g b e (todo + 1) r = ownerLoop g b e todo (r + 1) := by
        simp only [ownerLoop]
        rw [if_neg hin]
      rw [hres]
      rcases ih (r + 1) (by omega) with ⟨h1, h2⟩ | ⟨h1, h2, h3⟩
      · left
        refine ⟨h1, ?_⟩
        intro r2 hr2 hr2b
        by_cases heq : r2 = r
        · rw [heq]
          exact hin
        · exact h2 r2 (by omega) (by push_cast at hr2b; omega)
      · right
        exact ⟨by omega, by push_cast; omega, h3⟩

theorem getOwnerRankById_eq (s : State) (id : Int) (tbl : Int → Int)
    (htbl : s.id_to_index = some tbl) (h0 : 0 ≤ id) (h1 : id < MAX_NODE_ID)
    (hg : tbl id ≠ -1) :
    getOwnerRankById s id =
      ownerLoop (tbl id) (Int.tdiv s.num_brain_nodes s.size)
        (Int.tmod s.num_brain_nodes s.size) s.size.toNat 0 := by
  unfold getOwnerRankById
  rw [htbl]
  simp only []
  rw [if_neg (by omega), if_neg hg]

/-- The owner of a mapped identifier, or the sentinel when its table entry
lies outside `[0, num_brain_nodes)`. -/
theorem getOwnerRankById_cases (s : State) (id : Int) (tbl : Int → Int)
    (htbl : s.id_to_index = some tbl) (h0 : 0 ≤ id) (h1 : id < MAX_NODE_ID)
    (hN : 0 ≤ s.num_brain_nodes) (hW : 1 ≤ s.size) :
    (getOwnerRankById s id = -1 ∧ ¬ (0 ≤ tbl id ∧ tbl id < s.num_brain_nodes)) ∨
    ((0 ≤ tbl id ∧ tbl id < s.num_brain_nodes) ∧
      0 ≤ getOwnerRankById s id ∧ getOwnerRankById s id < s.size ∧
      start_idx s.num_brain_nodes s.size (getOwnerRankById s id) ≤ tbl id ∧
      tbl id < start_idx s.num_brain_nodes s.size (getOwnerRankById s id) +
        local_count s.num_brain_nodes s.size (getOwnerRankById s id)) := by
  by_cases hg : tbl id = -1
  · left
    refine ⟨?_, by omega⟩
    unfold getOwnerRankById
    rw [htbl]
    simp only []
    rw [if_neg (by omega), if_pos hg]
  · rw [getOwnerRankById_eq s id tbl htbl h0 h1 hg]
    have hc : ((s.size.toNat : Nat) : Int) = s.size := by omega
    rcases ownerLoop_spec (tbl id) (Int.tdiv s.num_brain_nodes s.size)
      (Int.tmod s.num_brain_nodes s.size) s.size.toNat 0 (le_refl 0) with ⟨h2, h3⟩ | ⟨h2, h3, h4⟩
    · left
      refine ⟨h2, ?_⟩
      intro hin
      obtain ⟨r, hr0, hr1, hr2, hr3⟩ :=
        (ranges_cover s.num_brain_nodes s.size (tbl id) hN hW).mpr hin
      exact h3 r (by omega) (by omega) ⟨hr2, hr3⟩
    · right
      have hin : 0 ≤ tbl id ∧ tbl id < s.num_brain_nodes :=
        (ranges_cover s.num_brain_nodes s.size (tbl id) hN hW).mp
          ⟨_, h2, by omega, h4.1, h4.2⟩
      exact ⟨hin, h2, by omega, h4.1, h4.2⟩

/-- C2: for `W ≥ 1` workers and an identifier in `[0, 2048)` whose global index
`g = id_to_index[id]` lies in `[0, N)`, `getOwnerRankById` returns the unique
worker `r` in `[0, W)` whose range `[start_idx, end_idx)` of `main` holds `g`,
and never the sentinel `-1`. -/
theorem owner_is_range_holder (s : State) (id : Int) (tbl : Int → Int)
    (htbl : s.id_to_index = some tbl) (hW : 1 ≤ s.size) (h0 : 0 ≤ id) (h1 : id < 2048)
    (hg0 : 0 ≤ tbl id) (hg1 : tbl id < s.num_brain_nodes) :
    getOwnerRankById s id ≠ -1 ∧
    0 ≤ getOwnerRankById s id ∧ getOwnerRankById s id < s.size ∧
    start_idx s.num_brain_nodes s.size (getOwnerRankById s id) ≤ tbl id ∧
    tbl id < end_idx s.num_brain_nodes s.size (getOwnerRankById s id) ∧
    ∀ r : Int, 0 ≤ r → r < s.size → start_idx s.num_brain_nodes s.size r ≤ tbl id →
      tbl id < end_idx s.num_brain_nodes s.size r → r = getOwnerRankById s id := by
  have hN : 0 ≤ s.num_brain_nodes := by omega
  rcases getOwnerRankById_cases s id tbl htbl h0 (by unfold MAX_NODE_ID; exact h1) hN hW with
    ⟨_, h3⟩ | ⟨_, h3, h4, h5, h6⟩
  · exact absurd ⟨hg0, hg1⟩ h3
  · refine ⟨by omega, h3, h4, h5, h6, ?_⟩
    intro r _ _ hr3 hr4
    by_contra hne
    exact ranges_disjoint s.num_brain_nodes s.size r (getOwnerRankById s id) (tbl id) hN hW hne
      ⟨hr3, hr4⟩ ⟨h5, h6⟩

/-- C2 on worker 0 of `pair_state`: identifier 7 has global index 1, which
worker 1 owns. -/
theorem owner_is_range_holder_witness :
    getOwnerRankById pair_state 7 ≠ -1 ∧
    0 ≤ getOwnerRankById pair_state 7 ∧ getOwnerRankById pair_state 7 < pair_state.size ∧
    start_idx pair_state.num_brain_nodes pair_state.size (getOwnerRankById pair_state 7) ≤ 1 ∧
    (1 : Int) < end_idx pair_state.num_brain_nodes pair_state.size
      (getOwnerRankById pair_state 7) ∧
    ∀ r : Int, 0 ≤ r → r < pair_state.size →
      start_idx pair_state.num_brain_nodes pair_state.size r ≤ 1 →
      (1 : Int) < end_idx pair_state.num_brain_nodes pair_state.size r →
      r = getOwnerRankById pair_state 7 :=
  owner_is_range_holder pair_state 7 (fun i => if i = 3 then 0 else if i = 7 then 1 else -1)
    rfl (by decide) (by decide) (by decide) (by decide) (by decide)

/-- C3: `getOwnerRankById` returns the sentinel `-1` exactly when the
identifier is unmapped or out of bounds: `id < 0`, `id ≥ 2048`, the id to index
table is absent, its entry for `id` is `-1`, or its entry is not a global index
in `[0, N)` (for a node count `N ≥ 0` and `W ≥ 1` workers). -/
theorem owner_sentinel_iff (s : State) (id : Int) (hN : 0 ≤ s.num_brain_nodes)
    (hW : 1 ≤ s.size) :
    getOwnerRankById s id = -1 ↔
      (id < 0 ∨ id ≥ 2048 ∨ s.id_to_index = none ∨
        ∃ tbl : Int → Int, s.id_to_index = some tbl ∧
          (tbl id = -1 ∨ ¬ (0 ≤ tbl id ∧ tbl id < s.num_brain_nodes))) := by
  by_cases hid : id < 0 ∨ id ≥ 2048
  · have hres : getOwnerRankById s id = -1 := by
      unfold getOwnerRankById
      cases s.id_to_index with
      | none => rfl
      | some tbl =>
        simp only []
        rw [if_pos (by unfold MAX_NODE_ID; exact hid)]
    constructor
    · intro _
      rcases hid with h | h
      · exact Or.inl h
      · exact Or.inr (Or.inl h)
    · intro _
      exact hres
  · have h0 : 0 ≤ id := by omega
    have h1 : id < MAX_NODE_ID := by unfold MAX_NODE_ID; omega
    cases htbl : s.id_to_index with
    | none =>
      constructor
      · intro _
        exact Or.inr (Or.inr (Or.inl rfl))
      · intro _
        unfold getOwnerRankById
        rw [htbl]
    | some tbl =>
      rcases getOwnerRankById_cases s id tbl htbl h0 h1 hN hW with ⟨h2, h3⟩ | ⟨h2, h3, h4, h5, h6⟩
      · constructor
        · intro _
          exact Or.inr (Or.inr (Or.inr ⟨tbl, rfl, Or.inr h3⟩))
        · intro _
          exact h2
      · constructor
        · intro h
          omega
        · intro h
          rcases h with h | h | h | ⟨tbl2, ht2, h⟩
          · omega
          · omega
          · exact absurd h (by simp)
          · have : tbl2 = tbl := by
              injection ht2 with ht2
              exact ht2.symm
            subst this
            rcases h with h | h
            · omega
            · exact absurd h2 h

/-- C3 on `pair_state`: identifier 5 is unmapped (its table entry is `-1`) and
the lookup returns the sentinel. -/
theorem owner_sentinel_iff_witness :
    0 ≤ pair_state.num_brain_nodes ∧ 1 ≤ pair_state.size ∧
    (getOwnerRankById pair_state 5 = -1 ↔
      ((5 : Int) < 0 ∨ (5 : Int) ≥ 2048 ∨ pair_state.id_to_index = none ∨
        ∃ tbl : Int → Int, pair_state.id_to_index = some tbl ∧
          (tbl 5 = -1 ∨ ¬ (0 ≤ tbl 5 ∧ tbl 5 < pair_state.num_brain_nodes)))) :=
  ⟨by decide, by decide, owner_sentinel_iff pair_state 5 (by decide) (by decide)⟩

/-! ## Event dispatch and routing -/

theorem handle_event_store (s : State) (target : Int) (sig : SignalStruct)
    (h0 : 0 ≤ target) (h1 : target < s.num_brain_nodes)
    (hc : (s.brain_nodes target).num_outstanding_signals < SIGNAL_INBOX_SIZE) :
    handle_event s (Event.mk EventType.EVENT_TYPE_SIGNAL target sig) =
      setNode s target
        { s.brain_nodes target with
          signalInbox := Function.update (s.brain_nodes target).signalInbox
            (s.brain_nodes target).num_outstanding_signals sig
          num_outstanding_signals := (s.brain_nodes target).num_outstanding_signals + 1 } := by
  unfold handle_event setNode
  simp only []
  rw [if_neg (by omega), if_pos hc]

theorem handle_event_drop (s : State) (target : Int) (sig : SignalStruct)
    (h0 : 0 ≤ target) (h1 : target < s.num_brain_nodes)
    (hc : SIGNAL_INBOX_SIZE ≤ (s.brain_nodes target).num_outstanding_signals) :
    handle_event s (Event.mk EventType.EVENT_TYPE_SIGNAL target sig) =
      { s with log := s.log ++ [LogLine.signalDropped s.rank (s.brain_nodes target).id] } := by
  unfold handle_event
  simp only []
  rw [if_neg (by omega), if_neg (by omega)]

theorem handle_event_outside (s : State) (target : Int) (sig : SignalStruct)
    (h : target < 0 ∨ target ≥ s.num_brain_nodes) :
    handle_event s (Event.mk EventType.EVENT_TYPE_SIGNAL target sig) = s := by
  unfold handle_event
  simp only []
  rw [if_pos h]

/-- The effect of a stored signal on the node array, field by field. -/
theorem handle_event_store_fields (s : State) (target : Int) (sig : SignalStruct)
    (h0 : 0 ≤ target) (h1 : target < s.num_brain_nodes)
    (hc : (s.brain_nodes target).num_outstanding_signals < SIGNAL_INBOX_SIZE) :
    ((handle_event s (Event.mk EventType.EVENT_TYPE_SIGNAL target sig)).brain_nodes
        target).num_outstanding_signals = (s.brain_nodes target).num_outstanding_signals + 1 ∧
    ((handle_event s (Event.mk EventType.EVENT_TYPE_SIGNAL target sig)).brain_nodes
        target).signalInbox (s.brain_nodes target).num_outstanding_signals = sig ∧
    (∀ k : Int, k ≠ (s.brain_nodes target).num_outstanding_signals →
      ((handle_event s (Event.mk EventType.EVENT_TYPE_SIGNAL target sig)).brain_nodes
        target).signalInbox k = (s.brain_nodes target).signalInbox k) ∧
    (∀ j : Int, j ≠ target →
      (handle_event s (Event.mk EventType.EVENT_TYPE_SIGNAL target sig)).brain_nodes j =
        s.brain_nodes j) ∧
    (handle_event s (Event.mk EventType.EVENT_TYPE_SIGNAL target sig)).sent = s.sent ∧
    (handle_event s (Event.mk EventType.EVENT_TYPE_SIGNAL target sig)).log = s.log := by
  rw [handle_event_store s target sig h0 h1 hc]
  unfold setNode
  refine ⟨by simp, by simp, ?_, ?_, rfl, rfl⟩
  · intro k hk
    simp [Function.update_noteq hk]
  · intro j hj
    simp [Function.update_noteq hj]

/-- C6: for a Signal event whose target index is in `[0, num_brain_nodes)`:
when the target's outstanding count `c` is below 16384, `handle_event` stores
the signal at inbox position `c` and sets the count to `c + 1`, and every other
inbox position and every other node is unchanged; when `c` is 16384 or more,
the signal is dropped and the node array is unchanged. -/
theorem handle_event_signal (s : State) (target : Int) (sig : SignalStruct)
    (h0 : 0 ≤ target) (h1 : target < s.num_brain_nodes) :
    ((s.brain_nodes target).num_outstanding_signals < 16384 →
      ((handle_event s (Event.mk EventType.EVENT_TYPE_SIGNAL target sig)).brain_nodes
          target).signalInbox (s.brain_nodes target).num_outstanding_signals = sig ∧
      ((handle_event s (Event.mk EventType.EVENT_TYPE_SIGNAL target sig)).brain_nodes
          target).num_outstanding_signals = (s.brain_nodes target).num_outstanding_signals + 1 ∧
      (∀ k : Int, k ≠ (s.brain_nodes target).num_outstanding_signals →
        ((handle_event s (Event.mk EventType.EVENT_TYPE_SIGNAL target sig)).brain_nodes
          target).signalInbox k = (s.brain_nodes target).signalInbox k) ∧
      (∀ j : Int, j ≠ target →
        (handle_event s (Event.mk EventType.EVENT_TYPE_SIGNAL target sig)).brain_nodes j =
          s.brain_nodes j)) ∧
    (16384 ≤ (s.brain_nodes target).num_outstanding_signals →
      (handle_event s (Event.mk EventType.EVENT_TYPE_SIGNAL target sig)).brain_nodes =
        s.brain_nodes ∧
      (handle_event s (Event.mk EventType.EVENT_TYPE_SIGNAL target sig)).log =
        s.log ++ [LogLine.signalDropped s.rank (s.brain_nodes target).id]) := by
  constructor
  · intro hc
    obtain ⟨a, b, c, d, _, _⟩ := handle_event_store_fields s target sig h0 h1 hc
    exact ⟨b, a, c, d⟩
  · intro hc
    rw [handle_event_drop s target sig h0 h1 hc]
    exact ⟨rfl, rfl⟩

/-- C6 on `loop_state`: the node at index 0 holds one signal, so a second one
is stored at inbox position 1 and the count becomes 2. -/
theorem handle_event_signal_witness :
    ((handle_event loop_state (Event.mk EventType.EVENT_TYPE_SIGNAL 0
        (SignalStruct.mk 4 9))).brain_nodes 0).signalInbox 1 = SignalStruct.mk 4 9 ∧
    ((handle_event loop_state (Event.mk EventType.EVENT_TYPE_SIGNAL 0
        (SignalStruct.mk 4 9))).brain_nodes 0).num_outstanding_signals = 2 := by
  have h := (handle_event_signal loop_state 0 (SignalStruct.mk 4 9) (by decide)
    (by decide)).1 (by decide)
  exact ⟨h.1, h.2.1⟩

/-- C4: when the owner of the target identifier is the sending worker, the
worker's own table maps the identifier to a node index in
`[0, num_brain_nodes)` and that node has fewer than 16384 queued signals,
`sendSignalToRank` delivers exactly one Signal event: the node's outstanding
count grows by one with the routed signal as the new last inbox entry, every
other inbox position and every other node is unchanged, and nothing is handed
to the transport. -/
theorem sendSignalToRank_local (s : State) (tgt_id : Int) (signal : SignalStruct)
    (sender_rank world_size : Int) (map : Int → Int)
    (howner : getOwnerRankById s tgt_id = sender_rank) (hrank : 0 ≤ sender_rank)
    (hmap : s.id_to_index_map = some map)
    (hidx0 : 0 ≤ map tgt_id) (hidx1 : map tgt_id < s.num_brain_nodes)
    (hroom : (s.brain_nodes (map tgt_id)).num_outstanding_signals < 16384) :
    ((sendSignalToRank s tgt_id signal sender_rank world_size).brain_nodes
        (map tgt_id)).num_outstanding_signals =
      (s.brain_nodes (map tgt_id)).num_outstanding_signals + 1 ∧
    ((sendSignalToRank s tgt_id signal sender_rank world_size).brain_nodes
        (map tgt_id)).signalInbox (s.brain_nodes (map tgt_id)).num_outstanding_signals =
      signal ∧
    (∀ k : Int, k ≠ (s.brain_nodes (map tgt_id)).num_outstanding_signals →
      ((sendSignalToRank s tgt_id signal sender_rank world_size).brain_nodes
        (map tgt_id)).signalInbox k = (s.brain_nodes (map tgt_id)).signalInbox k) ∧
    (∀ j : Int, j ≠ map tgt_id →
      (sendSignalToRank s tgt_id signal sender_rank world_size).brain_nodes j =
        s.brain_nodes j) ∧
    (sendSignalToRank s tgt_id signal sender_rank world_size).sent = s.sent ∧
    (sendSignalToRank s tgt_id signal sender_rank world_size).log = s.log := by
  have hid : ¬ (tgt_id < 0 ∨ tgt_id ≥ MAX_NODE_ID ∨ map tgt_id = -1) := by
    intro h
    rcases h with h | h | h
    · have : getOwnerRankById s tgt_id = -1 := by
        unfold getOwnerRankById
        cases s.id_to_index with
        | none => rfl
        | some tbl =>
          simp only []
          rw [if_pos (Or.inl h)]
      omega
    · have : getOwnerRankById s tgt_id = -1 := by
        unfold getOwnerRankById
        cases s.id_to_index with
        | none => rfl
        | some tbl =>
          simp only []
          rw [if_pos (Or.inr h)]
      omega
    · omega
  have hsend : sendSignalToRank s tgt_id signal sender_rank world_size =
      handle_event s (Event.mk EventType.EVENT_TYPE_SIGNAL (map tgt_id) signal) := by
    unfold sendSignalToRank
    simp only []
    rw [if_neg (by omega), if_pos howner, hmap]
    simp only []
    rw [if_neg hid, if_neg (by omega)]
  rw [hsend]
  exact handle_event_store_fields s (map tgt_id) signal hidx0 hidx1
    (by unfold SIGNAL_INBOX_SIZE; exact hroom)

/-- C4 on worker 0 of `pair_state`: a signal routed to identifier 3, which
worker 0 owns, lands at position 0 of that node's inbox and nothing is sent. -/
theorem sendSignalToRank_local_witness :
    ((sendSignalToRank pair_state 3 (SignalStruct.mk 2 5) 0 2).brain_nodes
        0).num_outstanding_signals = 1 ∧
    ((sendSignalToRank pair_state 3 (SignalStruct.mk 2 5) 0 2).brain_nodes 0).signalInbox 0 =
      SignalStruct.mk 2 5 ∧
    (sendSignalToRank pair_state 3 (SignalStruct.mk 2 5) 0 2).sent = [] := by
  have h := sendSignalToRank_local pair_state 3 (SignalStruct.mk 2 5) 0 2
    (fun i => if i = 3 then 0 else -1) (by decide) (by decide) rfl (by decide) (by decide)
    (by decide)
  exact ⟨h.1, h.2.1, h.2.2.2.2.1⟩

/-- C5: when the resolved owner of the target identifier is a worker other
than the sender, `sendSignalToRank` changes no node (no inbox, no outstanding
count) on the sending worker and hands exactly one message to the transport,
addressed to the owner, with fields `type = signal.type`, `target = tgt_id`,
`value = signal.value`. -/
theorem sendSignalToRank_remote (s : State) (tgt_id : Int) (signal : SignalStruct)
    (sender_rank world_size : Int)
    (hknown : getOwnerRankById s tgt_id ≠ -1)
    (hother : getOwnerRankById s tgt_id ≠ sender_rank) :
    (sendSignalToRank s tgt_id signal sender_rank world_size).brain_nodes = s.brain_nodes ∧
    (sendSignalToRank s tgt_id signal sender_rank world_size).sent =
      s.sent ++ [(getOwnerRankById s tgt_id,
        PackedSignal.mk signal.type tgt_id signal.value)] ∧
    (sendSignalToRank s tgt_id signal sender_rank world_size).log = s.log := by
  have hsend : sendSignalToRank s tgt_id signal sender_rank world_size =
      { s with sent := s.sent ++ [(getOwnerRankById s tgt_id,
        PackedSignal.mk signal.type tgt_id signal.value)] } := by
    unfold sendSignalToRank
    simp only []
    rw [if_neg hknown, if_neg hother]
  rw [hsend]
  exact ⟨rfl, rfl, rfl⟩

/-- C5 on worker 0 of `pair_state`: a signal for identifier 7, owned by worker
1, is not enqueued on worker 0 and goes out as one message to worker 1. -/
theorem sendSignalToRank_remote_witness :
    (sendSignalToRank pair_state 7 (SignalStruct.mk 2 5) 0 2).brain_nodes =
      pair_state.brain_nodes ∧
    (sendSignalToRank pair_state 7 (SignalStruct.mk 2 5) 0 2).sent =
      [(1, PackedSignal.mk 2 7 5)] := by
  have h := sendSignalToRank_remote pair_state 7 (SignalStruct.mk 2 5) 0 2 (by decide)
    (by decide)
  refine ⟨h.1, ?_⟩
  rw [h.2.1]
  decide

/-! ## Operations only append to inboxes -/

theorem queued_refl (s : State) : Queued s s := by
  intro j
  exact ⟨le_refl _, le_max_left _ _, fun _ _ => rfl⟩

theorem queued_trans {s t u : State} (h1 : Queued s t) (h2 : Queued t u) : Queued s u := by
  intro j
  obtain ⟨a1, a2, a3⟩ := h1 j
  obtain ⟨b1, b2, b3⟩ := h2 j
  refine ⟨le_trans a1 b1, ?_, ?_⟩
  · rcases le_max_iff.mp b2 with h | h
    · exact le_trans h a2
    · exact le_trans h (le_max_right _ _)
  · intro k hk
    rw [b3 k (lt_of_lt_of_le hk a1), a3 k hk]

theorem talliesKept_refl (s : State) : TalliesKept s s :=
  fun _ => ⟨rfl, rfl⟩

theorem talliesKept_trans {s t u : State} (h1 : TalliesKept s t) (h2 : TalliesKept t u) :
    TalliesKept s u := by
  intro j
  exact ⟨(h2 j).1.trans (h1 j).1, (h2 j).2.trans (h1 j).2⟩

theorem appended_refl (s : State) : Appended s s :=
  ⟨queued_refl s, talliesKept_refl s⟩

theorem appended_trans {s t u : State} (h1 : Appended s t) (h2 : Appended t u) :
    Appended s u :=
  ⟨queued_trans h1.1 h2.1, talliesKept_trans h1.2 h2.2⟩

theorem appended_of_nodes_eq {s t : State} (h : t.brain_nodes = s.brain_nodes) :
    Appended s t := by
  constructor
  · intro j
    rw [h]
    exact ⟨le_refl _, le_max_left _ _, fun _ _ => rfl⟩
  · intro j
    rw [h]
    exact ⟨rfl, rfl⟩

/-- Overwriting a node with one that has the same inbox, count and tallies. -/
theorem setNode_appended (s : State) (node_idx : Int) (node : NeuronNerveStruct)
    (h1 : node.num_outstanding_signals = (s.brain_nodes node_idx).num_outstanding_signals)
    (h2 : node.signalInbox = (s.brain_nodes node_idx).signalInbox)
    (h3 : node.total_signals_recieved = (s.brain_nodes node_idx).total_signals_recieved)
    (h4 : node.signals_this_ns = (s.brain_nodes node_idx).signals_this_ns) :
    Appended s (setNode s node_idx node) := by
  have hsame : (setNode s node_idx node).brain_nodes node_idx = node := by
    unfold setNode
    exact Function.update_same _ _ _
  have hother : ∀ j : Int, j ≠ node_idx →
      (setNode s node_idx node).brain_nodes j = s.brain_nodes j := by
    intro j hj
    unfold setNode
    exact Function.update_noteq hj _ _
  constructor
  · intro j
    by_cases hj : j = node_idx
    · subst hj
      rw [hsame, h1, h2]
      exact ⟨le_refl _, le_max_left _ _, fun _ _ => rfl⟩
    · rw [hother j hj]
      exact ⟨le_refl _, le_max_left _ _, fun _ _ => rfl⟩
  · intro j
    by_cases hj : j = node_idx
    · subst hj
      rw [hsame]
      exact ⟨h3, h4⟩
    · rw [hother j hj]
      exact ⟨rfl, rfl⟩

theorem handle_event_appended (s : State) (event : Event) :
    Appended s (handle_event s event) := by
  obtain ⟨type, target, sig⟩ := event
  cases type with
  | EVENT_TYPE_SIGNAL =>
    by_cases hout : target < 0 ∨ target ≥ s.num_brain_nodes
    · rw [handle_event_outside s target sig hout]
      exact appended_refl s
    · by_cases hc : (s.brain_nodes target).num_outstanding_signals < SIGNAL_INBOX_SIZE
      · obtain ⟨a, _, c, d, _, _⟩ :=
          handle_event_store_fields s target sig (by omega) (by omega) hc
        have hrest : ((handle_event s (Event.mk EventType.EVENT_TYPE_SIGNAL target
              sig)).brain_nodes target).total_signals_recieved =
            (s.brain_nodes target).total_signals_recieved ∧
            ((handle_event s (Event.mk EventType.EVENT_TYPE_SIGNAL target
              sig)).brain_nodes target).signals_this_ns =
            (s.brain_nodes target).signals_this_ns := by
          rw [handle_event_store s target sig (by omega) (by omega) hc]
          unfold setNode
          simp
        constructor
        · intro j
          by_cases hj : j = target
          · subst hj
            rw [a]
            refine ⟨by omega, ?_, ?_⟩
            · exact le_trans (by omega) (le_max_right _ _)
            · intro k hk
              exact c k (by omega)
          · rw [d j hj]
            exact ⟨le_refl _, le_max_left _ _, fun _ _ => rfl⟩
        · intro j
          by_cases hj : j = target
          · subst hj
            exact hrest
          · rw [d j hj]
            exact ⟨rfl, rfl⟩
      · rw [handle_event_drop s target sig (by omega) (by omega) (by omega)]
        exact appended_of_nodes_eq rfl
  | EVENT_TYPE_REPORT => exact appended_refl s
  | EVENT_TYPE_TERMINATE => exact appended_of_nodes_eq rfl

theorem sendSignalToRank_appended (s : State) (tgt_id : Int) (signal : SignalStruct)
    (sender_rank world_size : Int) :
    Appended s (sendSignalToRank s tgt_id signal sender_rank world_size) := by
  unfold sendSignalToRank
  simp only []
  split_ifs
  · exact appended_of_nodes_eq rfl
  · split
    · exact appended_of_nodes_eq rfl
    · split_ifs
      · exact appended_of_nodes_eq rfl
      · exact appended_of_nodes_eq rfl
      · exact handle_event_appended s _
  · exact appended_of_nodes_eq rfl

theorem receiveIncomingSignals_appended (msgs : List PackedSignal) (current_rank : Int) :
    ∀ s : State, Appended s (receiveIncomingSignals s msgs current_rank) := by
  induction msgs with
  | nil =>
    intro s
    exact appended_refl s
  | cons m rest ih =>
    intro s
    unfold receiveIncomingSignals
    simp only []
    split
    · exact appended_trans (appended_of_nodes_eq rfl) (ih _)
    · split_ifs
      · exact appended_trans (appended_of_nodes_eq rfl) (ih _)
      · exact appended_trans (appended_of_nodes_eq rfl) (ih _)
      · exact appended_trans (handle_event_appended s _) (ih _)

theorem fireSignalLoop_appended (node_idx signal_type : Int) :
    ∀ (fuel : Nat) (s : State) (signal : Rat) (t : State),
      fireSignalLoop fuel s node_idx signal signal_type = some t → Appended s t := by
  intro fuel
  induction fuel with
  | zero =>
    intro s signal t h
    unfold fireSignalLoop at h
    by_cases hth : signal ≥ SIGNAL_THRESHOLD
    · rw [if_pos hth] at h
      simp at h
    · rw [if_neg hth] at h
      cases h
      exact appended_refl s
  | succ fuel ih =>
    intro s signal t h
    unfold fireSignalLoop at h
    by_cases hth : signal ≥ SIGNAL_THRESHOLD
    · rw [if_pos hth] at h
      simp only [] at h
      have hpick : Appended s (getRandomInteger s 0 (s.brain_nodes node_idx).num_edges).2 :=
        appended_of_nodes_eq rfl
      split at h
      · cases h
        exact hpick
      · split at h
        · cases h
          exact hpick
        · refine appended_trans hpick (appended_trans ?_
            (appended_trans (sendSignalToRank_appended _ _ _ _ _) (ih _ _ _ h)))
          split
          · exact setNode_appended _ node_idx _ rfl rfl rfl rfl
          · exact appended_refl _
    · rw [if_neg hth] at h
      cases h
      exact appended_refl s

theorem fireSignal_appended (fuel : Nat) (s : State) (node_idx : Int) (signal : Rat)
    (signal_type : Int) (t : State)
    (h : fireSignal fuel s node_idx signal signal_type = some t) : Appended s t := by
  unfold fireSignal at h
  split at h
  · cases h
    exact appended_refl s
  · split at h
    · cases h
      exact appended_refl s
    · exact fireSignalLoop_appended node_idx signal_type fuel s signal t h

theorem handleSignal_appended (fuel : Nat) (s : State) (node_idx : Int) (signal : Rat)
    (signal_type : Int) (t : State)
    (h : handleSignal fuel s node_idx signal signal_type = some t) : Appended s t := by
  unfold handleSignal at h
  simp only [] at h
  split at h
  · refine appended_trans ?_ (fireSignal_appended _ _ _ _ _ _ h)
    exact setNode_appended s node_idx _ rfl rfl rfl rfl
  · split at h
    · split at h
      · cases h
        exact appended_of_nodes_eq rfl
      · refine appended_trans ?_ (fireSignal_appended _ _ _ _ _ _ h)
        exact appended_of_nodes_eq rfl
    · exact fireSignal_appended _ _ _ _ _ _ h

theorem exciteLoop_appended (fuel : Nat) (node_idx : Int) :
    ∀ (todo : Nat) (s t : State), exciteLoop fuel todo s node_idx = some t → Appended s t := by
  intro todo
  induction todo with
  | zero =>
    intro s t h
    unfold exciteLoop at h
    cases h
    exact appended_refl s
  | succ todo ih =>
    intro s t h
    unfold exciteLoop at h
    simp only [] at h
    split at h
    · simp at h
    · rename_i s3 hfire
      refine appended_trans ?_ (appended_trans (fireSignal_appended _ _ _ _ _ _ hfire) (ih _ _ h))
      refine appended_trans ?_ (setNode_appended _ node_idx _ rfl rfl rfl rfl)
      exact appended_of_nodes_eq rfl

theorem exciteStep_appended (fuel : Nat) (s : State) (node_idx : Int) (t : State)
    (h : exciteStep fuel s node_idx = some t) : Appended s t := by
  unfold exciteStep at h
  split at h
  · refine appended_trans ?_ (exciteLoop_appended _ _ _ _ _ h)
    exact appended_of_nodes_eq rfl
  · cases h
    exact appended_refl s

theorem setNode_same (s : State) (node_idx : Int) (node : NeuronNerveStruct) :
    (setNode s node_idx node).brain_nodes node_idx = node := by
  unfold setNode
  exact Function.update_same _ _ _

theorem setNode_other (s : State) (node_idx : Int) (node : NeuronNerveStruct) (j : Int)
    (hj : j ≠ node_idx) : (setNode s node_idx node).brain_nodes j = s.brain_nodes j := by
  unfold setNode
  exact Function.update_noteq hj _ _

theorem setNode_queued (s : State) (node_idx : Int) (node : NeuronNerveStruct)
    (h1 : node.num_outstanding_signals = (s.brain_nodes node_idx).num_outstanding_signals)
    (h2 : node.signalInbox = (s.brain_nodes node_idx).signalInbox) :
    Queued s (setNode s node_idx node) := by
  intro j
  by_cases hj : j = node_idx
  · subst hj
    rw [setNode_same, h1, h2]
    exact ⟨le_refl _, le_max_left _ _, fun _ _ => rfl⟩
  · rw [setNode_other s node_idx node j hj]
    exact ⟨le_refl _, le_max_left _ _, fun _ _ => rfl⟩

/-- The inbox loop: it only appends to inboxes, leaves the received-totals
alone, raises `signals_this_ns` of the node by the number of signals it
handled, runs until its index reaches the outstanding count, and every signal
it handled is the inbox entry at its position. -/
theorem drainLoop_spec (fuel : Nat) (node_idx : Int) :
    ∀ (n : Nat) (s : State) (i : Int) (t : State) (handled : List SignalStruct),
      drainLoop fuel n s node_idx i = some (t, handled) →
        Queued s t ∧
        (∀ j : Int, (t.brain_nodes j).total_signals_recieved =
          (s.brain_nodes j).total_signals_recieved) ∧
        (∀ j : Int, j ≠ node_idx →
          (t.brain_nodes j).signals_this_ns = (s.brain_nodes j).signals_this_ns) ∧
        (t.brain_nodes node_idx).signals_this_ns =
          (s.brain_nodes node_idx).signals_this_ns + handled.length ∧
        (i ≤ (s.brain_nodes node_idx).num_outstanding_signals →
          (t.brain_nodes node_idx).num_outstanding_signals = i + handled.length) ∧
        (∀ (m : Nat) (sig : SignalStruct), handled[m]? = some sig →
          sig = (t.brain_nodes node_idx).signalInbox (i + m)) := by
  intro n
  induction n with
  | zero =>
    intro s i t handled h
    unfold drainLoop at h
    by_cases hlt : i < (s.brain_nodes node_idx).num_outstanding_signals
    · rw [if_pos hlt] at h
      simp at h
    · rw [if_neg hlt] at h
      cases h
      refine ⟨queued_refl s, fun _ => rfl, fun _ _ => rfl, by simp, ?_, ?_⟩
      · intro hle
        simp
        omega
      · intro m sig hm
        simp at hm
  | succ n ih =>
    intro s i t handled h
    unfold drainLoop at h
    by_cases hlt : i < (s.brain_nodes node_idx).num_outstanding_signals
    · rw [if_pos hlt] at h
      simp only [] at h
      split at h
      · simp at h
      · rename_i s2 hs2
        split at h
        · simp at h
        · rename_i s4 h4 hrec
          cases h
          have hA : Appended s s2 := by
            refine appended_trans ?_ (handleSignal_appended _ _ _ _ _ _ hs2)
            split
            · exact setNode_appended s node_idx _ rfl rfl rfl rfl
            · exact appended_refl s
          obtain ⟨hq, htal⟩ := hA
          obtain ⟨q3, tot3, oth3, ths3, cnt3, ent3⟩ := ih _ _ _ _ hrec
          have hc2 := (hq node_idx).1
          refine ⟨queued_trans hq (queued_trans ?_ q3), ?_, ?_, ?_, ?_, ?_⟩
          · exact setNode_queued s2 node_idx _ rfl rfl
          · intro j
            rw [tot3 j]
            by_cases hj : j = node_idx
            · subst hj
              rw [setNode_same]
              exact (htal j).1
            · rw [setNode_other _ _ _ _ hj]
              exact (htal j).1
          · intro j hj
            rw [oth3 j hj, setNode_other _ _ _ _ hj]
            exact (htal j).2
          · rw [ths3, setNode_same]
            simp only [List.length_cons]
            rw [(htal node_idx).2]
            push_cast
            ring
          · intro _
            have h5 := cnt3 (by
              rw [setNode_same]
              show i + 1 ≤ (s2.brain_nodes node_idx).num_outstanding_signals
              omega)
            rw [h5]
            simp only [List.length_cons]
            push_cast
            ring
          · intro m sig hm
            cases m with
            | zero =>
              simp only [List.getElem?_cons_zero, Option.some.injEq] at hm
              have h6 := (q3 node_idx).2.2 i (by
                rw [setNode_same]
                show i < (s2.brain_nodes node_idx).num_outstanding_signals
                omega)
              rw [setNode_same] at h6
              have h7 := (hq node_idx).2.2 i hlt
              simp only [Nat.cast_zero, add_zero]
              rw [h6]
              show sig = (s2.brain_nodes node_idx).signalInbox i
              rw [h7]
              exact hm.symm
            | succ m =>
              simp only [List.getElem?_cons_succ] at hm
              have h8 := ent3 m sig hm
              rw [h8]
              congr 1
              push_cast
              ring
    · rw [if_neg hlt] at h
      cases h
      refine ⟨queued_refl s, fun _ => rfl, fun _ _ => rfl, by simp, ?_, ?_⟩
      · intro hle
        simp
        omega
      · intro m sig hm
        simp at hm

theorem updateNodes_spec (fuel : Nat) (s : State) (node_idx : Int) (t : State)
    (h : updateNodes fuel s node_idx = some t) :
    ∃ (s1 s2 : State) (handled : List SignalStruct),
      exciteStep fuel s node_idx = some s1 ∧
      drainLoop fuel fuel s1 node_idx 0 = some (s2, handled) ∧
      t = setNode s2 node_idx
        { s2.brain_nodes node_idx with
          total_signals_recieved := (s2.brain_nodes node_idx).total_signals_recieved +
            (s2.brain_nodes node_idx).num_outstanding_signals
          num_outstanding_signals := 0 } := by
  unfold updateNodes at h
  split at h
  · simp at h
  · rename_i s1 hs1
    split at h
    · simp at h
    · rename_i s2 handled hs2
      simp only [] at h
      cases h
      exact ⟨s1, s2, handled, hs1, hs2, rfl⟩

theorem inboxBounded_of_queued {s t : State} (hinv : inboxBounded s) (hq : Queued s t) :
    inboxBounded t := by
  intro j
  obtain ⟨a, b⟩ := hinv j
  obtain ⟨c, d, _⟩ := hq j
  refine ⟨by omega, ?_⟩
  rw [max_eq_right b] at d
  exact d

theorem updateNodes_bounded (fuel : Nat) (s : State) (node_idx : Int) (t : State)
    (hinv : inboxBounded s) (h : updateNodes fuel s node_idx = some t) : inboxBounded t := by
  obtain ⟨s1, s2, handled, hs1, hs2, ht⟩ := updateNodes_spec fuel s node_idx t h
  have h1 := inboxBounded_of_queued hinv (exciteStep_appended fuel s node_idx s1 hs1).1
  have h2 := inboxBounded_of_queued h1 (drainLoop_spec fuel node_idx fuel s1 0 s2 handled hs2).1
  intro j
  rw [ht]
  by_cases hj : j = node_idx
  · subst hj
    rw [setNode_same]
    show (0 : Int) ≤ 0 ∧ (0 : Int) ≤ SIGNAL_INBOX_SIZE
    unfold SIGNAL_INBOX_SIZE
    omega
  · rw [setNode_other _ _ _ _ hj]
    exact h2 j

theorem runStep_bounded (s : State) (step : Step) (t : State) (hinv : inboxBounded s)
    (h : runStep s step = some t) : inboxBounded t := by
  cases step with
  | dispatch event =>
    unfold runStep at h
    cases h
    exact inboxBounded_of_queued hinv (handle_event_appended s event).1
  | route tgt_id signal sender_rank world_size =>
    unfold runStep at h
    cases h
    exact inboxBounded_of_queued hinv (sendSignalToRank_appended s _ _ _ _).1
  | receive msgs current_rank =>
    unfold runStep at h
    cases h
    exact inboxBounded_of_queued hinv (receiveIncomingSignals_appended msgs current_rank s).1
  | fire fuel node_idx signal signal_type =>
    unfold runStep at h
    exact inboxBounded_of_queued hinv (fireSignal_appended _ _ _ _ _ _ h).1
  | update fuel node_idx =>
    unfold runStep at h
    exact updateNodes_bounded fuel s node_idx t hinv h

theorem runSteps_bounded (steps : List Step) :
    ∀ (s t : State), inboxBounded s → runSteps s steps = some t → inboxBounded t := by
  induction steps with
  | nil =>
    intro s t hinv h
    unfold runSteps at h
    cases h
    exact hinv
  | cons step rest ih =>
    intro s t hinv h
    unfold runSteps at h
    split at h
    · simp at h
    · rename_i s1 hs1
      exact ih s1 t (runStep_bounded s step s1 hinv hs1) h

/-- C7: starting from a state in which every node's outstanding count is in
`[0, 16384]`, after any sequence of `handle_event`, `sendSignalToRank`,
`receiveIncomingSignals`, `fireSignal` and `updateNodes` calls every node's
outstanding count is still in `[0, 16384]`; and whenever `handle_event` then
writes to the node array, the inbox position it writes (the outstanding count
of the target) is in `[0, 16384)`. -/
theorem inbox_capacity_invariant (s : State) (steps : List Step) (t : State)
    (hinv : ∀ j : Int, 0 ≤ (s.brain_nodes j).num_outstanding_signals ∧
      (s.brain_nodes j).num_outstanding_signals ≤ 16384)
    (hrun : runSteps s steps = some t) :
    (∀ j : Int, 0 ≤ (t.brain_nodes j).num_outstanding_signals ∧
      (t.brain_nodes j).num_outstanding_signals ≤ 16384) ∧
    (∀ (target : Int) (sig : SignalStruct),
      (handle_event t (Event.mk EventType.EVENT_TYPE_SIGNAL target sig)).brain_nodes ≠
          t.brain_nodes →
        0 ≤ (t.brain_nodes target).num_outstanding_signals ∧
        (t.brain_nodes target).num_outstanding_signals < 16384) := by
  have ht : inboxBounded t := runSteps_bounded steps s t hinv hrun
  refine ⟨ht, ?_⟩
  intro target sig hne
  refine ⟨(ht target).1, ?_⟩
  by_contra hfull
  apply hne
  by_cases hout : target < 0 ∨ target ≥ t.num_brain_nodes
  · rw [handle_event_outside t target sig hout]
  · rw [handle_event_drop t target sig (by omega) (by omega)
      (by unfold SIGNAL_INBOX_SIZE; omega)]

theorem map_eq_of_get {α β : Type} (o : Option α) (h : o.isSome = true) (f : α → β) :
    o.map f = some (f (o.get h)) := by
  cases o with
  | none => simp at h
  | some a => rfl

/-- C7 on `loop_state`: an update of node 0, a dispatched event, a routed
signal and a received message. -/
theorem inbox_capacity_invariant_witness :
    (runSteps loop_state
      [Step.update 3 0, Step.dispatch (Event.mk EventType.EVENT_TYPE_SIGNAL 0 (SignalStruct.mk 1 2)),
        Step.route 5 (SignalStruct.mk 2 3) 0 1,
        Step.receive [PackedSignal.mk 3 5 4] 0]).isSome = true ∧
    (runSteps loop_state
      [Step.update 3 0, Step.dispatch (Event.mk EventType.EVENT_TYPE_SIGNAL 0 (SignalStruct.mk 1 2)),
        Step.route 5 (SignalStruct.mk 2 3) 0 1,
        Step.receive [PackedSignal.mk 3 5 4] 0]).map
      (fun t => decide (0 ≤ (t.brain_nodes 0).num_outstanding_signals ∧
        (t.brain_nodes 0).num_outstanding_signals ≤ 16384)) = some true := by
  have hs : (runSteps loop_state
      [Step.update 3 0, Step.dispatch (Event.mk EventType.EVENT_TYPE_SIGNAL 0 (SignalStruct.mk 1 2)),
        Step.route 5 (SignalStruct.mk 2 3) 0 1,
        Step.receive [PackedSignal.mk 3 5 4] 0]).isSome = true := by decide!
  have hinv : ∀ j : Int, 0 ≤ (loop_state.brain_nodes j).num_outstanding_signals ∧
      (loop_state.brain_nodes j).num_outstanding_signals ≤ 16384 := by
    intro j
    by_cases hj : j = 0 <;> simp [loop_state, loop_node, idle_node, hj]
  have h := inbox_capacity_invariant loop_state _ _ hinv (Option.some_get hs).symm
  refine ⟨hs, ?_⟩
  rw [map_eq_of_get _ hs]
  simp only [Option.some.injEq, decide_eq_true_eq]
  exact h.1 0

/-! ## Repeated dispatch at one node -/

theorem dispatchAll_spec (target : Int) (h0 : 0 ≤ target) :
    ∀ (sigs : List SignalStruct) (s : State), target < s.num_brain_nodes →
      0 ≤ (s.brain_nodes target).num_outstanding_signals →
      (s.brain_nodes target).num_outstanding_signals ≤ SIGNAL_INBOX_SIZE →
        ((dispatchAll s target sigs).brain_nodes target).num_outstanding_signals =
          min ((s.brain_nodes target).num_outstanding_signals + sigs.length)
            SIGNAL_INBOX_SIZE ∧
        (∀ (m : Nat) (sig : SignalStruct), sigs[m]? = some sig →
          (s.brain_nodes target).num_outstanding_signals + m < SIGNAL_INBOX_SIZE →
          ((dispatchAll s target sigs).brain_nodes target).signalInbox
            ((s.brain_nodes target).num_outstanding_signals + m) = sig) ∧
        (∀ k : Int, k < (s.brain_nodes target).num_outstanding_signals →
          ((dispatchAll s target sigs).brain_nodes target).signalInbox k =
            (s.brain_nodes target).signalInbox k) ∧
        (dispatchAll s target sigs).log = s.log ++
          List.replicate
            (sigs.length -
              (SIGNAL_INBOX_SIZE - (s.brain_nodes target).num_outstanding_signals).toNat)
            (LogLine.signalDropped s.rank (s.brain_nodes target).id) := by
  intro sigs
  induction sigs with
  | nil =>
    intro s _ _ hc1
    unfold dispatchAll
    refine ⟨?_, ?_, fun _ _ => rfl, by simp⟩
    · simp only [List.length_nil, Nat.cast_zero, add_zero]
      exact (min_eq_left hc1).symm
    · intro m sig hm
      simp at hm
  | cons sig0 rest ih =>
    intro s h1 hc0 hc1
    unfold dispatchAll
    by_cases hc : (s.brain_nodes target).num_outstanding_signals < SIGNAL_INBOX_SIZE
    · obtain ⟨a, b, c, _, _, e⟩ := handle_event_store_fields s target sig0 h0 h1 hc
      have hs1 := handle_event_store s target sig0 h0 h1 hc
      have hn : (handle_event s (Event.mk EventType.EVENT_TYPE_SIGNAL target
          sig0)).num_brain_nodes = s.num_brain_nodes := by rw [hs1]; rfl
      have hr : (handle_event s (Event.mk EventType.EVENT_TYPE_SIGNAL target
          sig0)).rank = s.rank := by rw [hs1]; rfl
      have hid : ((handle_event s (Event.mk EventType.EVENT_TYPE_SIGNAL target
          sig0)).brain_nodes target).id = (s.brain_nodes target).id := by
        rw [hs1, setNode_same]
      obtain ⟨i1, i2, i3, i4⟩ := ih (handle_event s (Event.mk EventType.EVENT_TYPE_SIGNAL target
        sig0)) (by rw [hn]; exact h1) (by rw [a]; omega) (by rw [a]; omega)
      rw [a] at i1 i2 i3 i4
      rw [hr, hid, e] at i4
      refine ⟨?_, ?_, ?_, ?_⟩
      · rw [i1]
        simp only [List.length_cons]
        push_cast
        congr 1
        ring
      · intro m sig hm hlt
        cases m with
        | zero =>
          simp only [List.getElem?_cons_zero, Option.some.injEq] at hm
          simp only [Nat.cast_zero, add_zero]
          rw [i3 _ (by omega), b]
          exact hm
        | succ m =>
          simp only [List.getElem?_cons_succ] at hm
          have h5 := i2 m sig hm (by push_cast at hlt; omega)
          have h6 : (s.brain_nodes target).num_outstanding_signals + ((m + 1 : Nat) : Int) =
              (s.brain_nodes target).num_outstanding_signals + 1 + (m : Int) := by
            push_cast
            ring
          rw [h6]
          exact h5
      · intro k hk
        rw [i3 k (by omega)]
        exact c k (by omega)
      · rw [i4]
        congr 2
        simp only [List.length_cons]
        omega
    · have hfull : (s.brain_nodes target).num_outstanding_signals = SIGNAL_INBOX_SIZE := by
        omega
      rw [handle_event_drop s target sig0 h0 h1 (by omega)]
      obtain ⟨i1, i2, i3, i4⟩ :=
        ih { s with log := s.log ++ [LogLine.signalDropped s.rank (s.brain_nodes target).id] }
          h1 hc0 hc1
      refine ⟨?_, ?_, i3, ?_⟩
      · rw [i1, hfull]
        simp only [List.length_cons]
        rw [min_eq_right (by omega), min_eq_right (by push_cast; omega)]
      · intro m sig hm hlt
        omega
      · rw [i4, hfull]
        simp only [sub_self, Int.toNat_zero, Nat.sub_zero, List.length_cons,
          List.replicate_succ, List.append_assoc, List.singleton_append]

/-- C8: dispatching `n` Signal events in a row at one node whose inbox starts
empty retains exactly `min(n, 16384)` of them, the first ones in arrival
order, and drops (with one logged line each) exactly `n - min(n, 16384)`; for
`n = 20000` that is 16384 retained and 3616 dropped. -/
theorem dispatch_retains_first (s : State) (target : Int) (sigs : List SignalStruct)
    (h0 : 0 ≤ target) (h1 : target < s.num_brain_nodes)
    (hempty : (s.brain_nodes target).num_outstanding_signals = 0) :
    ((dispatchAll s target sigs).brain_nodes target).num_outstanding_signals =
      ((min sigs.length 16384 : Nat) : Int) ∧
    (∀ (m : Nat) (sig : SignalStruct), sigs[m]? = some sig → m < min sigs.length 16384 →
      ((dispatchAll s target sigs).brain_nodes target).signalInbox m = sig) ∧
    (dispatchAll s target sigs).log = s.log ++
      List.replicate (sigs.length - min sigs.length 16384)
        (LogLine.signalDropped s.rank (s.brain_nodes target).id) ∧
    (sigs.length = 20000 →
      ((dispatchAll s target sigs).brain_nodes target).num_outstanding_signals = 16384 ∧
      (dispatchAll s target sigs).log = s.log ++
        List.replicate 3616 (LogLine.signalDropped s.rank (s.brain_nodes target).id)) := by
  obtain ⟨a, b, _, d⟩ := dispatchAll_spec target h0 sigs s h1 (by omega)
    (by rw [hempty]; unfold SIGNAL_INBOX_SIZE; omega)
  rw [hempty] at a b d
  unfold SIGNAL_INBOX_SIZE at a b d
  have hcount : ((dispatchAll s target sigs).brain_nodes target).num_outstanding_signals =
      ((min sigs.length 16384 : Nat) : Int) := by
    rw [a]
    push_cast
    simp
  have hlog : (dispatchAll s target sigs).log = s.log ++
      List.replicate (sigs.length - min sigs.length 16384)
        (LogLine.signalDropped s.rank (s.brain_nodes target).id) := by
    have e1 : ((16384 : Int) - 0).toNat = 16384 := by simp
    have e2 : sigs.length - ((16384 : Int) - 0).toNat = sigs.length - min sigs.length 16384 := by
      rw [e1]
      omega
    rw [d, e2]
  refine ⟨hcount, ?_, hlog, ?_⟩
  · intro m sig hm hlt
    have h5 := b m sig hm (by omega)
    simp only [zero_add] at h5
    exact h5
  · intro hn
    rw [hcount, hlog, hn]
    have e1 : min 20000 16384 = 16384 := by decide
    have e2 : 20000 - 16384 = 3616 := by decide
    rw [e1, e2]
    exact ⟨rfl, rfl⟩

/-- C8 on `pair_state`: 20000 signals dispatched at the empty node 0 leave
16384 queued and 3616 drop lines. -/
theorem dispatch_retains_first_witness :
    ((dispatchAll pair_state 0 (List.replicate 20000 (SignalStruct.mk 0 1))).brain_nodes
      0).num_outstanding_signals = 16384 ∧
    (dispatchAll pair_state 0 (List.replicate 20000 (SignalStruct.mk 0 1))).log =
      List.replicate 3616 (LogLine.signalDropped 0 3) :=
  (dispatch_retains_first pair_state 0 (List.replicate 20000 (SignalStruct.mk 0 1))
    (by decide) (by decide) (by decide)).2.2.2 (List.length_replicate _ _)

/-! ## The inbox loop of `updateNodes` -/

/-- C9, refuted on `loop_state`: node 0 (id 5) has one queued signal and one
edge from 5 to 5.  Handling the queued signal fires a signal of magnitude
`1 * 0.8 * 0.001` over that edge into the node's own inbox, and the inbox loop,
which reads the outstanding count again before every iteration, handles it in
the same call: two signals are handled and the received-total becomes 2. -/
theorem drain_handles_appended_signal :
    (loop_state.brain_nodes 0).num_outstanding_signals = 1 ∧
    (drainLoop 3 3 loop_state 0 0).map (fun r => r.2) =
      some [SignalStruct.mk 0 1, SignalStruct.mk 0 (1 / 1250)] ∧
    (updateNodes 3 loop_state 0).map (fun t => (t.brain_nodes 0).total_signals_recieved) =
      some 2 := by
  decide!

/-- C9, amended: on a node with a non-negative outstanding count the inbox
loop of `updateNodes` handles, in order, the inbox entries at positions
`0 .. c-1`, where `c` is the node's outstanding count when the loop ends.
These begin with the signals that were queued when the loop began, which stay
in place; a signal appended to the node's own inbox while the loop runs is
handled in the same call. -/
theorem drain_handles_through_exit (fuel n : Nat) (s : State) (node_idx : Int) (t : State)
    (handled : List SignalStruct)
    (h0 : 0 ≤ (s.brain_nodes node_idx).num_outstanding_signals)
    (h : drainLoop fuel n s node_idx 0 = some (t, handled)) :
    (handled.length : Int) = (t.brain_nodes node_idx).num_outstanding_signals ∧
    (s.brain_nodes node_idx).num_outstanding_signals ≤ handled.length ∧
    (∀ (m : Nat) (sig : SignalStruct), handled[m]? = some sig →
      sig = (t.brain_nodes node_idx).signalInbox m) ∧
    (∀ k : Int, k < (s.brain_nodes node_idx).num_outstanding_signals →
      (t.brain_nodes node_idx).signalInbox k = (s.brain_nodes node_idx).signalInbox k) := by
  obtain ⟨q, _, _, _, cnt, ent⟩ := drainLoop_spec fuel node_idx n s 0 t handled h
  have hc := cnt h0
  obtain ⟨q1, _, q3⟩ := q node_idx
  refine ⟨by omega, by omega, ?_, q3⟩
  intro m sig hm
  have h5 := ent m sig hm
  simp only [zero_add] at h5
  exact h5

/-- C9, amended, on `loop_state`: the loop returns, and it handled as many
signals as the node's outstanding count at loop exit. -/
theorem drain_handles_through_exit_witness :
    0 ≤ (loop_state.brain_nodes 0).num_outstanding_signals ∧
    ∃ (t : State) (handled : List SignalStruct),
      drainLoop 3 3 loop_state 0 0 = some (t, handled) ∧
      (handled.length : Int) = (t.brain_nodes 0).num_outstanding_signals ∧
      (loop_state.brain_nodes 0).num_outstanding_signals ≤ handled.length := by
  have hs : (drainLoop 3 3 loop_state 0 0).isSome = true := by decide!
  have hget : drainLoop 3 3 loop_state 0 0 =
      some (((drainLoop 3 3 loop_state 0 0).get hs).1, ((drainLoop 3 3 loop_state 0 0).get hs).2) :=
    (Option.some_get hs).symm
  have h := drain_handles_through_exit 3 3 loop_state 0 _ _ (by decide) hget
  exact ⟨by decide, _, _, hget, h.1, h.2.1⟩

/-- C10: on a node with a non-negative outstanding count, after `updateNodes`
returns the node's outstanding count is 0, and its `total_signals_recieved`
and `signals_this_ns` have each grown by exactly the number of signals the
inbox loop handled, whatever the outcome of each. -/
theorem update_counts_handled (fuel : Nat) (s : State) (node_idx : Int) (t : State)
    (h0 : 0 ≤ (s.brain_nodes node_idx).num_outstanding_signals)
    (h : updateNodes fuel s node_idx = some t) :
    ∃ (s1 s2 : State) (handled : List SignalStruct),
      exciteStep fuel s node_idx = some s1 ∧
      drainLoop fuel fuel s1 node_idx 0 = some (s2, handled) ∧
      (t.brain_nodes node_idx).num_outstanding_signals = 0 ∧
      (t.brain_nodes node_idx).total_signals_recieved =
        (s.brain_nodes node_idx).total_signals_recieved + handled.length ∧
      (t.brain_nodes node_idx).signals_this_ns =
        (s.brain_nodes node_idx).signals_this_ns + handled.length := by
  obtain ⟨s1, s2, handled, hs1, hs2, ht⟩ := updateNodes_spec fuel s node_idx t h
  obtain ⟨q1, k1⟩ := exciteStep_appended fuel s node_idx s1 hs1
  obtain ⟨_, tot, _, ths, cnt, _⟩ := drainLoop_spec fuel node_idx fuel s1 0 s2 handled hs2
  have hc := cnt (by have := (q1 node_idx).1; omega)
  refine ⟨s1, s2, handled, hs1, hs2, ?_, ?_, ?_⟩
  · rw [ht, setNode_same]
  · rw [ht, setNode_same]
    show (s2.brain_nodes node_idx).total_signals_recieved +
      (s2.brain_nodes node_idx).num_outstanding_signals = _
    rw [tot node_idx, (k1 node_idx).1, hc]
    ring
  · rw [ht, setNode_same]
    show (s2.brain_nodes node_idx).signals_this_ns = _
    rw [ths, (k1 node_idx).2]

/-- C10 on `loop_state`: the update of node 0 returns with an empty inbox. -/
theorem update_counts_handled_witness :
    0 ≤ (loop_state.brain_nodes 0).num_outstanding_signals ∧
    ∃ t : State, updateNodes 3 loop_state 0 = some t ∧
      ∃ (s1 s2 : State) (handled : List SignalStruct),
        exciteStep 3 loop_state 0 = some s1 ∧
        drainLoop 3 3 s1 0 0 = some (s2, handled) ∧
        (t.brain_nodes 0).num_outstanding_signals = 0 ∧
        (t.brain_nodes 0).total_signals_recieved =
          (loop_state.brain_nodes 0).total_signals_recieved + handled.length ∧
        (t.brain_nodes 0).signals_this_ns =
          (loop_state.brain_nodes 0).signals_this_ns + handled.length := by
  have hs : (updateNodes 3 loop_state 0).isSome = true := by decide!
  exact ⟨by decide, _, (Option.some_get hs).symm,
    update_counts_handled 3 loop_state 0 _ (by decide) (Option.some_get hs).symm⟩

/-! ## `fireSignal` without edges or with an invalid type -/

theorem fireSignal_skip (fuel : Nat) (s : State) (node_idx : Int) (signal : Rat)
    (signal_type : Int)
    (h : ((s.brain_nodes node_idx).edges = none ∨ (s.brain_nodes node_idx).num_edges ≤ 0) ∨
      (signal_type < 0 ∨ signal_type ≥ NUM_SIGNAL_TYPES)) :
    fireSignal fuel s node_idx signal signal_type = some s := by
  unfold fireSignal
  by_cases h1 : (s.brain_nodes node_idx).edges.isNone ∨ (s.brain_nodes node_idx).num_edges ≤ 0
  · rw [if_pos h1]
  · rw [if_neg h1]
    rcases h with h | h
    · exfalso
      apply h1
      rcases h with h | h
      · left
        rw [h]
        rfl
      · exact Or.inr h
    · rw [if_pos h]

theorem touchesOnly_refl (node_idx : Int) (s : State) : TouchesOnly node_idx s s :=
  ⟨rfl, fun _ _ => rfl, rfl, rfl, rfl⟩

theorem touchesOnly_trans {node_idx : Int} {s t u : State} (h1 : TouchesOnly node_idx s t)
    (h2 : TouchesOnly node_idx t u) : TouchesOnly node_idx s u := by
  obtain ⟨a1, a2, a3, a4, a5⟩ := h1
  obtain ⟨b1, b2, b3, b4, b5⟩ := h2
  refine ⟨b1.trans a1, ?_, b3.trans a3, b4.trans a4, b5.trans a5⟩
  intro j hj
  rw [b2 j hj, a2 j hj]

theorem touchesOnly_setNode (s : State) (node_idx : Int) (node : NeuronNerveStruct)
    (h1 : node.num_edges = (s.brain_nodes node_idx).num_edges)
    (h2 : node.num_outstanding_signals = (s.brain_nodes node_idx).num_outstanding_signals)
    (h3 : node.total_signals_recieved = (s.brain_nodes node_idx).total_signals_recieved) :
    TouchesOnly node_idx s (setNode s node_idx node) := by
  refine ⟨rfl, fun j hj => setNode_other s node_idx node j hj, ?_, ?_, ?_⟩
  · rw [setNode_same]
    exact h1
  · rw [setNode_same]
    exact h2
  · rw [setNode_same]
    exact h3

theorem touchesOnly_of_nodes_eq {node_idx : Int} {s t : State}
    (h1 : t.brain_nodes = s.brain_nodes) (h2 : t.sent = s.sent) : TouchesOnly node_idx s t := by
  refine ⟨h2, ?_, ?_, ?_, ?_⟩
  · intro j _
    rw [h1]
  · rw [h1]
  · rw [h1]
  · rw [h1]

/-- On a node without edges `handleSignal` returns and touches that node
only. -/
theorem handleSignal_no_edges (fuel : Nat) (s : State) (node_idx : Int) (signal : Rat)
    (signal_type : Int) (hE : (s.brain_nodes node_idx).num_edges ≤ 0) :
    ∃ t : State, handleSignal fuel s node_idx signal signal_type = some t ∧
      TouchesOnly node_idx s t := by
  unfold handleSignal
  simp only []
  split
  · refine ⟨_, fireSignal_skip _ _ _ _ _ (Or.inl (Or.inr ?_)),
      touchesOnly_setNode s node_idx _ rfl rfl rfl⟩
    rw [setNode_same]
    exact hE
  · split
    · split
      · exact ⟨_, rfl, touchesOnly_of_nodes_eq rfl rfl⟩
      · exact ⟨_, fireSignal_skip _ _ _ _ _ (Or.inl (Or.inr hE)),
          touchesOnly_of_nodes_eq rfl rfl⟩
    · exact ⟨_, fireSignal_skip _ _ _ _ _ (Or.inl (Or.inr hE)), touchesOnly_refl _ _⟩

/-- On a node without edges the inbox loop returns after `count - i`
iterations and touches that node only. -/
theorem drainLoop_no_edges (fuel : Nat) (node_idx : Int) :
    ∀ (n : Nat) (s : State) (i : Int), (s.brain_nodes node_idx).num_edges ≤ 0 →
      ((s.brain_nodes node_idx).num_outstanding_signals - i).toNat ≤ n →
      ∃ (t : State) (handled : List SignalStruct),
        drainLoop fuel n s node_idx i = some (t, handled) ∧ TouchesOnly node_idx s t := by
  intro n
  induction n with
  | zero =>
    intro s i _ hn
    unfold drainLoop
    rw [if_neg (by omega)]
    exact ⟨s, [], rfl, touchesOnly_refl _ _⟩
  | succ n ih =>
    intro s i hE hn
    unfold drainLoop
    by_cases hlt : i < (s.brain_nodes node_idx).num_outstanding_signals
    · rw [if_pos hlt]
      simp only []
      have h1 : ∃ s1 : State, s1 = (if (s.brain_nodes node_idx).node_type = NodeType.NERVE then
            setNode s node_idx
              { s.brain_nodes node_idx with
                num_nerve_inputs := bumpCounter (s.brain_nodes node_idx).num_nerve_inputs
                  ((s.brain_nodes node_idx).signalInbox i).type }
          else s) ∧ TouchesOnly node_idx s s1 := by
        refine ⟨_, rfl, ?_⟩
        split
        · exact touchesOnly_setNode s node_idx _ rfl rfl rfl
        · exact touchesOnly_refl _ _
      obtain ⟨s1, hs1, t1⟩ := h1
      rw [← hs1]
      obtain ⟨s2, hs2, t2⟩ := handleSignal_no_edges fuel s1 node_idx
        ((s.brain_nodes node_idx).signalInbox i).value
        ((s.brain_nodes node_idx).signalInbox i).type (by rw [t1.2.2.1]; exact hE)
      rw [hs2]
      simp only []
      have t3 : TouchesOnly node_idx s2 (setNode s2 node_idx
          { s2.brain_nodes node_idx with
            signals_this_ns := (s2.brain_nodes node_idx).signals_this_ns + 1 }) :=
        touchesOnly_setNode s2 node_idx _ rfl rfl rfl
      have t13 := touchesOnly_trans t1 (touchesOnly_trans t2 t3)
      obtain ⟨t, handled, ht, t4⟩ := ih _ (i + 1) (by rw [t13.2.2.1]; exact hE)
        (by rw [t13.2.2.2.1]; omega)
      rw [ht]
      exact ⟨t, _, rfl, touchesOnly_trans t13 t4⟩
    · rw [if_neg hlt]
      exact ⟨s, [], rfl, touchesOnly_refl _ _⟩

/-- C11: `fireSignal` is a no-op when the node has no edges (the edge list is
`NULL` or `num_edges ≤ 0`) or the signal type is outside `[0, 10)`: for every
magnitude it returns the state it was given, so no inbox, count or counter
changes and nothing is sent.  Consequently `updateNodes` on a node with zero
edges and `n ≥ 0` queued signals returns (given fuel for `n` iterations),
raises that node's received-total by `n`, leaves every other node unchanged
and sends nothing. -/
theorem fireSignal_noop_without_edges (fuel : Nat) (s : State) (node_idx : Int) :
    (∀ (signal : Rat) (signal_type : Int),
      (((s.brain_nodes node_idx).edges = none ∨ (s.brain_nodes node_idx).num_edges ≤ 0) ∨
        (signal_type < 0 ∨ signal_type ≥ 10)) →
      fireSignal fuel s node_idx signal signal_type = some s) ∧
    ((s.brain_nodes node_idx).num_edges = 0 →
      0 ≤ (s.brain_nodes node_idx).num_outstanding_signals →
      (s.brain_nodes node_idx).num_outstanding_signals.toNat ≤ fuel →
      ∃ t : State, updateNodes fuel s node_idx = some t ∧
        (t.brain_nodes node_idx).total_signals_recieved =
          (s.brain_nodes node_idx).total_signals_recieved +
            (s.brain_nodes node_idx).num_outstanding_signals ∧
        (∀ j : Int, j ≠ node_idx → t.brain_nodes j = s.brain_nodes j) ∧
        t.sent = s.sent) := by
  constructor
  · intro signal signal_type h
    exact fireSignal_skip fuel s node_idx signal signal_type h
  · intro hE h0 hfuel
    obtain ⟨s2, handled, hs2, t2⟩ := drainLoop_no_edges fuel node_idx fuel s 0 (by omega)
      (by simpa using hfuel)
    have hex : exciteStep fuel s node_idx = some s := by
      unfold exciteStep
      rw [if_neg (by omega)]
    have hu : updateNodes fuel s node_idx = some (setNode s2 node_idx
        { s2.brain_nodes node_idx with
          total_signals_recieved := (s2.brain_nodes node_idx).total_signals_recieved +
            (s2.brain_nodes node_idx).num_outstanding_signals
          num_outstanding_signals := 0 }) := by
      unfold updateNodes
      rw [hex]
      simp only []
      rw [hs2]
    refine ⟨_, hu, ?_, ?_, ?_⟩
    · rw [setNode_same]
      show (s2.brain_nodes node_idx).total_signals_recieved +
        (s2.brain_nodes node_idx).num_outstanding_signals = _
      rw [t2.2.2.2.1, t2.2.2.2.2]
    · intro j hj
      rw [setNode_other _ _ _ _ hj]
      exact t2.2.1 j hj
    · exact t2.1

/-- C11 on `lone_state`: the nerve at index 0 has no edge and two queued
signals; its update returns and raises its received-total by 2. -/
theorem fireSignal_noop_without_edges_witness :
    (lone_state.brain_nodes 0).num_edges = 0 ∧
    0 ≤ (lone_state.brain_nodes 0).num_outstanding_signals ∧
    (lone_state.brain_nodes 0).num_outstanding_signals.toNat ≤ 2 ∧
    ∃ t : State, updateNodes 2 lone_state 0 = some t ∧
      (t.brain_nodes 0).total_signals_recieved =
        (lone_state.brain_nodes 0).total_signals_recieved +
          (lone_state.brain_nodes 0).num_outstanding_signals ∧
      (∀ j : Int, j ≠ 0 → t.brain_nodes j = lone_state.brain_nodes j) ∧
      t.sent = lone_state.sent :=
  ⟨by decide, by decide, by decide,
    (fireSignal_noop_without_edges 2 lone_state 0).2 (by decide) (by decide) (by decide)⟩

/-! ## Neuron weighting in `handleSignal` -/

theorem handleSignal_neuron_calm (fuel : Nat) (s : State) (node_idx : Int) (signal : Rat)
    (signal_type : Int) (hN : (s.brain_nodes node_idx).node_type = NodeType.NEURON)
    (hcalm : (s.brain_nodes node_idx).signals_last_ns +
      (s.brain_nodes node_idx).signals_this_ns ≤ 500) :
    handleSignal fuel s node_idx signal signal_type =
      fireSignal fuel s node_idx
        (signal * NEURON_TYPE_SIGNAL_WEIGHTS
          (neuronTypeToIndex (s.brain_nodes node_idx).neuron_type)) signal_type := by
  unfold handleSignal
  simp only []
  rw [if_neg (by rw [hN]; decide), if_neg (by omega)]

/-- C14: for a neuron of any of the six subtypes whose recent count
`signals_last_ns + signals_this_ns` is at most 500, `handleSignal` with
magnitude `v` and type `t` is one call of `fireSignal` on the same state (no
random draw, so no halving and no drop) with magnitude `v` times the subtype
weight and type `t`; the weights are sensory 0.8, motor 1.2, unipolar 1.1,
pseudounipolar 2.6, bipolar 0.3, multipolar 1.8, and `neuronTypeToIndex` is in
`[0, 6)` for every subtype. -/
theorem handleSignal_applies_weight (fuel : Nat) (s : State) (node_idx : Int) (v : Rat)
    (t : Int) (hN : (s.brain_nodes node_idx).node_type = NodeType.NEURON)
    (hcalm : (s.brain_nodes node_idx).signals_last_ns +
      (s.brain_nodes node_idx).signals_this_ns ≤ 500) :
    handleSignal fuel s node_idx v t =
      fireSignal fuel s node_idx
        (v * NEURON_TYPE_SIGNAL_WEIGHTS
          (neuronTypeToIndex (s.brain_nodes node_idx).neuron_type)) t ∧
    NEURON_TYPE_SIGNAL_WEIGHTS (neuronTypeToIndex NeuronType.SENSORY) = 8 / 10 ∧
    NEURON_TYPE_SIGNAL_WEIGHTS (neuronTypeToIndex NeuronType.MOTOR) = 12 / 10 ∧
    NEURON_TYPE_SIGNAL_WEIGHTS (neuronTypeToIndex NeuronType.UNIPOLAR) = 11 / 10 ∧
    NEURON_TYPE_SIGNAL_WEIGHTS (neuronTypeToIndex NeuronType.PSEUDOUNIPOLAR) = 26 / 10 ∧
    NEURON_TYPE_SIGNAL_WEIGHTS (neuronTypeToIndex NeuronType.BIPOLAR) = 3 / 10 ∧
    NEURON_TYPE_SIGNAL_WEIGHTS (neuronTypeToIndex NeuronType.MULTIPOLAR) = 18 / 10 ∧
    (∀ type : NeuronType, 0 ≤ neuronTypeToIndex type ∧ neuronTypeToIndex type < 6) := by
  refine ⟨handleSignal_neuron_calm fuel s node_idx v t hN hcalm, rfl, rfl, rfl, rfl, rfl, rfl, ?_⟩
  intro type
  cases type <;> decide

/-- C14 on `loop_state`: the sensory neuron at index 0 passes a signal of
magnitude 5 on to `fireSignal` with magnitude `5 * 0.8`. -/
theorem handleSignal_applies_weight_witness :
    handleSignal 3 loop_state 0 5 2 =
      fireSignal 3 loop_state 0
        (5 * NEURON_TYPE_SIGNAL_WEIGHTS
          (neuronTypeToIndex (loop_state.brain_nodes 0).neuron_type)) 2 ∧
    NEURON_TYPE_SIGNAL_WEIGHTS (neuronTypeToIndex (loop_state.brain_nodes 0).neuron_type) =
      8 / 10 :=
  ⟨(handleSignal_applies_weight 3 loop_state 0 5 2 (by decide) (by decide)).1, rfl⟩

/-! ## The fan-out loop -/

theorem fireSignalLoop_zero (s : State) (node_idx : Int) (signal : Rat) (signal_type : Int) :
    fireSignalLoop 0 s node_idx signal signal_type =
      if signal ≥ SIGNAL_THRESHOLD then none else some s := by
  unfold fireSignalLoop
  rfl

theorem fireSignalLoop_succ (fuel : Nat) (s : State) (node_idx : Int) (signal : Rat)
    (signal_type : Int) :
    fireSignalLoop (fuel + 1) s node_idx signal signal_type =
      if signal ≥ SIGNAL_THRESHOLD then
        match fireBody s node_idx signal signal_type with
        | (s1, none) => some s1
        | (s3, some fired) => fireSignalLoop fuel s3 node_idx (signal - fired.chunk) signal_type
      else some s := by
  conv_lhs => unfold fireSignalLoop
  unfold fireBody
  simp only []
  by_cases hth : signal ≥ SIGNAL_THRESHOLD
  · rw [if_pos hth, if_pos hth]
    split
    · rfl
    · split
      · rfl
      · rfl
  · rw [if_neg hth, if_neg hth]

theorem fireTrace_state (node_idx signal_type : Int) :
    ∀ (fuel : Nat) (s : State) (signal : Rat),
      (fireTrace fuel s node_idx signal signal_type).map (fun r => r.1) =
        fireSignalLoop fuel s node_idx signal signal_type := by
  intro fuel
  induction fuel with
  | zero =>
    intro s signal
    rw [fireSignalLoop_zero]
    unfold fireTrace
    by_cases hth : signal ≥ SIGNAL_THRESHOLD
    · rw [if_pos hth, if_pos hth]
      rfl
    · rw [if_neg hth, if_neg hth]
      rfl
  | succ fuel ih =>
    intro s signal
    rw [fireSignalLoop_succ]
    unfold fireTrace
    by_cases hth : signal ≥ SIGNAL_THRESHOLD
    · rw [if_pos hth, if_pos hth]
      simp only []
      rcases hb : fireBody s node_idx signal signal_type with ⟨s1, _ | fired⟩
      · rfl
      · simp only []
        rw [← ih]
        cases fireTrace fuel s1 node_idx (signal - fired.chunk) signal_type with
        | none => rfl
        | some r => rfl
    · rw [if_neg hth, if_neg hth]
      rfl

theorem sameWiring_refl (s : State) : SameWiring s s :=
  ⟨rfl, rfl, rfl, fun _ => ⟨rfl, rfl, rfl, rfl⟩⟩

theorem sameWiring_trans {s t u : State} (h1 : SameWiring s t) (h2 : SameWiring t u) :
    SameWiring s u := by
  obtain ⟨a1, a2, a3, a4⟩ := h1
  obtain ⟨b1, b2, b3, b4⟩ := h2
  refine ⟨b1.trans a1, b2.trans a2, b3.trans a3, ?_⟩
  intro j
  obtain ⟨c1, c2, c3, c4⟩ := a4 j
  obtain ⟨d1, d2, d3, d4⟩ := b4 j
  exact ⟨d1.trans c1, d2.trans c2, d3.trans c3, d4.trans c4⟩

theorem sameWiring_setNode (s : State) (node_idx : Int) (node : NeuronNerveStruct)
    (h1 : node.edges = (s.brain_nodes node_idx).edges)
    (h2 : node.num_edges = (s.brain_nodes node_idx).num_edges)
    (h3 : node.id = (s.brain_nodes node_idx).id)
    (h4 : node.node_type = (s.brain_nodes node_idx).node_type) :
    SameWiring s (setNode s node_idx node) := by
  refine ⟨rfl, rfl, rfl, ?_⟩
  intro j
  by_cases hj : j = node_idx
  · subst hj
    rw [setNode_same]
    exact ⟨h1, h2, h3, h4⟩
  · rw [setNode_other s node_idx node j hj]
    exact ⟨rfl, rfl, rfl, rfl⟩

theorem handle_event_wiring (s : State) (event : Event) :
    SameWiring s (handle_event s event) ∧ (handle_event s event).rand_pos = s.rand_pos := by
  obtain ⟨type, target, sig⟩ := event
  cases type with
  | EVENT_TYPE_SIGNAL =>
    by_cases hout : target < 0 ∨ target ≥ s.num_brain_nodes
    · rw [handle_event_outside s target sig hout]
      exact ⟨sameWiring_refl s, rfl⟩
    · by_cases hc : (s.brain_nodes target).num_outstanding_signals < SIGNAL_INBOX_SIZE
      · rw [handle_event_store s target sig (by omega) (by omega) hc]
        exact ⟨sameWiring_setNode s target _ rfl rfl rfl rfl, rfl⟩
      · rw [handle_event_drop s target sig (by omega) (by omega) (by omega)]
        exact ⟨⟨rfl, rfl, rfl, fun _ => ⟨rfl, rfl, rfl, rfl⟩⟩, rfl⟩
  | EVENT_TYPE_REPORT => exact ⟨sameWiring_refl s, rfl⟩
  | EVENT_TYPE_TERMINATE => exact ⟨⟨rfl, rfl, rfl, fun _ => ⟨rfl, rfl, rfl, rfl⟩⟩, rfl⟩

theorem sendSignalToRank_wiring (s : State) (tgt_id : Int) (signal : SignalStruct)
    (sender_rank world_size : Int) :
    SameWiring s (sendSignalToRank s tgt_id signal sender_rank world_size) ∧
      (sendSignalToRank s tgt_id signal sender_rank world_size).rand_pos = s.rand_pos := by
  unfold sendSignalToRank
  simp only []
  split_ifs
  · exact ⟨⟨rfl, rfl, rfl, fun _ => ⟨rfl, rfl, rfl, rfl⟩⟩, rfl⟩
  · split
    · exact ⟨⟨rfl, rfl, rfl, fun _ => ⟨rfl, rfl, rfl, rfl⟩⟩, rfl⟩
    · split_ifs
      · exact ⟨⟨rfl, rfl, rfl, fun _ => ⟨rfl, rfl, rfl, rfl⟩⟩, rfl⟩
      · exact ⟨⟨rfl, rfl, rfl, fun _ => ⟨rfl, rfl, rfl, rfl⟩⟩, rfl⟩
      · exact handle_event_wiring s _
  · exact ⟨⟨rfl, rfl, rfl, fun _ => ⟨rfl, rfl, rfl, rfl⟩⟩, rfl⟩

theorem getRandomInteger_range (s : State) (n : Int) (hn : 0 < n) :
    0 ≤ (getRandomInteger s 0 n).1 ∧ (getRandomInteger s 0 n).1 < n := by
  unfold getRandomInteger
  simp only [sub_zero, zero_add]
  exact ⟨Int.emod_nonneg _ (by omega), Int.emod_lt_of_pos _ hn⟩

/-- An iteration whose chosen edge index is valid dispatches one record:
target, chunk and weighted value as computed from the chosen edge. -/
theorem fireBody_valid (s : State) (node_idx : Int) (signal : Rat) (signal_type : Int)
    (node_edges : Int → Int) (hne : (s.brain_nodes node_idx).edges = some node_edges)
    (h0 : 0 ≤ node_edges (getRandomInteger s 0 (s.brain_nodes node_idx).num_edges).1)
    (h1 : node_edges (getRandomInteger s 0 (s.brain_nodes node_idx).num_edges).1 <
      s.num_edges) :
    ∃ s3 : State,
      fireBody s node_idx signal signal_type =
        (s3, some (FireRecord.mk
          (node_edges (getRandomInteger s 0 (s.brain_nodes node_idx).num_edges).1)
          (if (s.edges (node_edges (getRandomInteger s 0
                (s.brain_nodes node_idx).num_edges).1)).from_ = (s.brain_nodes node_idx).id
            then (s.edges (node_edges (getRandomInteger s 0
                (s.brain_nodes node_idx).num_edges).1)).to_
            else (s.edges (node_edges (getRandomInteger s 0
                (s.brain_nodes node_idx).num_edges).1)).from_)
          (if signal > (s.edges (node_edges (getRandomInteger s 0
                (s.brain_nodes node_idx).num_edges).1)).max_value
            then (s.edges (node_edges (getRandomInteger s 0
                (s.brain_nodes node_idx).num_edges).1)).max_value
            else signal)
          ((if signal > (s.edges (node_edges (getRandomInteger s 0
                (s.brain_nodes node_idx).num_edges).1)).max_value
            then (s.edges (node_edges (getRandomInteger s 0
                (s.brain_nodes node_idx).num_edges).1)).max_value
            else signal) *
            (s.edges (node_edges (getRandomInteger s 0
                (s.brain_nodes node_idx).num_edges).1)).messageTypeWeightings signal_type))) ∧
      SameWiring s s3 ∧ s3.rand_pos = s.rand_pos + 1 := by
  have hne2 : ((getRandomInteger s 0 (s.brain_nodes node_idx).num_edges).2.brain_nodes
      node_idx).edges = some node_edges := hne
  have hstale : ¬ (node_edges (getRandomInteger s 0 (s.brain_nodes node_idx).num_edges).1 < 0 ∨
      node_edges (getRandomInteger s 0 (s.brain_nodes node_idx).num_edges).1 ≥
        (getRandomInteger s 0 (s.brain_nodes node_idx).num_edges).2.num_edges) := by
    intro h
    rcases h with h | h
    · omega
    · have : (getRandomInteger s 0 (s.brain_nodes node_idx).num_edges).2.num_edges =
          s.num_edges := rfl
      omega
  unfold fireBody
  simp only []
  rw [hne2]
  simp only []
  rw [if_neg hstale]
  refine ⟨_, rfl, ?_, ?_⟩
  · refine sameWiring_trans ?_ (sendSignalToRank_wiring _ _ _ _ _).1
    refine sameWiring_trans (t := (getRandomInteger s 0 (s.brain_nodes node_idx).num_edges).2)
      ⟨rfl, rfl, rfl, fun _ => ⟨rfl, rfl, rfl, rfl⟩⟩ ?_
    split
    · exact sameWiring_setNode _ node_idx _ hne2.symm rfl rfl rfl
    · exact sameWiring_refl _
  · rw [(sendSignalToRank_wiring _ _ _ _ _).2]
    split
    · rfl
    · rfl

theorem threshold_pos : (0 : Rat) < SIGNAL_THRESHOLD := by
  unfold SIGNAL_THRESHOLD
  norm_num

theorem pickAt_wiring {s t : State} (h : SameWiring s t) (node_idx : Int) (p : Nat) :
    pickAt t node_idx p = pickAt s node_idx p := by
  unfold pickAt getRandomInteger
  simp only []
  rw [h.2.2.1, (h.2.2.2 node_idx).2.1]

/-- The loop never exits when every draw selects a valid edge of capacity
zero. -/
theorem fireSignalLoop_spins (node_idx signal_type : Int) (M : Rat)
    (hM : M ≥ SIGNAL_THRESHOLD) (node_edges : Int → Int) :
    ∀ (fuel : Nat) (s : State), (s.brain_nodes node_idx).edges = some node_edges →
      (∀ p : Nat, s.rand_pos ≤ p →
        0 ≤ node_edges (pickAt s node_idx p) ∧ node_edges (pickAt s node_idx p) < s.num_edges ∧
        (s.edges (node_edges (pickAt s node_idx p))).max_value = 0) →
      fireSignalLoop fuel s node_idx M signal_type = none := by
  intro fuel
  induction fuel with
  | zero =>
    intro s _ _
    rw [fireSignalLoop_zero, if_pos hM]
  | succ fuel ih =>
    intro s hne hpick
    rw [fireSignalLoop_succ, if_pos hM]
    obtain ⟨h0, h1, hz⟩ := hpick s.rand_pos (le_refl _)
    obtain ⟨s3, hb, hw, hp⟩ := fireBody_valid s node_idx M signal_type node_edges hne h0 h1
    rw [hb]
    simp only []
    have hz2 : (s.edges (node_edges (getRandomInteger s 0
        (s.brain_nodes node_idx).num_edges).1)).max_value = 0 := hz
    have hpos := threshold_pos
    rw [hz2, if_pos (by linarith), sub_zero]
    apply ih s3
    · rw [(hw.2.2.2 node_idx).1]
      exact hne
    · intro p hp2
      rw [pickAt_wiring hw, hw.1, hw.2.1]
      exact hpick p (by omega)

theorem fireSignal_loop (fuel : Nat) (s : State) (node_idx : Int) (signal : Rat)
    (signal_type : Int) (node_edges : Int → Int)
    (hne : (s.brain_nodes node_idx).edges = some node_edges)
    (hE : 0 < (s.brain_nodes node_idx).num_edges)
    (hty : 0 ≤ signal_type ∧ signal_type < 10) :
    fireSignal fuel s node_idx signal signal_type =
      fireSignalLoop fuel s node_idx signal signal_type := by
  unfold fireSignal
  rw [if_neg, if_neg]
  · unfold NUM_SIGNAL_TYPES
    omega
  · rw [hne]
    simp only [Option.isNone_some, Bool.false_eq_true, false_or]
    omega

/-- C15: for a node whose every incident edge (every entry of its edge list)
is a valid edge with `max_value = 0`, a signal type in `[0, 10)` and a
magnitude `M ≥ 0.001`, the loop of `fireSignal` never exits: whatever the
number of iterations allowed, the call has not returned.  Each iteration, run
on `M` in a state with the wiring of `s`, dispatches a chunk of 0 and leaves
the magnitude equal to `M`, still at least `0.001`, in a state with the same
wiring. -/
theorem fire_never_exits_on_zero_edges (s : State) (node_idx : Int) (M : Rat)
    (signal_type : Int) (node_edges : Int → Int)
    (hne : (s.brain_nodes node_idx).edges = some node_edges)
    (hE : 0 < (s.brain_nodes node_idx).num_edges)
    (hty : 0 ≤ signal_type ∧ signal_type < 10)
    (hM : 1 / 1000 ≤ M)
    (hall : ∀ k : Int, 0 ≤ k → k < (s.brain_nodes node_idx).num_edges →
      0 ≤ node_edges k ∧ node_edges k < s.num_edges ∧
      (s.edges (node_edges k)).max_value = 0) :
    (∀ fuel : Nat, fireSignal fuel s node_idx M signal_type = none) ∧
    (∀ t : State, SameWiring s t →
      ∃ (t3 : State) (fired : FireRecord),
        fireBody t node_idx M signal_type = (t3, some fired) ∧
        fired.chunk = 0 ∧ M - fired.chunk = M ∧ 1 / 1000 ≤ M - fired.chunk ∧
        SameWiring s t3) := by
  have hMt : M ≥ SIGNAL_THRESHOLD := by
    unfold SIGNAL_THRESHOLD
    exact hM
  constructor
  · intro fuel
    rw [fireSignal_loop fuel s node_idx M signal_type node_edges hne hE hty]
    apply fireSignalLoop_spins node_idx signal_type M hMt node_edges fuel s hne
    intro p _
    have hr := getRandomInteger_range { s with rand_pos := p }
      (s.brain_nodes node_idx).num_edges hE
    exact hall (pickAt s node_idx p) hr.1 hr.2
  · intro t hw
    have hr := getRandomInteger_range t (t.brain_nodes node_idx).num_edges
      (by rw [(hw.2.2.2 node_idx).2.1]; exact hE)
    rw [(hw.2.2.2 node_idx).2.1] at hr
    obtain ⟨h0, h1, hz⟩ := hall _ hr.1 hr.2
    obtain ⟨t3, hb, hw3, _⟩ := fireBody_valid t node_idx M signal_type node_edges
      (by rw [(hw.2.2.2 node_idx).1]; exact hne)
      (by rw [(hw.2.2.2 node_idx).2.1]; exact h0)
      (by rw [(hw.2.2.2 node_idx).2.1, hw.2.1]; exact h1)
    have hz2 : (t.edges (node_edges (getRandomInteger t 0
        (t.brain_nodes node_idx).num_edges).1)).max_value = 0 := by
      rw [(hw.2.2.2 node_idx).2.1, hw.1]
      exact hz
    have hpos : (0 : Rat) < M := by linarith
    refine ⟨t3, _, hb, ?_, ?_, ?_, sameWiring_trans hw hw3⟩
    · show (if M > _ then _ else M) = 0
      rw [hz2, if_pos hpos]
    · show M - (if M > _ then _ else M) = M
      rw [hz2, if_pos hpos, sub_zero]
    · show 1 / 1000 ≤ M - (if M > _ then _ else M)
      rw [hz2, if_pos hpos, sub_zero]
      exact hM

/-- C15 on `stuck_state`: node 0 has one incident edge, of capacity zero, and
firing magnitude 1 from it has not returned after 1000 iterations. -/
theorem fire_never_exits_on_zero_edges_witness :
    fireSignal 1000 stuck_state 0 1 0 = none :=
  (fire_never_exits_on_zero_edges stuck_state 0 1 0 (fun _ => 0) rfl (by decide)
    (by decide) (by norm_num)
    (fun _ _ _ => ⟨le_refl (0 : Int), (by decide : (0 : Int) < 1), rfl⟩)).1 1000

/-! ## Fan-out conservation -/

theorem fireTrace_succ (fuel : Nat) (s : State) (node_idx : Int) (signal : Rat)
    (signal_type : Int) :
    fireTrace (fuel + 1) s node_idx signal signal_type =
      if signal ≥ SIGNAL_THRESHOLD then
        match fireBody s node_idx signal signal_type with
        | (s1, none) => some (s1, [], signal)
        | (s3, some fired) =>
          match fireTrace fuel s3 node_idx (signal - fired.chunk) signal_type with
          | none => none
          | some (t, trace, rest) => some (t, fired :: trace, rest)
      else some (s, [], signal) := by
  conv_lhs => unfold fireTrace

theorem fireTrace_exit (fuel : Nat) (s : State) (node_idx : Int) (signal : Rat)
    (signal_type : Int) (h : ¬ signal ≥ SIGNAL_THRESHOLD) :
    fireTrace fuel s node_idx signal signal_type = some (s, [], signal) := by
  unfold fireTrace
  rw [if_neg h]

/-- The record of an iteration whose chosen edge index is valid, field by
field. -/
theorem fireBody_fields (s : State) (node_idx : Int) (signal : Rat) (signal_type : Int)
    (node_edges : Int → Int) (hne : (s.brain_nodes node_idx).edges = some node_edges)
    (h0 : 0 ≤ node_edges (getRandomInteger s 0 (s.brain_nodes node_idx).num_edges).1)
    (h1 : node_edges (getRandomInteger s 0 (s.brain_nodes node_idx).num_edges).1 <
      s.num_edges) :
    ∃ (s3 : State) (fired : FireRecord),
      fireBody s node_idx signal signal_type = (s3, some fired) ∧
      fired.edge_idx = node_edges (getRandomInteger s 0 (s.brain_nodes node_idx).num_edges).1 ∧
      fired.tgt_id =
        (if (s.edges fired.edge_idx).from_ = (s.brain_nodes node_idx).id
          then (s.edges fired.edge_idx).to_ else (s.edges fired.edge_idx).from_) ∧
      fired.chunk =
        (if signal > (s.edges fired.edge_idx).max_value
          then (s.edges fired.edge_idx).max_value else signal) ∧
      fired.value = fired.chunk * (s.edges fired.edge_idx).messageTypeWeightings signal_type ∧
      SameWiring s s3 ∧ s3.rand_pos = s.rand_pos + 1 := by
  obtain ⟨s3, hb, hw, hp⟩ := fireBody_valid s node_idx signal signal_type node_edges hne h0 h1
  exact ⟨s3, _, hb, rfl, rfl, rfl, rfl, hw, hp⟩

/-- With every incident edge valid and of capacity at least the threshold,
each iteration removes at least the threshold, so `fuel` iterations suffice
for a magnitude below `fuel * SIGNAL_THRESHOLD`; the chunks add up to what was
removed. -/
theorem fireTrace_conserves (node_idx signal_type : Int) (node_edges : Int → Int) :
    ∀ (fuel : Nat) (s : State) (M : Rat),
      (s.brain_nodes node_idx).edges = some node_edges →
      0 < (s.brain_nodes node_idx).num_edges →
      (∀ k : Int, 0 ≤ k → k < (s.brain_nodes node_idx).num_edges →
        0 ≤ node_edges k ∧ node_edges k < s.num_edges ∧
        SIGNAL_THRESHOLD ≤ (s.edges (node_edges k)).max_value) →
      M < fuel * SIGNAL_THRESHOLD →
      ∃ (t : State) (trace : List FireRecord) (rest : Rat),
        fireTrace fuel s node_idx M signal_type = some (t, trace, rest) ∧
        rest < SIGNAL_THRESHOLD ∧ (0 ≤ M → 0 ≤ rest) ∧
        (trace.map (fun fired => fired.chunk)).sum = M - rest := by
  intro fuel
  induction fuel with
  | zero =>
    intro s M _ _ _ hM
    have hpos := threshold_pos
    simp only [Nat.cast_zero, zero_mul] at hM
    refine ⟨s, [], M, fireTrace_exit 0 s node_idx M signal_type (by
      intro h
      have : SIGNAL_THRESHOLD ≤ M := h
      linarith), by linarith, fun h => h, by simp⟩
  | succ fuel ih =>
    intro s M hne hE hall hM
    have hpos := threshold_pos
    by_cases hth : M ≥ SIGNAL_THRESHOLD
    · have hth2 : SIGNAL_THRESHOLD ≤ M := hth
      have hr := getRandomInteger_range s (s.brain_nodes node_idx).num_edges hE
      obtain ⟨h0, h1, hcap⟩ := hall _ hr.1 hr.2
      obtain ⟨s3, fired, hb, he, _, hch, _, hw, _⟩ :=
        fireBody_fields s node_idx M signal_type node_edges hne h0 h1
      rw [← he] at hcap
      have hchunk : SIGNAL_THRESHOLD ≤ fired.chunk ∧ fired.chunk ≤ M := by
        rw [hch]
        split
        · rename_i hgt
          exact ⟨hcap, le_of_lt hgt⟩
        · exact ⟨hth2, le_refl M⟩
      obtain ⟨t, trace, rest, ht, hrest, hnn, hsum⟩ := ih s3 (M - fired.chunk)
        (by rw [(hw.2.2.2 node_idx).1]; exact hne)
        (by rw [(hw.2.2.2 node_idx).2.1]; exact hE)
        (by
          intro k hk0 hk1
          rw [(hw.2.2.2 node_idx).2.1] at hk1
          rw [hw.1, hw.2.1]
          exact hall k hk0 hk1)
        (by
          push_cast at hM
          linarith [hchunk.1])
      refine ⟨t, fired :: trace, rest, ?_, hrest, ?_, ?_⟩
      · rw [fireTrace_succ, if_pos hth, hb]
        simp only []
        rw [ht]
      · intro _
        exact hnn (by linarith [hchunk.2])
      · simp only [List.map_cons, List.sum_cons]
        rw [hsum]
        ring
    · refine ⟨s, [], M, fireTrace_exit _ s node_idx M signal_type hth, ?_, fun h => h, by simp⟩
      exact not_le.mp hth

/-- C12, refuted on `two_edge_state`: node 0 has an edge of capacity 100, which
is at least 0.001, and an edge of capacity 0; the draws select the second one
every time, each chunk is 0, and firing magnitude 1 returns for no number of
iterations. -/
theorem fire_spins_beside_good_edge :
    (1 : Rat) / 1000 ≤ (two_edge_state.edges 0).max_value ∧
    ¬ ∃ fuel : Nat, (fireSignal fuel two_edge_state 0 1 0).isSome = true := by
  constructor
  · show (1 : Rat) / 1000 ≤ 100
    norm_num
  · rintro ⟨fuel, h⟩
    have hloop := fireSignal_loop fuel two_edge_state 0 1 0 (fun k => k) rfl (by decide)
      (by decide)
    have hspin := fireSignalLoop_spins 0 0 1 (by unfold SIGNAL_THRESHOLD; norm_num)
      (fun k => k) fuel two_edge_state rfl (by
        intro p _
        have hp : pickAt two_edge_state 0 p = 1 := by
          unfold pickAt getRandomInteger
          rfl
        rw [hp]
        exact ⟨by decide, by decide, rfl⟩)
    rw [hloop, hspin] at h
    simp at h

/-- C12, amended: for a `fireSignal` call with initial magnitude `M` and a
signal type in `[0, 10)` on a node with at least one edge, all of whose
incident edges (the entries of its edge list) are valid edges with
`max_value ≥ 0.001`, and for every sequence of random edge choices, the loop
terminates after finitely many iterations (every large enough bound on their
number gives the result), and the sum of the dispatched chunk magnitudes before
weighting equals `M` minus a final remainder that is below 0.001 (and not
negative when `M` is not). -/
theorem fire_conserves_magnitude (s : State) (node_idx : Int) (M : Rat) (signal_type : Int)
    (node_edges : Int → Int)
    (hne : (s.brain_nodes node_idx).edges = some node_edges)
    (hE : 0 < (s.brain_nodes node_idx).num_edges)
    (hty : 0 ≤ signal_type ∧ signal_type < 10)
    (hall : ∀ k : Int, 0 ≤ k → k < (s.brain_nodes node_idx).num_edges →
      0 ≤ node_edges k ∧ node_edges k < s.num_edges ∧
      1 / 1000 ≤ (s.edges (node_edges k)).max_value) :
    ∃ enough : Nat, ∀ fuel : Nat, enough ≤ fuel →
      ∃ (t : State) (trace : List FireRecord) (rest : Rat),
        fireTrace fuel s node_idx M signal_type = some (t, trace, rest) ∧
        fireSignal fuel s node_idx M signal_type = some t ∧
        rest < 1 / 1000 ∧ (0 ≤ M → 0 ≤ rest) ∧
        (trace.map (fun fired => fired.chunk)).sum = M - rest := by
  obtain ⟨enough, henough⟩ := exists_nat_gt (M * 1000)
  refine ⟨enough, ?_⟩
  intro fuel hfuel
  have hlt : M < fuel * SIGNAL_THRESHOLD := by
    unfold SIGNAL_THRESHOLD
    have h1 : (enough : Rat) ≤ fuel := by exact_mod_cast hfuel
    linarith
  obtain ⟨t, trace, rest, ht, hrest, hnn, hsum⟩ :=
    fireTrace_conserves node_idx signal_type node_edges fuel s M hne hE hall hlt
  refine ⟨t, trace, rest, ht, ?_, hrest, hnn, hsum⟩
  rw [fireSignal_loop fuel s node_idx M signal_type node_edges hne hE hty,
    ← fireTrace_state, ht]
  rfl

/-- C12, amended, on `pair_state`: node 0 has one incident edge, of capacity
100; firing magnitude 250 from it terminates with chunks that add up to 250
minus the remainder. -/
theorem fire_conserves_magnitude_witness :
    ∃ enough : Nat, ∀ fuel : Nat, enough ≤ fuel →
      ∃ (t : State) (trace : List FireRecord) (rest : Rat),
        fireTrace fuel pair_state 0 250 0 = some (t, trace, rest) ∧
        fireSignal fuel pair_state 0 250 0 = some t ∧
        rest < 1 / 1000 ∧ ((0 : Rat) ≤ 250 → 0 ≤ rest) ∧
        (trace.map (fun fired => fired.chunk)).sum = 250 - rest :=
  fire_conserves_magnitude pair_state 0 250 0 (fun _ => 0) rfl (by decide) (by decide)
    (fun _ _ _ => ⟨le_refl (0 : Int), (by decide : (0 : Int) < 1),
      (by norm_num : (1 : Rat) / 1000 ≤ 100)⟩)

/-! ## Fan-out and the direction field -/

theorem handle_event_setDirections (s : State) (d : Int → EdgeDirection) (event : Event) :
    handle_event (setDirections s d) event = setDirections (handle_event s event) d := by
  obtain ⟨type, target, sig⟩ := event
  cases type with
  | EVENT_TYPE_SIGNAL =>
    by_cases hout : target < 0 ∨ target ≥ s.num_brain_nodes
    · rw [handle_event_outside s target sig hout,
        handle_event_outside (setDirections s d) target sig hout]
    · by_cases hc : (s.brain_nodes target).num_outstanding_signals < SIGNAL_INBOX_SIZE
      · rw [handle_event_store s target sig (by omega) (by omega) hc,
          handle_event_store (setDirections s d) target sig (by omega)
            (by show target < s.num_brain_nodes; omega) hc]
        rfl
      · rw [handle_event_drop s target sig (by omega) (by omega) (by omega),
          handle_event_drop (setDirections s d) target sig (by omega)
            (by show target < s.num_brain_nodes; omega)
            (by show SIGNAL_INBOX_SIZE ≤ (s.brain_nodes target).num_outstanding_signals; omega)]
        rfl
  | EVENT_TYPE_REPORT => rfl
  | EVENT_TYPE_TERMINATE => rfl

theorem sendSignalToRank_setDirections (s : State) (d : Int → EdgeDirection) (tgt_id : Int)
    (signal : SignalStruct) (sender_rank world_size : Int) :
    sendSignalToRank (setDirections s d) tgt_id signal sender_rank world_size =
      setDirections (sendSignalToRank s tgt_id signal sender_rank world_size) d := by
  have hown : getOwnerRankById (setDirections s d) tgt_id = getOwnerRankById s tgt_id := rfl
  have hmap : (setDirections s d).id_to_index_map = s.id_to_index_map := rfl
  have hn : (setDirections s d).num_brain_nodes = s.num_brain_nodes := rfl
  unfold sendSignalToRank
  simp only []
  rw [hown, hmap, hn]
  split_ifs
  · rfl
  · split
    · rfl
    · split_ifs
      · rfl
      · rfl
      · exact handle_event_setDirections s d _
  · rfl

theorem getRandomInteger_setDirections (s : State) (d : Int → EdgeDirection) (a b : Int) :
    getRandomInteger (setDirections s d) a b =
      ((getRandomInteger s a b).1, setDirections (getRandomInteger s a b).2 d) := rfl

theorem setNode_setDirections (s : State) (d : Int → EdgeDirection) (node_idx : Int)
    (node : NeuronNerveStruct) :
    setNode (setDirections s d) node_idx node = setDirections (setNode s node_idx node) d := rfl

theorem setDirections_nodes (s : State) (d : Int → EdgeDirection) :
    (setDirections s d).brain_nodes = s.brain_nodes := rfl

theorem setDirections_num_edges (s : State) (d : Int → EdgeDirection) :
    (setDirections s d).num_edges = s.num_edges := rfl

theorem setDirections_rank (s : State) (d : Int → EdgeDirection) :
    (setDirections s d).rank = s.rank := rfl

theorem setDirections_size (s : State) (d : Int → EdgeDirection) :
    (setDirections s d).size = s.size := rfl

theorem setDirections_from (s : State) (d : Int → EdgeDirection) (e : Int) :
    ((setDirections s d).edges e).from_ = (s.edges e).from_ := rfl

theorem setDirections_to (s : State) (d : Int → EdgeDirection) (e : Int) :
    ((setDirections s d).edges e).to_ = (s.edges e).to_ := rfl

theorem setDirections_max_value (s : State) (d : Int → EdgeDirection) (e : Int) :
    ((setDirections s d).edges e).max_value = (s.edges e).max_value := rfl

theorem setDirections_weightings (s : State) (d : Int → EdgeDirection) (e : Int) :
    ((setDirections s d).edges e).messageTypeWeightings = (s.edges e).messageTypeWeightings :=
  rfl

theorem fireBody_setDirections (s : State) (d : Int → EdgeDirection) (node_idx : Int)
    (signal : Rat) (signal_type : Int) :
    fireBody (setDirections s d) node_idx signal signal_type =
      (setDirections (fireBody s node_idx signal signal_type).1 d,
        (fireBody s node_idx signal signal_type).2) := by
  unfold fireBody
  simp only [getRandomInteger_setDirections, setDirections_nodes, setDirections_num_edges,
    setDirections_from, setDirections_to, setDirections_max_value, setDirections_weightings]
  split
  · rfl
  · split
    · rfl
    · simp only []
      split
      · simp only [setNode_setDirections, setDirections_rank, setDirections_size,
          sendSignalToRank_setDirections]
      · simp only [setDirections_rank, setDirections_size, sendSignalToRank_setDirections]

theorem fireTrace_setDirections (d : Int → EdgeDirection) (node_idx signal_type : Int) :
    ∀ (fuel : Nat) (s : State) (signal : Rat),
      fireTrace fuel (setDirections s d) node_idx signal signal_type =
        (fireTrace fuel s node_idx signal signal_type).map
          (fun r => (setDirections r.1 d, r.2.1, r.2.2)) := by
  intro fuel
  induction fuel with
  | zero =>
    intro s signal
    unfold fireTrace
    by_cases hth : signal ≥ SIGNAL_THRESHOLD
    · rw [if_pos hth, if_pos hth]
      rfl
    · rw [if_neg hth, if_neg hth]
      rfl
  | succ fuel ih =>
    intro s signal
    rw [fireTrace_succ, fireTrace_succ]
    by_cases hth : signal ≥ SIGNAL_THRESHOLD
    · rw [if_pos hth, if_pos hth, fireBody_setDirections]
      rcases hb : fireBody s node_idx signal signal_type with ⟨s1, _ | fired⟩
      · rfl
      · simp only []
        rw [ih]
        cases fireTrace fuel s1 node_idx (signal - fired.chunk) signal_type with
        | none => rfl
        | some r => rfl
    · rw [if_neg hth, if_neg hth]
      rfl

/-- What an iteration that dispatched a record did. -/
theorem fireBody_some (s : State) (node_idx : Int) (signal : Rat) (signal_type : Int)
    (s3 : State) (fired : FireRecord)
    (h : fireBody s node_idx signal signal_type = (s3, some fired)) :
    0 ≤ fired.edge_idx ∧ fired.edge_idx < s.num_edges ∧
    fired.tgt_id =
      (if (s.edges fired.edge_idx).from_ = (s.brain_nodes node_idx).id
        then (s.edges fired.edge_idx).to_ else (s.edges fired.edge_idx).from_) ∧
    fired.chunk =
      (if signal > (s.edges fired.edge_idx).max_value
        then (s.edges fired.edge_idx).max_value else signal) ∧
    fired.value = fired.chunk * (s.edges fired.edge_idx).messageTypeWeightings signal_type ∧
    SameWiring s s3 := by
  cases hne : (s.brain_nodes node_idx).edges with
  | none =>
    exfalso
    unfold fireBody at h
    simp only [] at h
    have hne2 : ((getRandomInteger s 0 (s.brain_nodes node_idx).num_edges).2.brain_nodes
        node_idx).edges = none := hne
    rw [hne2] at h
    simp at h
  | some node_edges =>
    by_cases hstale :
        node_edges (getRandomInteger s 0 (s.brain_nodes node_idx).num_edges).1 < 0 ∨
        node_edges (getRandomInteger s 0 (s.brain_nodes node_idx).num_edges).1 ≥ s.num_edges
    · exfalso
      unfold fireBody at h
      simp only [] at h
      have hne2 : ((getRandomInteger s 0 (s.brain_nodes node_idx).num_edges).2.brain_nodes
          node_idx).edges = some node_edges := hne
      rw [hne2] at h
      simp only [] at h
      rw [if_pos (by exact hstale)] at h
      simp at h
    · obtain ⟨t3, fired2, hb, he, htgt, hch, hval, hw, _⟩ :=
        fireBody_fields s node_idx signal signal_type node_edges hne (by omega) (by omega)
      rw [hb] at h
      have h1 : t3 = s3 := (Prod.mk.inj h).1
      have h2 : fired2 = fired := Option.some.inj (Prod.mk.inj h).2
      subst h1
      subst h2
      exact ⟨by rw [he]; omega, by rw [he]; omega, htgt, hch, hval, hw⟩

/-- Every record of the loop names a valid edge of the entry state and the
target computed from that edge and the firing node's id. -/
theorem fireTrace_targets (node_idx signal_type : Int) :
    ∀ (fuel : Nat) (s : State) (signal : Rat) (r : State × List FireRecord × Rat),
      fireTrace fuel s node_idx signal signal_type = some r →
      ∀ fired : FireRecord, fired ∈ r.2.1 →
        fired.tgt_id =
          (if (s.edges fired.edge_idx).from_ = (s.brain_nodes node_idx).id
            then (s.edges fired.edge_idx).to_ else (s.edges fired.edge_idx).from_) := by
  intro fuel
  induction fuel with
  | zero =>
    intro s signal r h fired hmem
    unfold fireTrace at h
    by_cases hth : signal ≥ SIGNAL_THRESHOLD
    · rw [if_pos hth] at h
      simp at h
    · rw [if_neg hth] at h
      cases h
      simp at hmem
  | succ fuel ih =>
    intro s signal r h fired hmem
    rw [fireTrace_succ] at h
    by_cases hth : signal ≥ SIGNAL_THRESHOLD
    · rw [if_pos hth] at h
      rcases hb : fireBody s node_idx signal signal_type with ⟨s1, _ | fired1⟩
      · rw [hb] at h
        cases h
        simp at hmem
      · rw [hb] at h
        simp only [] at h
        obtain ⟨_, _, htgt, _, _, hw⟩ := fireBody_some s node_idx signal signal_type s1 fired1 hb
        cases hrec : fireTrace fuel s1 node_idx (signal - fired1.chunk) signal_type with
        | none =>
          rw [hrec] at h
          simp at h
        | some r1 =>
          rw [hrec] at h
          cases h
          rcases List.mem_cons.mp hmem with heq | hin
          · rw [heq]
            exact htgt
          · have h5 := ih s1 _ r1 hrec fired hin
            rw [hw.1, (hw.2.2.2 node_idx).2.2.1] at h5
            exact h5
    · rw [if_neg hth] at h
      cases h
      simp at hmem

/-- C16: fan-out ignores edge direction.  Setting the direction field of every
edge to anything (`setDirections s d`; a state that differs from `s` only in
direction fields is of this form) changes neither the records of the loop (the
same chunks, for the same edges and targets, in the same order), nor the
magnitude left, nor whether the call returns, and the resulting state is the
one reached from `s` with its directions set the same way.  The target of each
record is the chosen edge's `to` when its `from` equals the firing node's id
and its `from` otherwise; so for an incident edge with distinct endpoints it is
the endpoint that is not the firing node. -/
theorem fire_ignores_direction (fuel : Nat) (s : State) (d : Int → EdgeDirection)
    (node_idx : Int) (M : Rat) (signal_type : Int) :
    fireTrace fuel (setDirections s d) node_idx M signal_type =
      (fireTrace fuel s node_idx M signal_type).map
        (fun r => (setDirections r.1 d, r.2.1, r.2.2)) ∧
    (∀ r : State × List FireRecord × Rat,
      fireTrace fuel s node_idx M signal_type = some r →
      ∀ fired : FireRecord, fired ∈ r.2.1 →
        fired.tgt_id =
          (if (s.edges fired.edge_idx).from_ = (s.brain_nodes node_idx).id
            then (s.edges fired.edge_idx).to_ else (s.edges fired.edge_idx).from_) ∧
        ((s.edges fired.edge_idx).from_ ≠ (s.edges fired.edge_idx).to_ →
          ((s.edges fired.edge_idx).from_ = (s.brain_nodes node_idx).id ∨
            (s.edges fired.edge_idx).to_ = (s.brain_nodes node_idx).id) →
          fired.tgt_id ≠ (s.brain_nodes node_idx).id ∧
          (fired.tgt_id = (s.edges fired.edge_idx).from_ ∨
            fired.tgt_id = (s.edges fired.edge_idx).to_))) := by
  refine ⟨fireTrace_setDirections d node_idx signal_type fuel s M, ?_⟩
  intro r h fired hmem
  have htgt := fireTrace_targets node_idx signal_type fuel s M r h fired hmem
  refine ⟨htgt, ?_⟩
  intro hdist hinc
  rw [htgt]
  by_cases hfrom : (s.edges fired.edge_idx).from_ = (s.brain_nodes node_idx).id
  · rw [if_pos hfrom]
    refine ⟨?_, Or.inr rfl⟩
    intro hto
    exact hdist (hfrom.trans hto.symm)
  · rw [if_neg hfrom]
    exact ⟨hfrom, Or.inl rfl⟩

/-- C16 on `pair_state`: firing magnitude 150 from node 0 (id 3) over its edge
from 3 to 7 returns, and every record is addressed to 7. -/
theorem fire_ignores_direction_witness :
    ∃ r : State × List FireRecord × Rat, fireTrace 3 pair_state 0 150 0 = some r ∧
      r.2.1.map (fun fired => (fired.tgt_id, fired.chunk)) = [(7, 100), (7, 50)] ∧
      ∀ fired : FireRecord, fired ∈ r.2.1 →
        fired.tgt_id =
          (if (pair_state.edges fired.edge_idx).from_ = (pair_state.brain_nodes 0).id
            then (pair_state.edges fired.edge_idx).to_
            else (pair_state.edges fired.edge_idx).from_) := by
  have hs : (fireTrace 3 pair_state 0 150 0).isSome = true := by decide!
  have htr : (fireTrace 3 pair_state 0 150 0).map
      (fun r => r.2.1.map (fun fired => (fired.tgt_id, fired.chunk))) =
      some [(7, 100), (7, 50)] := by decide!
  rw [map_eq_of_get _ hs] at htr
  refine ⟨_, (Option.some_get hs).symm, Option.some.inj htr, ?_⟩
  intro fired hmem
  exact ((fire_ignores_direction 3 pair_state (fun _ => EdgeDirection.BIDIRECTIONAL) 0 150
    0).2 _ (Option.some_get hs).symm fired hmem).1

/-! ## Aggregation -/

theorem gatherLayout_spec (N W : Int) (hN : 0 ≤ N) (hW : 1 ≤ W) :
    ∀ (todo : Nat) (r : Int) (recvcounts displs : Int → Int),
      (∀ r2 : Int, r ≤ r2 → r2 < r + todo →
        (gatherLayout N W (remainder N W) todo r (start_idx N W r) recvcounts displs).1 r2 =
          local_count N W r2 ∧
        (gatherLayout N W (remainder N W) todo r (start_idx N W r) recvcounts displs).2 r2 =
          start_idx N W r2) ∧
      (∀ r2 : Int, r2 < r →
        (gatherLayout N W (remainder N W) todo r (start_idx N W r) recvcounts displs).1 r2 =
          recvcounts r2 ∧
        (gatherLayout N W (remainder N W) todo r (start_idx N W r) recvcounts displs).2 r2 =
          displs r2) := by
  intro todo
  induction todo with
  | zero =>
    intro r recvcounts displs
    constructor
    · intro r2 h1 h2
      simp only [Nat.cast_zero] at h2
      omega
    · intro r2 _
      exact ⟨rfl, rfl⟩
  | succ todo ih =>
    intro r recvcounts displs
    have hstep : gatherLayout N W (remainder N W) (todo + 1) r (start_idx N W r) recvcounts
        displs =
        gatherLayout N W (remainder N W) todo (r + 1) (start_idx N W (r + 1))
          (Function.update recvcounts r (local_count N W r))
          (Function.update displs r (start_idx N W r)) := by
      rw [start_idx_succ N W r hN hW]
      rfl
    rw [hstep]
    obtain ⟨a, b⟩ := ih (r + 1) (Function.update recvcounts r (local_count N W r))
      (Function.update displs r (start_idx N W r))
    constructor
    · intro r2 h1 h2
      by_cases heq : r2 = r
      · subst heq
        obtain ⟨b1, b2⟩ := b r2 (by omega)
        rw [b1, b2]
        simp
      · exact a r2 (by omega) (by push_cast at h2; omega)
    · intro r2 h1
      obtain ⟨b1, b2⟩ := b r2 (by omega)
      rw [b1, b2]
      have hne : r2 ≠ r := by omega
      simp [Function.update_noteq hne]

theorem copyBlock_spec (src : Int → Int) (displ : Int) :
    ∀ (todo : Nat) (k : Int) (recvbuf : Int → Int) (i : Int),
      copyBlock src displ todo k recvbuf i =
        if displ + k ≤ i ∧ i < displ + k + todo then src (i - displ) else recvbuf i := by
  intro todo
  induction todo with
  | zero =>
    intro k recvbuf i
    unfold copyBlock
    rw [if_neg]
    simp only [Nat.cast_zero]
    omega
  | succ todo ih =>
    intro k recvbuf i
    unfold copyBlock
    rw [ih]
    by_cases h1 : displ + (k + 1) ≤ i ∧ i < displ + (k + 1) + todo
    · rw [if_pos h1, if_pos (by push_cast; omega)]
    · rw [if_neg h1]
      by_cases h2 : i = displ + k
      · rw [h2, Function.update_same, if_pos (by push_cast; omega)]
        congr 1
        omega
      · rw [Function.update_noteq h2, if_neg (by push_cast; omega)]

/-- Outside the blocks of the ranks still to be gathered the buffer is left
as it is. -/
theorem gatherv_outside (N W : Int) (hN : 0 ≤ N) (hW : 1 ≤ W) (sendbufs : Int → Int → Int)
    (recvcounts displs : Int → Int) :
    ∀ (todo : Nat) (r : Int) (recvbuf : Int → Int) (i : Int),
      (∀ r2 : Int, r ≤ r2 → r2 < r + todo →
        recvcounts r2 = local_count N W r2 ∧ displs r2 = start_idx N W r2) →
      (i < start_idx N W r ∨ start_idx N W (r + todo) ≤ i) →
      MPI_Gatherv sendbufs recvcounts displs todo r recvbuf i = recvbuf i := by
  intro todo
  induction todo with
  | zero =>
    intro r recvbuf i _ _
    rfl
  | succ todo ih =>
    intro r recvbuf i hlay hout
    unfold MPI_Gatherv
    obtain ⟨hc, hd⟩ := hlay r (le_refl r) (by push_cast; omega)
    have hnn := local_count_nonneg N W r hN hW
    have hsucc := start_idx_succ N W r hN hW
    have hmono := start_idx_mono N W (r + 1) (r + 1 + todo) hN hW (by omega)
    have hcast : r + ((todo + 1 : Nat) : Int) = r + 1 + todo := by push_cast; ring
    rw [hcast] at hout
    rw [ih (r + 1) _ i (fun r2 h1 h2 => hlay r2 (by omega) (by push_cast; omega))
      (by omega), copyBlock_spec, hc, hd, if_neg]
    simp only [add_zero]
    have hto : ((local_count N W r).toNat : Int) = local_count N W r := by omega
    rw [hto]
    omega

/-- Inside the block of a rank still to be gathered the buffer holds what that
rank sent. -/
theorem gatherv_inside (N W : Int) (hN : 0 ≤ N) (hW : 1 ≤ W) (sendbufs : Int → Int → Int)
    (recvcounts displs : Int → Int) :
    ∀ (todo : Nat) (r : Int) (recvbuf : Int → Int) (i r2 : Int),
      (∀ r3 : Int, r ≤ r3 → r3 < r + todo →
        recvcounts r3 = local_count N W r3 ∧ displs r3 = start_idx N W r3) →
      r ≤ r2 → r2 < r + todo →
      start_idx N W r2 ≤ i → i < start_idx N W r2 + local_count N W r2 →
      MPI_Gatherv sendbufs recvcounts displs todo r recvbuf i =
        sendbufs r2 (i - start_idx N W r2) := by
  intro todo
  induction todo with
  | zero =>
    intro r recvbuf i r2 _ h1 h2
    simp only [Nat.cast_zero] at h2
    omega
  | succ todo ih =>
    intro r recvbuf i r2 hlay h1 h2 h3 h4
    unfold MPI_Gatherv
    have hlay2 : ∀ r3 : Int, r + 1 ≤ r3 → r3 < r + 1 + todo →
        recvcounts r3 = local_count N W r3 ∧ displs r3 = start_idx N W r3 :=
      fun r3 h5 h6 => hlay r3 (by omega) (by push_cast; omega)
    by_cases heq : r2 = r
    · subst heq
      obtain ⟨hc, hd⟩ := hlay r2 (le_refl r2) (by push_cast; omega)
      have hsucc := start_idx_succ N W r2 hN hW
      have hnn := local_count_nonneg N W r2 hN hW
      rw [gatherv_outside N W hN hW sendbufs recvcounts displs todo (r2 + 1) _ i hlay2
        (by omega), copyBlock_spec, hc, hd, if_pos]
      simp only [add_zero]
      have hto : ((local_count N W r2).toNat : Int) = local_count N W r2 := by omega
      rw [hto]
      omega
    · exact ih (r + 1) _ i r2 hlay2 (by omega) (by push_cast at h2; omega) h3 h4

/-- C13: aggregation assembles the per-node vector in global order.  For
`N ≥ 0` nodes and `W ≥ 1` workers, the receive count that rank 0 computes for
worker `r` is that worker's `local_count` and the displacement (the running
sum of the preceding counts) is that worker's `start_idx`; so after the gather
`global_counts[i]` is, for every `i` in `[0, N)`, the received-total that the
owner of global index `i` (the worker whose range holds `i`) has for node
`i`. -/
theorem gather_in_global_order (workers : Int → State) (N W : Int) (hN : 0 ≤ N)
    (hW : 1 ≤ W) :
    (∀ r : Int, 0 ≤ r → r < W →
      (gatherLayout N W (remainder N W) W.toNat 0 0 (fun _ => 0) (fun _ => 0)).1 r =
        local_count N W r ∧
      (gatherLayout N W (remainder N W) W.toNat 0 0 (fun _ => 0) (fun _ => 0)).2 r =
        start_idx N W r) ∧
    (∀ i : Int, 0 ≤ i → i < N →
      ∃ r : Int, 0 ≤ r ∧ r < W ∧ start_idx N W r ≤ i ∧ i < end_idx N W r ∧
        global_counts workers N W i = ((workers r).brain_nodes i).total_signals_recieved) := by
  have hz := start_idx_zero N W hN hW
  have hcast : ((W.toNat : Nat) : Int) = W := by omega
  have hlay : ∀ r : Int, 0 ≤ r → r < W →
      (gatherLayout N W (remainder N W) W.toNat 0 0 (fun _ => 0) (fun _ => 0)).1 r =
        local_count N W r ∧
      (gatherLayout N W (remainder N W) W.toNat 0 0 (fun _ => 0) (fun _ => 0)).2 r =
        start_idx N W r := by
    intro r h0 h1
    have h := (gatherLayout_spec N W hN hW W.toNat 0 (fun _ => 0) (fun _ => 0)).1 r h0
      (by omega)
    rw [hz] at h
    exact h
  refine ⟨hlay, ?_⟩
  intro i h0 h1
  obtain ⟨r, hr0, hr1, hr2, hr3⟩ := (ranges_cover N W i hN hW).mpr ⟨h0, h1⟩
  refine ⟨r, hr0, hr1, hr2, hr3, ?_⟩
  unfold global_counts
  rw [gatherv_inside N W hN hW _ _ _ W.toNat 0 _ i r
    (fun r3 h5 h6 => hlay r3 h5 (by omega)) hr0 (by omega) hr2 hr3]
  unfold local_counts
  congr 2
  omega

/-- C13 for two workers that both hold `pair_state`, with two nodes: entry 1
of the gathered array is the received-total of node 1 on worker 1. -/
theorem gather_in_global_order_witness :
    ∃ r : Int, 0 ≤ r ∧ r < 2 ∧ start_idx 2 2 r ≤ 1 ∧ 1 < end_idx 2 2 r ∧
      global_counts (fun _ => pair_state) 2 2 1 =
        (((fun _ => pair_state) r : State).brain_nodes 1).total_signals_recieved :=
  (gather_in_global_order (fun _ => pair_state) 2 2 (by decide) (by decide)).2 1
    (by decide) (by decide)

/-! ## The id tables after startup -/

theorem tableLoop_miss (brain_nodes : Int → NeuronNerveStruct) (id : Int) :
    ∀ (todo : Nat) (a : Int) (table : Int → Int),
      (∀ i : Int, a ≤ i → i < a + todo → (brain_nodes i).id ≠ id) →
      tableLoop brain_nodes todo a table id = table id := by
  intro todo
  induction todo with
  | zero =>
    intro a table _
    rfl
  | succ todo ih =>
    intro a table h
    unfold tableLoop
    rw [ih (a + 1) _ (fun i h1 h2 => h i (by omega) (by push_cast; omega))]
    exact Function.update_noteq (Ne.symm (h a (le_refl a) (by push_cast; omega))) _ _

theorem tableLoop_hit (brain_nodes : Int → NeuronNerveStruct) :
    ∀ (todo : Nat) (a : Int) (table : Int → Int) (i : Int),
      (∀ j k : Int, a ≤ j → j < a + todo → a ≤ k → k < a + todo →
        (brain_nodes j).id = (brain_nodes k).id → j = k) →
      a ≤ i → i < a + todo →
      tableLoop brain_nodes todo a table (brain_nodes i).id = i := by
  intro todo
  induction todo with
  | zero =>
    intro a table i _ h1 h2
    simp only [Nat.cast_zero] at h2
    omega
  | succ todo ih =>
    intro a table i hdist h1 h2
    unfold tableLoop
    by_cases heq : i = a
    · subst heq
      rw [tableLoop_miss brain_nodes (brain_nodes i).id todo (i + 1) _ (by
        intro j h3 h4 h5
        have := hdist j i (by omega) (by push_cast; omega) (le_refl i) (by push_cast; omega) h5
        omega)]
      exact Function.update_same _ _ _
    · exact ih (a + 1) _ i
        (fun j k h3 h4 h5 h6 h7 =>
          hdist j k (by omega) (by push_cast; omega) (by omega) (by push_cast; omega) h7)
        (by omega) (by push_cast at h2; omega)

/-- An entry of a table filled from all `-1` is either `-1`, when no node of
the range has the identifier, or the index of the node that has it. -/
theorem tableLoop_entry (brain_nodes : Int → NeuronNerveStruct) (todo : Nat) (a : Int)
    (hdist : ∀ j k : Int, a ≤ j → j < a + todo → a ≤ k → k < a + todo →
      (brain_nodes j).id = (brain_nodes k).id → j = k) (id : Int) :
    (tableLoop brain_nodes todo a (fun _ => -1) id = -1 ∧
      ∀ i : Int, a ≤ i → i < a + todo → (brain_nodes i).id ≠ id) ∨
    (∃ i : Int, a ≤ i ∧ i < a + todo ∧ (brain_nodes i).id = id ∧
      tableLoop brain_nodes todo a (fun _ => -1) id = i) := by
  by_cases hex : ∃ i : Int, a ≤ i ∧ i < a + todo ∧ (brain_nodes i).id = id
  · right
    obtain ⟨i, h1, h2, h3⟩ := hex
    refine ⟨i, h1, h2, h3, ?_⟩
    rw [← h3]
    exact tableLoop_hit brain_nodes todo a _ i hdist h1 h2
  · left
    have hmiss : ∀ i : Int, a ≤ i → i < a + todo → (brain_nodes i).id ≠ id := by
      intro i h1 h2 h3
      exact hex ⟨i, h1, h2, h3⟩
    exact ⟨tableLoop_miss brain_nodes id todo a _ hmiss, hmiss⟩

theorem sendSignalToRank_to_handle_event (s : State) (tgt_id : Int) (signal : SignalStruct)
    (sender_rank world_size : Int) (map : Int → Int)
    (howner : getOwnerRankById s tgt_id = sender_rank) (hrank : 0 ≤ sender_rank)
    (hmap : s.id_to_index_map = some map)
    (hidx0 : 0 ≤ map tgt_id) (hidx1 : map tgt_id < s.num_brain_nodes) :
    sendSignalToRank s tgt_id signal sender_rank world_size =
      handle_event s (Event.mk EventType.EVENT_TYPE_SIGNAL (map tgt_id) signal) := by
  have hid : ¬ (tgt_id < 0 ∨ tgt_id ≥ MAX_NODE_ID ∨ map tgt_id = -1) := by
    intro h
    have hsent : (tgt_id < 0 ∨ tgt_id ≥ MAX_NODE_ID) → getOwnerRankById s tgt_id = -1 := by
      intro h2
      unfold getOwnerRankById
      cases s.id_to_index with
      | none => rfl
      | some tbl =>
        simp only []
        rw [if_pos h2]
    rcases h with h | h | h
    · have := hsent (Or.inl h)
      omega
    · have := hsent (Or.inr h)
      omega
    · omega
  unfold sendSignalToRank
  simp only []
  rw [if_neg (by omega), if_pos howner, hmap]
  simp only []
  rw [if_neg hid, if_neg (by omega)]

theorem getOwnerRankById_out_of_range (s : State) (id : Int)
    (h : id < 0 ∨ id ≥ MAX_NODE_ID) : getOwnerRankById s id = -1 := by
  unfold getOwnerRankById
  cases s.id_to_index with
  | none => rfl
  | some tbl =>
    simp only []
    rw [if_pos h]

theorem startup_eq (s0 : State) (loaded : Int → Int) (hload : s0.id_to_index_map = some loaded) :
    startup s0 =
      { s0 with
        id_to_index := some loaded,
        id_to_index_map := some (tableLoop s0.brain_nodes
          (start_idx s0.num_brain_nodes s0.size s0.rank +
            local_count s0.num_brain_nodes s0.size s0.rank -
            start_idx s0.num_brain_nodes s0.size s0.rank).toNat
          (start_idx s0.num_brain_nodes s0.size s0.rank) (fun _ => -1)) } := by
  unfold startup
  rw [hload]

/-! ## The table that the loader leaves -/

theorem tableLoop_succ (brain_nodes : Int → NeuronNerveStruct) (todo : Nat) (a : Int)
    (table : Int → Int) :
    tableLoop brain_nodes (todo + 1) a table =
      tableLoop brain_nodes todo (a + 1) (Function.update table (brain_nodes a).id a) := rfl

/-- The last of `todo + 1` writes of the loop, taken apart. -/
theorem tableLoop_snoc (brain_nodes : Int → NeuronNerveStruct) :
    ∀ (todo : Nat) (a : Int) (table : Int → Int),
      tableLoop brain_nodes (todo + 1) a table =
        Function.update (tableLoop brain_nodes todo a table)
          (brain_nodes (a + todo)).id (a + todo) := by
  intro todo
  induction todo with
  | zero =>
    intro a table
    have e : a + ((0 : Nat) : Int) = a := by simp
    rw [e]
    rfl
  | succ todo ih =>
    intro a table
    have e : a + ((todo + 1 : Nat) : Int) = a + 1 + (todo : Int) := by push_cast; ring
    rw [tableLoop_succ, ih (a + 1), e, tableLoop_succ]

/-- The loop reads the node array only through the ids of the indices it
visits. -/
theorem tableLoop_congr (b1 b2 : Int → NeuronNerveStruct) :
    ∀ (todo : Nat) (a : Int) (table : Int → Int),
      (∀ i : Int, a ≤ i → i < a + todo → (b1 i).id = (b2 i).id) →
      tableLoop b1 todo a table = tableLoop b2 todo a table := by
  intro todo
  induction todo with
  | zero =>
    intro a table _
    rfl
  | succ todo ih =>
    intro a table h
    rw [tableLoop_succ, tableLoop_succ, h a (le_refl a) (by push_cast; omega),
      ih (a + 1) _ (fun i h1 h2 => h i (by omega) (by push_cast; omega))]

theorem loadLines_cons (line : GraphLine) (rest : List GraphLine) (l : LoaderState) :
    loadLines (line :: rest) l =
      match loadLine l line with
      | none => none
      | some l2 => loadLines rest l2 := rfl

theorem loadLine_edge_close (l : LoaderState) :
    loadLine l GraphLine.edge_close =
      if l.currentMode = ReadMode.EDGE then
        some { l with currentMode := ReadMode.NONE, currentEdgeIdx := l.currentEdgeIdx + 1 }
      else some l := rfl

theorem loadLine_id_line (l : LoaderState) (id : Int) :
    loadLine l (GraphLine.id_line id) =
      if l.currentMode = ReadMode.NEURON_NERVE then
        if id ≥ MAX_NODE_ID then none
        else
          some { l with
            node_ids := Function.update l.node_ids l.currentNeuronIdx id,
            id_to_index_map := Function.update l.id_to_index_map id l.currentNeuronIdx }
      else some l := rfl

theorem oneIdPerNodeFrom_edge_close (rest : List GraphLine) (mode : ReadMode) (written : Bool) :
    oneIdPerNodeFrom (GraphLine.edge_close :: rest) mode written =
      oneIdPerNodeFrom rest (if mode = ReadMode.EDGE then ReadMode.NONE else mode) written := rfl

theorem oneIdPerNodeFrom_id_line (id : Int) (rest : List GraphLine) (mode : ReadMode)
    (written : Bool) :
    oneIdPerNodeFrom (GraphLine.id_line id :: rest) mode written =
      if mode = ReadMode.NEURON_NERVE then !written && oneIdPerNodeFrom rest mode true
      else oneIdPerNodeFrom rest mode written := rfl

/-- On a file that passes `oneIdPerNodeFrom`, the loader keeps its table equal
to one write per node read so far, in index order. -/
theorem loadLines_table :
    ∀ (lines : List GraphLine) (l lf : LoaderState) (written : Bool),
      loadLines lines l = some lf →
      oneIdPerNodeFrom lines l.currentMode written = true →
      0 ≤ l.currentNeuronIdx →
      (∀ b : Int → NeuronNerveStruct,
        (∀ i : Int, 0 ≤ i → i < l.currentNeuronIdx + (if written = true then 1 else 0) →
          (b i).id = l.node_ids i) →
        l.id_to_index_map =
          tableLoop b (l.currentNeuronIdx + (if written = true then 1 else 0)).toNat 0
            (fun _ => -1)) →
      0 ≤ lf.currentNeuronIdx ∧
      ∀ b : Int → NeuronNerveStruct,
        (∀ i : Int, 0 ≤ i → i < lf.currentNeuronIdx → (b i).id = lf.node_ids i) →
        lf.id_to_index_map = tableLoop b lf.currentNeuronIdx.toNat 0 (fun _ => -1) := by
  intro lines
  induction lines with
  | nil =>
    intro l lf written hrun hone hcur htab
    have hl : l = lf := by
      unfold loadLines at hrun
      cases hrun
      rfl
    subst hl
    have hw : written = false := by
      cases written
      · rfl
      · simp [oneIdPerNodeFrom] at hone
    subst hw
    refine ⟨hcur, ?_⟩
    intro b hb
    have := htab b (by
      intro i h1 h2
      rw [if_neg (by decide)] at h2
      exact hb i h1 (by omega))
    rw [if_neg (by decide), add_zero] at this
    exact this
  | cons line rest ih =>
    intro l lf written hrun hone hcur htab
    cases line with
    | node_open t =>
      have hrun2 : loadLines rest
          { l with
            currentMode := ReadMode.NEURON_NERVE,
            node_ids := Function.update l.node_ids l.currentNeuronIdx 0 } = some lf := hrun
      have hw : written = false := by
        cases written
        · rfl
        · simp [oneIdPerNodeFrom] at hone
      subst hw
      have hone2 : oneIdPerNodeFrom rest ReadMode.NEURON_NERVE false = true := hone
      refine ih _ lf false hrun2 hone2 hcur ?_
      intro b hb
      refine htab b ?_
      intro i h1 h2
      rw [if_neg (by decide)] at h2
      have h3 := hb i h1 (by rw [if_neg (by decide)]; exact h2)
      rw [h3]
      exact Function.update_noteq (by omega) _ _
    | node_close =>
      have hrun2 : loadLines rest
          { l with
            currentMode := ReadMode.NONE,
            currentNeuronIdx := l.currentNeuronIdx + 1 } = some lf := hrun
      have hw : written = true := by
        cases written
        · simp [oneIdPerNodeFrom] at hone
        · rfl
      subst hw
      have hone2 : oneIdPerNodeFrom rest ReadMode.NONE false = true := hone
      refine ih _ lf false hrun2 hone2 (by show 0 ≤ l.currentNeuronIdx + 1; omega) ?_
      intro b hb
      have h3 := htab b (by
        intro i h1 h2
        rw [if_pos rfl] at h2
        exact hb i h1 (by
          show i < l.currentNeuronIdx + 1 + (if false = true then 1 else 0)
          rw [if_neg (by decide)]
          omega))
      rw [if_pos rfl] at h3
      show l.id_to_index_map =
        tableLoop b (l.currentNeuronIdx + 1 + (if false = true then 1 else 0)).toNat 0
          (fun _ => -1)
      rw [if_neg (by decide), h3, add_zero]
    | edge_open =>
      have hrun2 : loadLines rest { l with currentMode := ReadMode.EDGE } = some lf := hrun
      have hone2 : oneIdPerNodeFrom rest ReadMode.EDGE written = true := hone
      exact ih _ lf written hrun2 hone2 hcur htab
    | edge_close =>
      by_cases hm : l.currentMode = ReadMode.EDGE
      · have hrun2 : loadLines rest
            { l with
              currentMode := ReadMode.NONE,
              currentEdgeIdx := l.currentEdgeIdx + 1 } = some lf := by
          have h := hrun
          rw [loadLines_cons, loadLine_edge_close, if_pos hm] at h
          exact h
        have hone2 : oneIdPerNodeFrom rest ReadMode.NONE written = true := by
          have h := hone
          rw [oneIdPerNodeFrom_edge_close, if_pos hm] at h
          exact h
        exact ih _ lf written hrun2 hone2 hcur htab
      · have hrun2 : loadLines rest l = some lf := by
          have h := hrun
          rw [loadLines_cons, loadLine_edge_close, if_neg hm] at h
          exact h
        have hone2 : oneIdPerNodeFrom rest l.currentMode written = true := by
          have h := hone
          rw [oneIdPerNodeFrom_edge_close, if_neg hm] at h
          exact h
        exact ih _ lf written hrun2 hone2 hcur htab
    | id_line id =>
      by_cases hm : l.currentMode = ReadMode.NEURON_NERVE
      · have hone1 : (!written && oneIdPerNodeFrom rest l.currentMode true) = true := by
          have h := hone
          rw [oneIdPerNodeFrom_id_line, if_pos hm] at h
          exact h
        have hw : written = false := by
          cases written
          · rfl
          · exact absurd hone1 (by simp)
        subst hw
        have hone2 : oneIdPerNodeFrom rest l.currentMode true = true := by
          simpa using hone1
        by_cases hbig : id ≥ MAX_NODE_ID
        · have h := hrun
          rw [loadLines_cons, loadLine_id_line, if_pos hm, if_pos hbig] at h
          exact absurd h (by simp)
        · have hrun2 : loadLines rest
              { l with
                node_ids := Function.update l.node_ids l.currentNeuronIdx id,
                id_to_index_map :=
                  Function.update l.id_to_index_map id l.currentNeuronIdx } = some lf := by
            have h := hrun
            rw [loadLines_cons, loadLine_id_line, if_pos hm, if_neg hbig] at h
            exact h
          refine ih _ lf true hrun2 hone2 hcur ?_
          intro b hb
          show Function.update l.id_to_index_map id l.currentNeuronIdx =
            tableLoop b (l.currentNeuronIdx + (if true = true then 1 else 0)).toNat 0
              (fun _ => -1)
          have hb2 : ∀ i : Int, 0 ≤ i → i < l.currentNeuronIdx + 1 →
              (b i).id = Function.update l.node_ids l.currentNeuronIdx id i := by
            intro i h1 h2
            exact hb i h1 (by
              show i < l.currentNeuronIdx + (if true = true then 1 else 0)
              rw [if_pos rfl]
              exact h2)
          have hn : (l.currentNeuronIdx + 1).toNat = l.currentNeuronIdx.toNat + 1 := by omega
          have hc : (0 : Int) + ((l.currentNeuronIdx.toNat : Nat) : Int) =
              l.currentNeuronIdx := by omega
          have hlast : (b l.currentNeuronIdx).id = id := by
            rw [hb2 l.currentNeuronIdx hcur (by omega)]
            exact Function.update_same _ _ _
          have hold := htab b (by
            intro i h1 h2
            rw [if_neg (by decide)] at h2
            rw [hb2 i h1 (by omega)]
            exact Function.update_noteq (by omega) _ _)
          rw [if_neg (by decide), add_zero] at hold
          rw [if_pos rfl, hn, tableLoop_snoc, hc, hlast, ← hold]
      · have hrun2 : loadLines rest l = some lf := by
          have h := hrun
          rw [loadLines_cons, loadLine_id_line, if_neg hm] at h
          exact h
        have hone2 : oneIdPerNodeFrom rest l.currentMode written = true := by
          have h := hone
          rw [oneIdPerNodeFrom_id_line, if_neg hm] at h
          exact h
        exact ih _ lf written hrun2 hone2 hcur htab
    | other =>
      have hrun2 : loadLines rest l = some lf := hrun
      have hone2 : oneIdPerNodeFrom rest l.currentMode written = true := hone
      exact ih _ lf written hrun2 hone2 hcur htab

/-! ## The id tables of a loaded graph -/

/-- The tables after startup when the broadcast table is the result of one
write `table[brain_nodes[i].id] = i` per node, in index order, on a table of
`-1`, and the node ids are pairwise distinct: the local table is set exactly
for the ids of the worker's own range and agrees there with the global one,
and a signal whose owner is the sending worker is dispatched at the local index
of its target. -/
theorem startup_tables_of_writes (s0 : State)
    (hload : s0.id_to_index_map =
      some (tableLoop s0.brain_nodes s0.num_brain_nodes.toNat 0 (fun _ => -1)))
    (hN : 0 ≤ s0.num_brain_nodes) (hW : 1 ≤ s0.size)
    (hr0 : 0 ≤ s0.rank) (hr1 : s0.rank < s0.size)
    (hdist : ∀ j k : Int, 0 ≤ j → j < s0.num_brain_nodes → 0 ≤ k → k < s0.num_brain_nodes →
      (s0.brain_nodes j).id = (s0.brain_nodes k).id → j = k)
    (_hids : ∀ j : Int, 0 ≤ j → j < s0.num_brain_nodes →
      0 ≤ (s0.brain_nodes j).id ∧ (s0.brain_nodes j).id < 2048) :
    ∃ map tbl : Int → Int,
      (startup s0).id_to_index_map = some map ∧ (startup s0).id_to_index = some tbl ∧
      (∀ id : Int, map id ≠ -1 ↔
        ∃ i : Int, start_idx s0.num_brain_nodes s0.size s0.rank ≤ i ∧
          i < end_idx s0.num_brain_nodes s0.size s0.rank ∧ (s0.brain_nodes i).id = id) ∧
      (∀ id : Int, map id ≠ -1 → map id = tbl id) ∧
      (∀ (id : Int) (signal : SignalStruct) (world_size : Int),
        getOwnerRankById (startup s0) id = s0.rank →
        sendSignalToRank (startup s0) id signal s0.rank world_size =
          handle_event (startup s0) (Event.mk EventType.EVENT_TYPE_SIGNAL (map id) signal) ∧
        map id ≠ -1 ∧ 0 ≤ map id ∧ map id < s0.num_brain_nodes ∧
        ((startup s0).brain_nodes (map id)).id = id) := by
  have hst := startup_eq s0 _ hload
  have hcnt := local_count_nonneg s0.num_brain_nodes s0.size s0.rank hN hW
  have hs0 : 0 ≤ start_idx s0.num_brain_nodes s0.size s0.rank := by
    have := start_idx_mono s0.num_brain_nodes s0.size 0 s0.rank hN hW hr0
    rw [start_idx_zero s0.num_brain_nodes s0.size hN hW] at this
    exact this
  have hen : start_idx s0.num_brain_nodes s0.size s0.rank +
      local_count s0.num_brain_nodes s0.size s0.rank ≤ s0.num_brain_nodes := by
    have := end_idx_le_start s0.num_brain_nodes s0.size s0.rank s0.size hN hW hr1
    rw [start_idx_size s0.num_brain_nodes s0.size hN hW] at this
    exact this
  have hlen : (((start_idx s0.num_brain_nodes s0.size s0.rank +
      local_count s0.num_brain_nodes s0.size s0.rank -
      start_idx s0.num_brain_nodes s0.size s0.rank).toNat : Nat) : Int) =
      local_count s0.num_brain_nodes s0.size s0.rank := by omega
  have hNcast : ((s0.num_brain_nodes.toNat : Nat) : Int) = s0.num_brain_nodes := by omega
  have hdistL : ∀ j k : Int, start_idx s0.num_brain_nodes s0.size s0.rank ≤ j →
      j < start_idx s0.num_brain_nodes s0.size s0.rank +
        ((start_idx s0.num_brain_nodes s0.size s0.rank +
          local_count s0.num_brain_nodes s0.size s0.rank -
          start_idx s0.num_brain_nodes s0.size s0.rank).toNat : Nat) →
      start_idx s0.num_brain_nodes s0.size s0.rank ≤ k →
      k < start_idx s0.num_brain_nodes s0.size s0.rank +
        ((start_idx s0.num_brain_nodes s0.size s0.rank +
          local_count s0.num_brain_nodes s0.size s0.rank -
          start_idx s0.num_brain_nodes s0.size s0.rank).toNat : Nat) →
      (s0.brain_nodes j).id = (s0.brain_nodes k).id → j = k := by
    intro j k h1 h2 h3 h4 h5
    rw [hlen] at h2 h4
    exact hdist j k (by omega) (by omega) (by omega) (by omega) h5
  have hdistG : ∀ j k : Int, (0 : Int) ≤ j → j < 0 + (s0.num_brain_nodes.toNat : Nat) →
      (0 : Int) ≤ k → k < 0 + (s0.num_brain_nodes.toNat : Nat) →
      (s0.brain_nodes j).id = (s0.brain_nodes k).id → j = k := by
    intro j k h1 h2 h3 h4 h5
    rw [hNcast] at h2 h4
    exact hdist j k h1 (by omega) h3 (by omega) h5
  have hlocal : ∀ i : Int, start_idx s0.num_brain_nodes s0.size s0.rank ≤ i →
      i < start_idx s0.num_brain_nodes s0.size s0.rank +
        local_count s0.num_brain_nodes s0.size s0.rank →
      tableLoop s0.brain_nodes
        (start_idx s0.num_brain_nodes s0.size s0.rank +
          local_count s0.num_brain_nodes s0.size s0.rank -
          start_idx s0.num_brain_nodes s0.size s0.rank).toNat
        (start_idx s0.num_brain_nodes s0.size s0.rank) (fun _ => -1) (s0.brain_nodes i).id =
        i := by
    intro i h1 h2
    exact tableLoop_hit s0.brain_nodes _ _ _ i hdistL h1 (by rw [hlen]; exact h2)
  have hglobal : ∀ i : Int, 0 ≤ i → i < s0.num_brain_nodes →
      tableLoop s0.brain_nodes s0.num_brain_nodes.toNat 0 (fun _ => -1)
        (s0.brain_nodes i).id = i := by
    intro i h1 h2
    exact tableLoop_hit s0.brain_nodes _ 0 _ i hdistG h1 (by rw [hNcast]; omega)
  refine ⟨_, tableLoop s0.brain_nodes s0.num_brain_nodes.toNat 0 (fun _ => -1), by rw [hst],
    by rw [hst], ?_, ?_, ?_⟩
  · intro id
    constructor
    · intro hne
      rcases tableLoop_entry s0.brain_nodes _ _ hdistL id with ⟨h1, _⟩ | ⟨i, h1, h2, h3, _⟩
      · exact absurd h1 hne
      · rw [hlen] at h2
        exact ⟨i, h1, h2, h3⟩
    · rintro ⟨i, h1, h2, h3⟩
      rw [← h3, hlocal i h1 h2]
      omega
  · intro id hne
    rcases tableLoop_entry s0.brain_nodes _ _ hdistL id with ⟨h1, _⟩ | ⟨i, h1, h2, h3, h4⟩
    · exact absurd h1 hne
    · rw [hlen] at h2
      rw [h4, ← h3, hglobal i (by omega) (by omega)]
  · intro id signal world_size howner
    have htbl : (startup s0).id_to_index =
        some (tableLoop s0.brain_nodes s0.num_brain_nodes.toNat 0 (fun _ => -1)) := by rw [hst]
    have hnum : (startup s0).num_brain_nodes = s0.num_brain_nodes := by rw [hst]
    have hsize : (startup s0).size = s0.size := by rw [hst]
    have hnodes : (startup s0).brain_nodes = s0.brain_nodes := by rw [hst]
    have hmap : (startup s0).id_to_index_map = some (tableLoop s0.brain_nodes
        (start_idx s0.num_brain_nodes s0.size s0.rank +
          local_count s0.num_brain_nodes s0.size s0.rank -
          start_idx s0.num_brain_nodes s0.size s0.rank).toNat
        (start_idx s0.num_brain_nodes s0.size s0.rank) (fun _ => -1)) := by rw [hst]
    have hin : 0 ≤ id ∧ id < MAX_NODE_ID := by
      by_contra hout
      have := getOwnerRankById_out_of_range (startup s0) id (by omega)
      omega
    rcases getOwnerRankById_cases (startup s0) id _ htbl hin.1 hin.2 (by rw [hnum]; exact hN)
      (by rw [hsize]; exact hW) with ⟨h1, _⟩ | ⟨h1, _, _, h4, h5⟩
    · omega
    · rw [howner, hnum, hsize] at h4 h5
      rw [hnum] at h1
      rcases tableLoop_entry s0.brain_nodes s0.num_brain_nodes.toNat 0 hdistG id with
        ⟨h6, _⟩ | ⟨i, h6, h7, h8, h9⟩
      · have h10 : tableLoop s0.brain_nodes s0.num_brain_nodes.toNat 0 (fun _ => -1) id = -1 := h6
        omega
      · have h10 : tableLoop s0.brain_nodes s0.num_brain_nodes.toNat 0 (fun _ => -1) id = i := h9
        rw [h10] at h4 h5 h1
        have hmi := hlocal i h4 h5
        rw [h8] at hmi
        refine ⟨?_, by rw [hmi]; omega, by rw [hmi]; omega, by rw [hmi]; omega, ?_⟩
        · exact sendSignalToRank_to_handle_event (startup s0) id signal s0.rank world_size _
            howner hr0 hmap (by rw [hmi]; omega) (by rw [hmi, hnum]; omega)
        · rw [hmi, hnodes]
          exact h8

/-- C17, amended: local and global id tables agree.  When every node of the
graph file gets exactly one `<id>` line that the loader takes
(`oneIdPerNode`), and the node ids are pairwise distinct and in `[0, 2048)`,
then after startup on a worker that received the loader's table, node count and
node ids, the local table `id_to_index_map[id]` is different from `-1` exactly
for the ids of the nodes in the worker's range `[start_idx, end_idx)`, and
there it equals the global entry `id_to_index[id]`; hence whenever
`getOwnerRankById(id)` is the sending worker, `sendSignalToRank` takes neither
early return of its local branch: it is the dispatch of a Signal event at the
local index of `id`, which is a node index in `[0, num_brain_nodes)` of the
node whose id is `id`. -/
theorem tables_agree_after_load (lines : List GraphLine) (l : LoaderState) (s0 : State)
    (hfile : loadBrainGraph lines = some l) (hone : oneIdPerNode lines = true)
    (htable : s0.id_to_index_map = some l.id_to_index_map)
    (hnum : s0.num_brain_nodes = l.currentNeuronIdx)
    (hbcast : ∀ i : Int, 0 ≤ i → i < s0.num_brain_nodes →
      (s0.brain_nodes i).id = l.node_ids i)
    (hW : 1 ≤ s0.size) (hr0 : 0 ≤ s0.rank) (hr1 : s0.rank < s0.size)
    (hdist : ∀ j k : Int, 0 ≤ j → j < s0.num_brain_nodes → 0 ≤ k → k < s0.num_brain_nodes →
      (s0.brain_nodes j).id = (s0.brain_nodes k).id → j = k)
    (hids : ∀ j : Int, 0 ≤ j → j < s0.num_brain_nodes →
      0 ≤ (s0.brain_nodes j).id ∧ (s0.brain_nodes j).id < 2048) :
    ∃ map tbl : Int → Int,
      (startup s0).id_to_index_map = some map ∧ (startup s0).id_to_index = some tbl ∧
      (∀ id : Int, map id ≠ -1 ↔
        ∃ i : Int, start_idx s0.num_brain_nodes s0.size s0.rank ≤ i ∧
          i < end_idx s0.num_brain_nodes s0.size s0.rank ∧ (s0.brain_nodes i).id = id) ∧
      (∀ id : Int, map id ≠ -1 → map id = tbl id) ∧
      (∀ (id : Int) (signal : SignalStruct) (world_size : Int),
        getOwnerRankById (startup s0) id = s0.rank →
        sendSignalToRank (startup s0) id signal s0.rank world_size =
          handle_event (startup s0) (Event.mk EventType.EVENT_TYPE_SIGNAL (map id) signal) ∧
        map id ≠ -1 ∧ 0 ≤ map id ∧ map id < s0.num_brain_nodes ∧
        ((startup s0).brain_nodes (map id)).id = id) := by
  obtain ⟨hN, htab⟩ := loadLines_table lines _ l false hfile hone (le_refl 0) (by
    intro b _
    rfl)
  have hload : s0.id_to_index_map =
      some (tableLoop s0.brain_nodes s0.num_brain_nodes.toNat 0 (fun _ => -1)) := by
    rw [htable, htab s0.brain_nodes (fun i h1 h2 => hbcast i h1 (by rw [hnum]; exact h2)), hnum]
  exact startup_tables_of_writes s0 hload (by rw [hnum]; exact hN) hW hr0 hr1 hdist hids

/-- C17, amended, on worker 0 of 2 for `pair_file`: the file loads and passes
`oneIdPerNode`; after startup both tables exist, agree wherever the local one
is set, and identifier 3, which worker 0 owns, has a local entry. -/
theorem tables_agree_after_load_witness :
    ∃ map tbl : Int → Int,
      loadBrainGraph pair_file = some pair_loaded ∧ oneIdPerNode pair_file = true ∧
      (startup (loaded_state pair_loaded 0 2)).id_to_index_map = some map ∧
      (startup (loaded_state pair_loaded 0 2)).id_to_index = some tbl ∧
      (∀ id : Int, map id ≠ -1 → map id = tbl id) ∧
      getOwnerRankById (startup (loaded_state pair_loaded 0 2)) 3 = 0 ∧
      map 3 ≠ -1 ∧ ((startup (loaded_state pair_loaded 0 2)).brain_nodes (map 3)).id = 3 := by
  have hl : loadBrainGraph pair_file = some pair_loaded := rfl
  have hone : oneIdPerNode pair_file = true := by decide
  have hdist : ∀ j k : Int, 0 ≤ j → j < (loaded_state pair_loaded 0 2).num_brain_nodes →
      0 ≤ k → k < (loaded_state pair_loaded 0 2).num_brain_nodes →
      ((loaded_state pair_loaded 0 2).brain_nodes j).id =
        ((loaded_state pair_loaded 0 2).brain_nodes k).id → j = k := by
    intro j k h1 h2 h3 h4 h5
    have h2b : j < 2 := h2
    have h4b : k < 2 := h4
    have hj : j = 0 ∨ j = 1 := by omega
    have hk : k = 0 ∨ k = 1 := by omega
    rcases hj with hj | hj <;> rcases hk with hk | hk <;> subst hj <;> subst hk
    · rfl
    · exact absurd h5 (by decide)
    · exact absurd h5 (by decide)
    · rfl
  have hids : ∀ j : Int, 0 ≤ j → j < (loaded_state pair_loaded 0 2).num_brain_nodes →
      0 ≤ ((loaded_state pair_loaded 0 2).brain_nodes j).id ∧
        ((loaded_state pair_loaded 0 2).brain_nodes j).id < 2048 := by
    intro j h1 h2
    have h2b : j < 2 := h2
    have hj : j = 0 ∨ j = 1 := by omega
    rcases hj with hj | hj <;> subst hj <;> decide
  obtain ⟨map, tbl, h1, h2, _, h4, h5⟩ := tables_agree_after_load pair_file pair_loaded
    (loaded_state pair_loaded 0 2) hl hone rfl rfl
    (fun _ _ _ => rfl) (by decide) (by decide) (by decide) hdist hids
  have hown : getOwnerRankById (startup (loaded_state pair_loaded 0 2)) 3 = 0 := by decide
  have h6 := h5 3 (SignalStruct.mk 0 1) 2 hown
  exact ⟨map, tbl, hl, hone, h1, h2, h4, hown, h6.2.1, h6.2.2.2.2⟩

/-- C17, refuted on `headless_file` and `twice_file`.  Both files have a
node and an edge, so `main` goes on to the table set-up; the node ids are
pairwise distinct and in `[0, 2048)`, and there is one worker.

* `headless_file`: the second node has no `<id>` line, so it keeps the id 0 of
  `memset` and the loader writes no table entry for it.  After startup the local
  table holds `id_to_index_map[0] = 1`, which is not `-1`, but the global table
  holds `id_to_index[0] = -1`.
* `twice_file`: the node has the `<id>` lines 5 and 6, so its id is 6 and the
  global table holds index 0 at 5 and at 6.  `getOwnerRankById(5)` is the
  sending worker 0, yet the local table has no entry for 5: `sendSignalToRank`
  takes the 'invalid ID' return and queues nothing. -/
theorem tables_disagree_on_unfit_files :
    (loadBrainGraph headless_file = some headless_loaded ∧
      headless_loaded.currentNeuronIdx = 2 ∧ headless_loaded.currentEdgeIdx = 1 ∧
      headless_loaded.node_ids 0 = 5 ∧ headless_loaded.node_ids 1 = 0 ∧
      (startup (loaded_state headless_loaded 0 1)).id_to_index_map.map (fun map => map 0) =
        some 1 ∧
      (startup (loaded_state headless_loaded 0 1)).id_to_index.map (fun tbl => tbl 0) =
        some (-1)) ∧
    (loadBrainGraph twice_file = some twice_loaded ∧
      twice_loaded.currentNeuronIdx = 1 ∧ twice_loaded.currentEdgeIdx = 1 ∧
      twice_loaded.node_ids 0 = 6 ∧
      getOwnerRankById (startup (loaded_state twice_loaded 0 1)) 5 = 0 ∧
      (sendSignalToRank (startup (loaded_state twice_loaded 0 1)) 5 (SignalStruct.mk 0 1) 0
        1).log = [LogLine.invalidLocalId 0 5] ∧
      ((sendSignalToRank (startup (loaded_state twice_loaded 0 1)) 5 (SignalStruct.mk 0 1) 0
        1).brain_nodes 0).num_outstanding_signals = 0) :=
  ⟨⟨rfl, by decide, by decide, by decide, by decide, by decide, by decide⟩,
    ⟨rfl, by decide, by decide, by decide, by decide, by decide, by decide⟩⟩

/-! ## Signal types in the inboxes -/

end BrainPdp
